import Mathlib

/-!
# Verification of the `config-parser` section state machine and serializer

A shallow embedding of `parser.go` (section registry, line dispatcher,
serializer, public section API) and of the `MaxConn` directive parser
(`src/unnamed/part_000`), together with proofs and refutations of the
frozen specification claims.

Components of the repository that are not part of the two source files
(the tokenization helpers from the `common`/`helpers` packages, the
per-section parser rosters built by `getStartParser`, `getDefaultParser`,
`getGlobalParser`, `getFrontendParser`, ... and the `ParserTypes`
attribute-store) are modelled from the specification; their doc comments
say so explicitly.
-/

namespace ConfigParser

/-! ## String utilities

Modelled from the spec: the `common`/`helpers` tokenization utilities are
external collaborators ("a utility that splits a raw line into
whitespace-separated tokens plus a trailing `#`-delimited comment").
We embed them as character-list scanners.
-/

/-- Is `c` a field separator (space or tab)? -/
def isWS (c : Char) : Bool := c = ' ' || c = '\t'

/-- Flush a (possibly empty) accumulated token. -/
def flushTok (cur : List Char) : List String :=
  if cur = [] then [] else [String.mk cur]

/-- Modelled from the spec: generic split-on-separators ignoring empty
fields (`common.StringSplitIgnoreEmpty` / `helpers.StringSplitIgnoreEmpty`).
`cur` is the token accumulated so far. -/
def splitIEAux (sep : Char) : List Char → List Char → List String
  | cur, [] => flushTok cur
  | cur, c :: rest =>
    if c = sep then flushTok cur ++ splitIEAux sep [] rest
    else splitIEAux sep (cur ++ [c]) rest

/-- `common.StringSplitIgnoreEmpty(s, sep)`: split on a separator,
dropping empty fields. -/
def stringSplitIgnoreEmpty (s : String) (sep : Char) : List String :=
  splitIEAux sep [] s.toList

/-- Modelled from the spec: `common.StringSplitWithCommentIgnoreEmpty`.
Splits a raw line into whitespace-separated tokens plus a trailing
`#`-delimited comment (leading whitespace of the comment stripped). -/
def splitWCAux : List Char → List Char → List String × String
  | cur, [] => (flushTok cur, "")
  | cur, c :: rest =>
    if c = '#' then (flushTok cur, String.mk (rest.dropWhile isWS))
    else if isWS c then
      let r := splitWCAux [] rest
      (flushTok cur ++ r.1, r.2)
    else splitWCAux (cur ++ [c]) rest

/-- `common.StringSplitWithCommentIgnoreEmpty(line, ' ', '\t')`. -/
def stringSplitWithCommentIgnoreEmpty (s : String) : List String × String :=
  splitWCAux [] s.toList

/-- `strings.HasPrefix(s, pre)`. -/
def goHasPre (s pre : String) : Bool :=
  List.isPrefixOf pre.toList s.toList

/-- Join tokens with single spaces (used when rendering directive lines). -/
def joinTokens : List String → String
  | [] => ""
  | [t] => t
  | t :: ts => t ++ " " ++ joinTokens ts

/-! ### Decimal integers: Go's `%d` formatting and `strconv.ParseInt(s, 10, 64)` -/

/-- Structural workhorse for decimal printing: `fuel` bounds the digit
count so the kernel can evaluate it. -/
def natCharsAux : Nat → Nat → List Char
  | 0, _ => []
  | fuel + 1, n =>
    if n < 10 then [Nat.digitChar n]
    else natCharsAux fuel (n / 10) ++ [Nat.digitChar (n % 10)]

/-- Decimal digit characters of `n`, most significant first (Go `%d` on a
non-negative value). -/
def natChars (n : Nat) : List Char :=
  natCharsAux (n + 1) n

/-- Go `fmt.Sprintf("%d", n)` for a signed integer. -/
def intToString (n : Int) : String :=
  if n < 0 then "-" ++ String.mk (natChars (-n).toNat)
  else String.mk (natChars n.toNat)

/-- Numeric value of a decimal digit character, if it is one. -/
def digitVal (c : Char) : Option Nat :=
  if '0' ≤ c ∧ c ≤ '9' then some (c.toNat - '0'.toNat) else none

/-- Accumulate the value of a decimal digit string. -/
def decDigits : List Char → Nat → Option Nat
  | [], acc => some acc
  | c :: rest, acc =>
    match digitVal c with
    | some d => decDigits rest (acc * 10 + d)
    | none => none

/-- Value of a non-empty unsigned decimal digit string. -/
def parseUns (l : List Char) : Option Nat :=
  if l = [] then none else decDigits l 0

/-- `strconv.ParseInt(s, 10, 64)`: optional sign, non-empty decimal
digits, 64-bit signed range; `none` models a non-nil error. -/
def parseInt64 (s : String) : Option Int :=
  match s.toList with
  | [] => none
  | c :: rest =>
    if c = '+' then
      (parseUns rest).bind fun m =>
        if m ≤ 9223372036854775807 then some (Int.ofNat m) else none
    else if c = '-' then
      (parseUns rest).bind fun m =>
        if m ≤ 9223372036854775808 then some (-(Int.ofNat m)) else none
    else
      (parseUns (c :: rest)).bind fun m =>
        if m ≤ 9223372036854775807 then some (Int.ofNat m) else none

/-! ## The `MaxConn` directive parser (`src/unnamed/part_000`)

Embedded directly from the source file: `Parse` accepts by
`strings.HasPrefix(line, "maxconn")`, splits the raw line on single
spaces, and decodes the second field with `strconv.ParseInt(_, 10, 64)`.
-/

/-- `errors.ParseError{Parser, Line, Message}`. -/
structure GoParseError where
  parser : String
  line : String
  message : String
deriving Repr, DecidableEq

/-- `type MaxConn struct { Value int64; valid bool }`. -/
structure MaxConn where
  Value : Int
  valid : Bool
deriving Repr, DecidableEq

/-- `func (m *MaxConn) Init()`. -/
def MaxConn.Init (m : MaxConn) : MaxConn := { m with valid := false }

/-- `func (m *MaxConn) GetParserName() string`. -/
def MaxConn.GetParserName (_m : MaxConn) : String := "maxconn"

/-- `func (m *MaxConn) Parse(line, wholeLine, previousLine string)
(changeState string, err error)`; the returned `MaxConn` is the
receiver after the call (Go mutates it through the pointer). -/
def MaxConn.Parse (m : MaxConn) (line _wholeLine _previousLine : String) :
    (String × Option GoParseError) × MaxConn :=
  if goHasPre line "maxconn" then
    let parts := stringSplitIgnoreEmpty line ' '
    if parts.length < 2 then
      (("", some ⟨"SectionName", line, "Parse error"⟩), m)
    else
      match parseInt64 ((parts.get? 1).getD "") with
      | none => (("", some ⟨"SectionName", line, "strconv parse error"⟩), m)
      | some num => (("", none), { m with valid := true, Value := num })
  else
    (("", some ⟨"SectionName", line, ""⟩), m)

/-- `func (m *MaxConn) Valid() bool`. -/
def MaxConn.Valid (m : MaxConn) : Bool :=
  if m.valid then true else false

/-- `func (m *MaxConn) String() []string`. -/
def MaxConn.StringOut (m : MaxConn) : List String :=
  ["  maxconn " ++ intToString m.Value]

/-! ## Section kinds (`type Section string` and its constants) -/

/-- The closed enumeration of section kinds from `parser.go`. -/
inductive Section
  | Comments | Defaults | Global | Resolvers | UserList | Peers | Mailers
  | Frontends | Backends | Listen | Cache | Program
deriving DecidableEq, Repr

/-- The string value of each `Section` constant in `parser.go`. -/
def sectionString : Section → String
  | .Comments => "#"
  | .Defaults => "defaults"
  | .Global => "global"
  | .Resolvers => "resolvers"
  | .UserList => "userlist"
  | .Peers => "peers"
  | .Mailers => "mailers"
  | .Frontends => "frontend"
  | .Backends => "backend"
  | .Listen => "listen"
  | .Cache => "cache"
  | .Program => "program"

/-- Keywords of the multi-instance section kinds. -/
def multiKeywords : List String :=
  ["resolvers", "userlist", "peers", "mailers", "frontend", "backend",
   "listen", "cache", "program"]

/-! ## Directive parsers (the `ParserType` capability contract)

Modelled from the spec: the concrete roster of directive grammars is an
external collaborator (§1, §4.2); per the design notes (§9) we embed it
as a closed tagged union over {section-declaration, comment-only line,
scalar integer directive, indexed-list directive}.  The inline trailing
comment of a directive line is not stored by the modelled directives
(only comment-only lines are preserved, as in §6).
-/

/-- Errors of the error taxonomy in §7 (`errors` package). -/
inductive PErr
  | SectionMissing
  | SectionAlreadyExists
  | AttributeNotFound
  | IndexOutOfRange
  | TypeMismatch
  | ParseErr (parser line message : String)
deriving DecidableEq, Repr

/-- `common.ParserData`: the payload passed through the generic API. -/
inductive PValue
  | intV (n : Int)
  | argsV (l : List String)
  | noneV
deriving DecidableEq, Repr

/-- One output line with its optional attached comment (`common.Line`). -/
structure Line where
  data : String
  comment : String
deriving DecidableEq, Repr

deriving instance DecidableEq for Except

/-- The four arguments handed to every `Parse` call by `ProcessLine`. -/
structure LineIn where
  line : String
  parts : List String
  previousParts : List String
  comment : String
deriving DecidableEq, Repr

/-- Modelled from the spec: a closed union of directive-parser states.
`sectionDecl` is `extra.Section` (accepts section-declaration lines and
reports the state transition), `commentLine` preserves comment-only
lines, `intDirective` is a scalar integer directive (such as `maxconn`),
`listDirective` an indexed multi-valued directive. -/
inductive ParserType
  | sectionDecl (stored : Option (String × String))
  | commentLine (stored : List String)
  | intDirective (keyword : String) (value : Option Int)
  | listDirective (keyword : String) (entries : List (List String))
deriving DecidableEq, Repr

/-- `GetParserName()`: the stable attribute key of each parser. -/
def ParserType.name : ParserType → String
  | .sectionDecl _ => "section"
  | .commentLine _ => "#"
  | .intDirective k _ => k
  | .listDirective k _ => k

/-- Modelled from the spec (§4.2): `parse(tokens, previousTokens,
trailingComment)`; `.ok` carries the transition signal (empty string =
no transition) and the parser after the call; `.error` is either the
soft keyword-mismatch error (empty message) or a hard malformed-value
error. -/
def ParserType.parse (pt : ParserType) (inp : LineIn) :
    Except GoParseError (String × ParserType) :=
  match pt with
  | .sectionDecl _ =>
    match inp.parts with
    | [] => .error ⟨"Section", inp.line, ""⟩
    | kw :: rest =>
      if multiKeywords.contains kw then
        match rest with
        | [] => .error ⟨"Section", inp.line, "Parse error"⟩
        | nm :: _ => .ok (kw, .sectionDecl (some (kw, nm)))
      else if kw = "defaults" || kw = "global" then
        .ok (kw, .sectionDecl (some (kw, "")))
      else .error ⟨"Section", inp.line, ""⟩
  | .commentLine stored =>
    if inp.parts = [""] then .ok ("", .commentLine (stored ++ [inp.comment]))
    else .error ⟨"Comments", inp.line, ""⟩
  | .intDirective k v =>
    match inp.parts with
    | [] => .error ⟨k, inp.line, ""⟩
    | kw :: rest =>
      if kw = k then
        match rest with
        | [] => .error ⟨k, inp.line, "Parse error"⟩
        | x :: _ =>
          match parseInt64 x with
          | some n => .ok ("", .intDirective k (some n))
          | none =>
            let _ := v
            .error ⟨k, inp.line, "strconv parse error"⟩
      else .error ⟨k, inp.line, ""⟩
  | .listDirective k entries =>
    match inp.parts with
    | [] => .error ⟨k, inp.line, ""⟩
    | kw :: rest =>
      if kw = k then .ok ("", .listDirective k (entries ++ [rest]))
      else .error ⟨k, inp.line, ""⟩

/-- `Result(true)`: the output lines of one parser; `none` models the
non-nil error returned when the payload is absent/invalid (§4.2:
"produces zero lines if invalid/absent"). -/
def ParserType.result (pt : ParserType) (_preserveComment : Bool) :
    Option (List Line) :=
  match pt with
  | .sectionDecl _ => none
  | .commentLine stored =>
    if stored = [] then none
    else some (stored.map fun c => ⟨"# " ++ c, ""⟩)
  | .intDirective k v =>
    match v with
    | none => none
    | some n => some [⟨k ++ " " ++ intToString n, ""⟩]
  | .listDirective k entries =>
    if entries = [] then none
    else some (entries.map fun a => ⟨joinTokens (k :: a), ""⟩)

/-- Modelled from the spec (§4.2): `get(createIfAbsent)`; the returned
parser is the receiver after the call (lazy materialization mutates). -/
def ParserType.get (pt : ParserType) (createIfNotExist : Bool) :
    Except PErr PValue × ParserType :=
  match pt with
  | .sectionDecl none => (.error .AttributeNotFound, pt)
  | .sectionDecl (some (kw, nm)) => (.ok (.argsV [kw, nm]), pt)
  | .commentLine [] =>
    if createIfNotExist then (.ok (.argsV []), pt)
    else (.error .AttributeNotFound, pt)
  | .commentLine stored => (.ok (.argsV stored), pt)
  | .intDirective k none =>
    if createIfNotExist then (.ok (.intV 0), .intDirective k (some 0))
    else (.error .AttributeNotFound, pt)
  | .intDirective _ (some n) => (.ok (.intV n), pt)
  | .listDirective _ [] =>
    if createIfNotExist then (.ok (.argsV []), pt)
    else (.error .AttributeNotFound, pt)
  | .listDirective _ entries => (.ok (.argsV (entries.map joinTokens)), pt)

/-- Modelled from the spec (§4.2): `getOne(index)`; single-valued
directives ignore the index, multi-valued ones bounds-check it and
reject the unspecified-index sentinel `-1`. -/
def ParserType.getOne (pt : ParserType) (index : Int) : Except PErr PValue :=
  match pt with
  | .sectionDecl none => .error .AttributeNotFound
  | .sectionDecl (some (kw, nm)) => .ok (.argsV [kw, nm])
  | .commentLine [] => .error .AttributeNotFound
  | .commentLine stored =>
    if h : 0 ≤ index ∧ index.toNat < stored.length then
      .ok (.argsV [stored.get ⟨index.toNat, h.2⟩])
    else .error .IndexOutOfRange
  | .intDirective _ none => .error .AttributeNotFound
  | .intDirective _ (some n) => .ok (.intV n)
  | .listDirective _ [] => .error .AttributeNotFound
  | .listDirective _ entries =>
    if h : 0 ≤ index ∧ index.toNat < entries.length then
      .ok (.argsV (entries.get ⟨index.toNat, h.2⟩))
    else .error .IndexOutOfRange

/-- Modelled from the spec (§4.2): `set(value, index)`; `noneV` clears
the payload ("can be nil to disable/remove"); index `-1` appends for a
multi-valued directive and is ignored for a single-valued one. -/
def ParserType.set (pt : ParserType) (v : PValue) (index : Int) :
    Except PErr Unit × ParserType :=
  match pt, v with
  | .intDirective k _, .intV n => (.ok (), .intDirective k (some n))
  | .intDirective k _, .noneV => (.ok (), .intDirective k none)
  | .listDirective k entries, .argsV a =>
    if index = -1 then (.ok (), .listDirective k (entries ++ [a]))
    else if h : 0 ≤ index ∧ index.toNat < entries.length then
      (.ok (), .listDirective k (entries.set index.toNat a))
    else (.error .IndexOutOfRange, pt)
  | .listDirective k _, .noneV => (.ok (), .listDirective k [])
  | .commentLine _, .argsV l => (.ok (), .commentLine l)
  | .commentLine _, .noneV => (.ok (), .commentLine [])
  | _, _ => (.error .TypeMismatch, pt)

/-- Modelled from the spec (§4.2): `insert(value, index)`; only
meaningful for multi-valued payloads; index `-1` appends. -/
def ParserType.insert (pt : ParserType) (v : PValue) (index : Int) :
    Except PErr Unit × ParserType :=
  match pt, v with
  | .listDirective k entries, .argsV a =>
    if index = -1 then (.ok (), .listDirective k (entries ++ [a]))
    else if 0 ≤ index ∧ index.toNat ≤ entries.length then
      (.ok (), .listDirective k (entries.take index.toNat ++ a :: entries.drop index.toNat))
    else (.error .IndexOutOfRange, pt)
  | _, _ => (.error .TypeMismatch, pt)

/-- Modelled from the spec (§4.2): `delete(index)`; single-valued clears
validity, multi-valued removes the element at `index`, shifting left. -/
def ParserType.delete (pt : ParserType) (index : Int) :
    Except PErr Unit × ParserType :=
  match pt with
  | .intDirective k _ => (.ok (), .intDirective k none)
  | .commentLine _ => (.ok (), .commentLine [])
  | .listDirective k entries =>
    if h : 0 ≤ index ∧ index.toNat < entries.length then
      (.ok (), .listDirective k (entries.eraseIdx index.toNat))
    else (.error .IndexOutOfRange, pt)
  | .sectionDecl _ => (.error .AttributeNotFound, pt)

/-! ## Section Parser Sets (`ParserTypes`) and the Section Registry

`type ParserTypes struct { parsers []ParserType }` is declared outside
the two source files; its delegation contract is modelled from §4.3:
locate the named Directive Parser in registration order and delegate,
returning `AttributeNotFound` when no parser carries that name.
-/

/-- An ordered Section Parser Set. -/
structure ParserTypes where
  parsers : List ParserType
deriving DecidableEq, Repr

/-- Delegate `Get` to the first parser named `attr`. -/
def getAux (attr : String) (create : Bool) :
    List ParserType → Except PErr PValue × List ParserType
  | [] => (.error .AttributeNotFound, [])
  | pt :: rest =>
    if pt.name = attr then
      let r := pt.get create
      (r.1, r.2 :: rest)
    else
      let r := getAux attr create rest
      (r.1, pt :: r.2)

/-- Delegate `GetOne` to the first parser named `attr` (no mutation). -/
def getOneAux (attr : String) (index : Int) :
    List ParserType → Except PErr PValue
  | [] => .error .AttributeNotFound
  | pt :: rest =>
    if pt.name = attr then pt.getOne index else getOneAux attr index rest

/-- Delegate `Set` to the first parser named `attr`. -/
def setAux (attr : String) (v : PValue) (index : Int) :
    List ParserType → Except PErr Unit × List ParserType
  | [] => (.error .AttributeNotFound, [])
  | pt :: rest =>
    if pt.name = attr then
      let r := pt.set v index
      (r.1, r.2 :: rest)
    else
      let r := setAux attr v index rest
      (r.1, pt :: r.2)

/-- Delegate `Insert` to the first parser named `attr`. -/
def insertAux (attr : String) (v : PValue) (index : Int) :
    List ParserType → Except PErr Unit × List ParserType
  | [] => (.error .AttributeNotFound, [])
  | pt :: rest =>
    if pt.name = attr then
      let r := pt.insert v index
      (r.1, r.2 :: rest)
    else
      let r := insertAux attr v index rest
      (r.1, pt :: r.2)

/-- Delegate `Delete` to the first parser named `attr`. -/
def deleteAux (attr : String) (index : Int) :
    List ParserType → Except PErr Unit × List ParserType
  | [] => (.error .AttributeNotFound, [])
  | pt :: rest =>
    if pt.name = attr then
      let r := pt.delete index
      (r.1, r.2 :: rest)
    else
      let r := deleteAux attr index rest
      (r.1, pt :: r.2)

/-- `ParserTypes.Get`. -/
def ParserTypes.Get (ps : ParserTypes) (attr : String) (create : Bool) :
    Except PErr PValue × ParserTypes :=
  let r := getAux attr create ps.parsers
  (r.1, ⟨r.2⟩)

/-- `ParserTypes.GetOne`. -/
def ParserTypes.GetOne (ps : ParserTypes) (attr : String) (index : Int) :
    Except PErr PValue :=
  getOneAux attr index ps.parsers

/-- `ParserTypes.Set`. -/
def ParserTypes.Set (ps : ParserTypes) (attr : String) (v : PValue) (index : Int) :
    Except PErr Unit × ParserTypes :=
  let r := setAux attr v index ps.parsers
  (r.1, ⟨r.2⟩)

/-- `ParserTypes.Insert`. -/
def ParserTypes.Insert (ps : ParserTypes) (attr : String) (v : PValue) (index : Int) :
    Except PErr Unit × ParserTypes :=
  let r := insertAux attr v index ps.parsers
  (r.1, ⟨r.2⟩)

/-- `ParserTypes.Delete`. -/
def ParserTypes.Delete (ps : ParserTypes) (attr : String) (index : Int) :
    Except PErr Unit × ParserTypes :=
  let r := deleteAux attr index ps.parsers
  (r.1, ⟨r.2⟩)

/-- `ParserTypes.HasParser(attribute)`. -/
def ParserTypes.HasParser (ps : ParserTypes) (attr : String) : Bool :=
  ps.parsers.any fun pt => pt.name = attr

/-! ### The per-kind rosters

Modelled from the spec: `getStartParser`, `getDefaultParser`,
`getGlobalParser` and the nine multi-instance constructors install a
fixed, kind-specific roster of Directive Parsers (§4.3; "the roster is
data, not behavior").  Every roster begins with the section-declaration
parser so that a section header ends the previous section (§4.1);
`maxconn` is present in `defaults`/`global` bodies per the §8 example.
-/

/-- The indexed-list directive keyword installed for each kind. -/
def listKeyword : Section → String
  | .Comments => "#"
  | .Defaults => "timeout"
  | .Global => "log"
  | .Resolvers => "nameserver"
  | .UserList => "user"
  | .Peers => "peer"
  | .Mailers => "mailer"
  | .Frontends => "bind"
  | .Backends => "server"
  | .Listen => "server"
  | .Cache => "total-max-size"
  | .Program => "command"

/-- Roster of a body-holding section kind. -/
def rosterFor (sec : Section) : ParserTypes :=
  ⟨[.sectionDecl none, .intDirective "maxconn" none,
    .listDirective (listKeyword sec) []]⟩

/-- `getStartParser()`: the Comments pseudo-section roster. -/
def getStartParser : ParserTypes :=
  ⟨[.sectionDecl none, .commentLine []]⟩

/-- `getDefaultParser()`. -/
def getDefaultParser : ParserTypes := rosterFor .Defaults

/-- `getGlobalParser()`. -/
def getGlobalParser : ParserTypes := rosterFor .Global

/-- `getFrontendParser()`. -/
def getFrontendParser : ParserTypes := rosterFor .Frontends

/-- `getBackendParser()`. -/
def getBackendParser : ParserTypes := rosterFor .Backends

/-- `getListenParser()`. -/
def getListenParser : ParserTypes := rosterFor .Listen

/-- `getResolverParser()`. -/
def getResolverParser : ParserTypes := rosterFor .Resolvers

/-- `getUserlistParser()`. -/
def getUserlistParser : ParserTypes := rosterFor .UserList

/-- `getPeersParser()`. -/
def getPeersParser : ParserTypes := rosterFor .Peers

/-- `getMailersParser()`. -/
def getMailersParser : ParserTypes := rosterFor .Mailers

/-- `getCacheParser()`. -/
def getCacheParser : ParserTypes := rosterFor .Cache

/-- `getProgramParser()`. -/
def getProgramParser : ParserTypes := rosterFor .Program

/-! ### The registry (`Parsers map[Section]map[string]*ParserTypes`) -/

/-- One kind's name-to-set mapping; a Go map embedded as an association
list with unique keys (Go map iteration order is unspecified; the only
order-sensitive consumers sort (`getSortedList`) or are probed on the
first element (`HasParser`)). -/
abbrev NameMap := List (String × ParserTypes)

/-- Go `m[k] = v`: overwrite in place or add the key. -/
def mapSet (m : NameMap) (nm : String) (v : ParserTypes) : NameMap :=
  if m.any (fun e => e.1 = nm) then
    m.map fun e => if e.1 = nm then (nm, v) else e
  else m ++ [(nm, v)]

/-- Go pointer mutation of an existing entry: replace only if present. -/
def mapReplace (m : NameMap) (nm : String) (v : ParserTypes) : NameMap :=
  m.map fun e => if e.1 = nm then (nm, v) else e

/-- Go `delete(m, k)`. -/
def mapErase (m : NameMap) (nm : String) : NameMap :=
  m.filter fun e => e.1 ≠ nm

/-- The top-level `Parser`: owns the Section Registry.  The mutex is a
no-op under the synchronous semantics (§5) and is not represented. -/
structure Parser where
  Parsers : Section → Option NameMap

/-- `ConfiguredParsers`: the transient parse state.  Go stores `Active`
and the cached singleton sets as pointers aliasing registry entries;
mutations through them are mutations of the registry entry, so the
state is embedded as the current state tag plus the registry key of the
active set. -/
structure ConfiguredParsers where
  State : String
  ActiveKey : Section × String

/-- The Section Parser Set the active key refers to. -/
def Parser.activeSet (p : Parser) (config : ConfiguredParsers) : ParserTypes :=
  (((p.Parsers config.ActiveKey.1).getD []).lookup config.ActiveKey.2).getD ⟨[]⟩

/-- Write the mutated active set back through the aliased pointer. -/
def Parser.updateSection (p : Parser) (sec : Section) (nm : String)
    (v : ParserTypes) : Parser :=
  ⟨fun k => if k = sec then (p.Parsers sec).map (fun m => mapReplace m nm v)
            else p.Parsers k⟩

/-- `p.Parsers[sec][nm] = v` on a section-kind map known to exist. -/
def Parser.registerSection (p : Parser) (sec : Section) (nm : String)
    (v : ParserTypes) : Parser :=
  ⟨fun k => if k = sec then some (mapSet ((p.Parsers sec).getD []) nm v)
            else p.Parsers k⟩

/-! ## The Parse State Machine (`Parser.ProcessLine`) -/

/-- The dispatch loop of `ProcessLine`: try each parser of the active
set in registration order; the first whose `Parse` returns no error
wins (`break`).  Returns the winner's position, its transition signal
and the parser after its mutation. -/
def findAccept (inp : LineIn) : List ParserType → Option (Nat × String × ParserType)
  | [] => none
  | pt :: rest =>
    match pt.parse inp with
    | .ok (st, pt2) => some (0, st, pt2)
    | .error _ =>
      match findAccept inp rest with
      | some (i, st, pt2) => some (i + 1, st, pt2)
      | none => none

/-- How many parsers the dispatch loop invokes on this line: every
parser up to and including the first accepting one, or all of them when
none accepts. -/
def invokedCount (inp : LineIn) : List ParserType → Nat
  | [] => 0
  | pt :: rest =>
    match pt.parse inp with
    | .ok _ => 1
    | .error _ => 1 + invokedCount inp rest

/-- Go `parser.(*extra.Section).Get(false)` followed by the
`(*types.Section)` assertion: recover the section name produced by the
accepting section-declaration parser.  Only `sectionDecl` parsers
report a non-empty transition, so the default branch (a Go panic) is
unreachable on the transition path. -/
def extractName : ParserType → String
  | .sectionDecl (some (_, nm)) => nm
  | _ => ""

/-- One `if config.State == "<kw>"` statement of `ProcessLine` that
reactivates an existing singleton set. -/
def singletonStep (kw : String) (key : Section × String)
    (r : Parser × ConfiguredParsers) : Parser × ConfiguredParsers :=
  if r.2.State = kw then (r.1, { r.2 with ActiveKey := key }) else r

/-- One `if config.State == "<kw>"` statement of `ProcessLine` that
builds a fresh roster, registers it under the name produced by the
accepting section-declaration parser, and activates it. -/
def dispatchStep (kw : String) (k : Section) (roster : ParserTypes)
    (pt : ParserType) (r : Parser × ConfiguredParsers) :
    Parser × ConfiguredParsers :=
  if r.2.State = kw then
    (r.1.registerSection k (extractName pt) roster,
     { r.2 with ActiveKey := (k, extractName pt) })
  else r

/-- The state-transition block of `ProcessLine` (the chain of
`if config.State == ...` statements), applied after a successful parse
reported the non-empty state `config.State`. -/
def stateDispatch (p0 : Parser) (cfg0 : ConfiguredParsers) (pt : ParserType) :
    Parser × ConfiguredParsers :=
  dispatchStep "program" .Program getProgramParser pt
    (dispatchStep "cache" .Cache getCacheParser pt
      (dispatchStep "mailers" .Mailers getMailersParser pt
        (dispatchStep "peers" .Peers getPeersParser pt
          (dispatchStep "userlist" .UserList getUserlistParser pt
            (dispatchStep "resolvers" .Resolvers getResolverParser pt
              (dispatchStep "listen" .Listen getListenParser pt
                (dispatchStep "backend" .Backends getBackendParser pt
                  (dispatchStep "frontend" .Frontends getFrontendParser pt
                    (singletonStep "global" (.Global, "data")
                      (singletonStep "defaults" (.Defaults, "data")
                        (singletonStep "" (.Comments, "data") (p0, cfg0))))))))))))

/-- `func (p *Parser) ProcessLine(line string, parts, previousParts
[]string, comment string, config ConfiguredParsers) ConfiguredParsers`;
the returned `Parser` is the receiver after its registry mutations. -/
def Parser.ProcessLine (p : Parser) (line : String)
    (parts previousParts : List String) (comment : String)
    (config : ConfiguredParsers) : Parser × ConfiguredParsers :=
  let act := p.activeSet config
  match findAccept ⟨line, parts, previousParts, comment⟩ act.parsers with
  | none => (p, config)
  | some (i, newState, pt2) =>
    let p1 := p.updateSection config.ActiveKey.1 config.ActiveKey.2
      ⟨act.parsers.set i pt2⟩
    if newState ≠ "" then
      stateDispatch p1 { config with State := newState } pt2
    else (p1, config)

/-! ## Loading (`Parser.ParseData`) -/

/-- The registry as initialized at the top of `ParseData`: the three
singleton kinds hold one instance keyed `"data"`; the nine
multi-instance kinds start empty. -/
def initParsers : Section → Option NameMap
  | .Comments => some [("data", getStartParser)]
  | .Defaults => some [("data", getDefaultParser)]
  | .Global => some [("data", getGlobalParser)]
  | _ => some []

/-- The line loop of `ParseData`: skip empty lines, tokenize, rewrite a
comment-only line to the sentinel `[""]` token list, skip fully blank
token lists, dispatch, and thread `previousLine`. -/
def parseLines (p : Parser) (cfg : ConfiguredParsers)
    (previousLine : List String) : List String → Parser
  | [] => p
  | line :: rest =>
    if line = "" then parseLines p cfg previousLine rest
    else
      let pc := stringSplitWithCommentIgnoreEmpty line
      let parts := if pc.1 = [] ∧ pc.2 ≠ "" then [""] else pc.1
      if parts = [] then parseLines p cfg previousLine rest
      else
        let r := p.ProcessLine line parts previousLine pc.2 cfg
        parseLines r.1 r.2 parts rest

/-- `func (p *Parser) ParseData(dat string) error`, state part: resets
the registry and feeds every line through `ProcessLine`. -/
def ParseData (dat : String) : Parser :=
  parseLines ⟨initParsers⟩ ⟨"", (Section.Comments, "data")⟩ []
    (splitIEAux '\n' [] dat.toList)

/-- `ParseData`'s returned `error` value: the function body ends in
`return nil` and has no other return, so the result is always `.ok`. -/
def ParseDataE (dat : String) : Except PErr Parser :=
  .ok (ParseData dat)

/-! ## The public section / attribute API -/

/-- `func (p *Parser) Get(sectionType, sectionName, attribute,
createIfNotExist...)`; the variadic flag is embedded as a `Bool`. -/
def Parser.Get (p : Parser) (sectionType : Section)
    (sectionName attrName : String) (createIfNotExist : Bool) :
    Except PErr PValue × Parser :=
  match p.Parsers sectionType with
  | none => (.error .SectionMissing, p)
  | some st =>
    match st.lookup sectionName with
    | none => (.error .SectionMissing, p)
    | some sec =>
      let r := sec.Get attrName createIfNotExist
      (r.1, p.updateSection sectionType sectionName r.2)

/-- `func (p *Parser) GetOne(sectionType, sectionName, attribute,
index...)`; a negative supplied index is normalized to `-1`. -/
def Parser.GetOne (p : Parser) (sectionType : Section)
    (sectionName attrName : String) (index : Int) : Except PErr PValue :=
  let setIndex : Int := if index > -1 then index else -1
  match p.Parsers sectionType with
  | none => .error .SectionMissing
  | some st =>
    match st.lookup sectionName with
    | none => .error .SectionMissing
    | some sec => sec.GetOne attrName setIndex

/-- `func (p *Parser) SectionsGet(sectionType)`: the names of the
sections of one kind, in registry order. -/
def Parser.SectionsGet (p : Parser) (sectionType : Section) :
    Except PErr (List String) :=
  match p.Parsers sectionType with
  | none => .error .SectionMissing
  | some st => .ok (st.map Prod.fst)

/-- `func (p *Parser) SectionsDelete(sectionType, sectionName)`. -/
def Parser.SectionsDelete (p : Parser) (sectionType : Section)
    (sectionName : String) : Except PErr Unit × Parser :=
  match p.Parsers sectionType with
  | none => (.error .SectionMissing, p)
  | some st =>
    (.ok (), ⟨fun k => if k = sectionType then some (mapErase st sectionName)
                       else p.Parsers k⟩)

/-- `func (p *Parser) SectionsCreate(sectionType, sectionName)`:
synthesizes `"<kind> <name>"` and feeds it through `ProcessLine` with a
fresh `ConfiguredParsers` anchored at the Comments singleton. -/
def Parser.SectionsCreate (p : Parser) (sectionType : Section)
    (sectionName : String) : Except PErr Unit × Parser :=
  match p.Parsers sectionType with
  | none => (.error .SectionMissing, p)
  | some st =>
    match st.lookup sectionName with
    | some _ => (.error .SectionAlreadyExists, p)
    | none =>
      let parsers : ConfiguredParsers := ⟨"", (Section.Comments, "data")⟩
      let parts := [sectionString sectionType, sectionName]
      let r := p.ProcessLine (sectionString sectionType ++ " " ++ sectionName)
        parts [] "" parsers
      (.ok (), r.1)

/-- `func (p *Parser) Set(sectionType, sectionName, attribute, data,
index...)`. -/
def Parser.Set (p : Parser) (sectionType : Section)
    (sectionName attrName : String) (data : PValue) (index : Int) :
    Except PErr Unit × Parser :=
  let setIndex : Int := if index > -1 then index else -1
  match p.Parsers sectionType with
  | none => (.error .SectionMissing, p)
  | some st =>
    match st.lookup sectionName with
    | none => (.error .SectionMissing, p)
    | some sec =>
      let r := sec.Set attrName data setIndex
      (r.1, p.updateSection sectionType sectionName r.2)

/-- `func (p *Parser) Delete(sectionType, sectionName, attribute,
index...)`. -/
def Parser.Delete (p : Parser) (sectionType : Section)
    (sectionName attrName : String) (index : Int) :
    Except PErr Unit × Parser :=
  let setIndex : Int := if index > -1 then index else -1
  match p.Parsers sectionType with
  | none => (.error .SectionMissing, p)
  | some st =>
    match st.lookup sectionName with
    | none => (.error .SectionMissing, p)
    | some sec =>
      let r := sec.Delete attrName setIndex
      (r.1, p.updateSection sectionType sectionName r.2)

/-- `func (p *Parser) Insert(sectionType, sectionName, attribute, data,
index...)`. -/
def Parser.Insert (p : Parser) (sectionType : Section)
    (sectionName attrName : String) (data : PValue) (index : Int) :
    Except PErr Unit × Parser :=
  let setIndex : Int := if index > -1 then index else -1
  match p.Parsers sectionType with
  | none => (.error .SectionMissing, p)
  | some st =>
    match st.lookup sectionName with
    | none => (.error .SectionMissing, p)
    | some sec =>
      let r := sec.Insert attrName data setIndex
      (r.1, p.updateSection sectionType sectionName r.2)

/-- `func (p *Parser) HasParser(sectionType, attribute) bool`: probe
the first instance the map iteration yields (the head of the
association list), or the empty name when the kind has no instances. -/
def Parser.HasParser (p : Parser) (sectionType : Section)
    (attrName : String) : Bool :=
  match p.Parsers sectionType with
  | none => false
  | some st =>
    let sectionName := match st with | [] => "" | e :: _ => e.1
    match st.lookup sectionName with
    | none => false
    | some sec => sec.HasParser attrName

/-! ## The serializer (`Parser.String`) -/

/-- Concatenation of a list of strings (the `strings.Builder` writes). -/
def strConcat : List String → String
  | [] => ""
  | s :: rest => s ++ strConcat rest

/-- Render one output line: optional two-space indentation, the data,
`" # <comment>"` when a comment is attached, and the newline. -/
def renderLine (useInd : Bool) (l : Line) : String :=
  (if useInd then "  " else "") ++ l.data ++
    (if l.comment ≠ "" then " # " ++ l.comment else "") ++ "\n"

/-- The loop of `writeParsers`: parsers whose `Result` errors are
skipped; the first parser with output triggers the header (`"\n"`,
the section name, `" \n"`) unless the flag says it was written. -/
def writeParsersAux (sectionName : String) (useInd : Bool) :
    List ParserType → Bool → String
  | [], _ => ""
  | pt :: rest, written =>
    match pt.result true with
    | none => writeParsersAux sectionName useInd rest written
    | some lines =>
      (if written then "" else "\n" ++ sectionName ++ " \n")
      ++ strConcat (lines.map (renderLine useInd))
      ++ writeParsersAux sectionName useInd rest true

/-- `func (p *Parser) writeParsers(sectionName, parsers, result,
useIndentation)`: the string appended to the builder; an empty section
name marks the header as already written. -/
def writeParsers (sectionName : String) (parsers : List ParserType)
    (useIndentation : Bool) : String :=
  writeParsersAux sectionName useIndentation parsers (sectionName = "")

/-- Lexicographic comparison of character lists by code point (on
valid UTF-8, identical to Go's byte-wise string order). -/
def charListLe : List Char → List Char → Bool
  | [], _ => true
  | _ :: _, [] => false
  | a :: as, b :: bs =>
    if a.toNat < b.toNat then true
    else if b.toNat < a.toNat then false
    else charListLe as bs

/-- Go string comparison (`s1 < s2` in `sort.Strings`). -/
def strLe (a b : String) : Bool := charListLe a.toList b.toList

/-- `func (p *Parser) getSortedList(data)`: the keys sorted with
`sort.Strings` (lexicographic). -/
def getSortedList (data : NameMap) : List String :=
  List.insertionSort (fun a b : String => strLe a b = true)
    (data.map Prod.fst)

/-- The fixed multi-instance kind order of `Parser.String`. -/
def sectionsOrder : List Section :=
  [.UserList, .Peers, .Mailers, .Resolvers, .Cache, .Frontends,
   .Backends, .Listen, .Program]

/-- The text `Parser.String` emits for one multi-instance kind. -/
def Parser.renderKind (p : Parser) (sec : Section) : String :=
  let m := (p.Parsers sec).getD []
  strConcat ((getSortedList m).map fun nm =>
    writeParsers (sectionString sec ++ " " ++ nm)
      (((m.lookup nm).getD ⟨[]⟩).parsers) true)

/-- `func (p *Parser) String() string`: Comments with no header, then
`defaults`, then `global`, then the nine multi-instance kinds in fixed
order with names sorted.  A missing singleton entry is rendered empty
where Go would dereference a nil pointer. -/
def Parser.render (p : Parser) : String :=
  writeParsers ""
    ((((p.Parsers .Comments).getD []).lookup "data").getD ⟨[]⟩).parsers false
  ++ writeParsers "defaults"
    ((((p.Parsers .Defaults).getD []).lookup "data").getD ⟨[]⟩).parsers true
  ++ writeParsers "global"
    ((((p.Parsers .Global).getD []).lookup "data").getD ⟨[]⟩).parsers true
  ++ strConcat (sectionsOrder.map p.renderKind)

/-! ## Further definitions used by the claim statements -/

/-- The names registered under one kind (`none` when the kind map is
absent, as before initialization). -/
def domOf (p : Parser) (s : Section) : Option (List String) :=
  (p.Parsers s).map fun m => m.map Prod.fst

/-- The public API operations (§6) as data, to state invariants over
arbitrary operation sequences. -/
inductive Op
  | get (k : Section) (nm attr : String) (create : Bool)
  | getOne (k : Section) (nm attr : String) (index : Int)
  | sectionsGet (k : Section)
  | sectionsDel (k : Section) (nm : String)
  | sectionsCreate (k : Section) (nm : String)
  | setAttr (k : Section) (nm attr : String) (v : PValue) (index : Int)
  | delAttr (k : Section) (nm attr : String) (index : Int)
  | insAttr (k : Section) (nm attr : String) (v : PValue) (index : Int)
  | hasParser (k : Section) (attr : String)
  | render
deriving DecidableEq

/-- The registry after one public operation (result values dropped). -/
def applyOp (p : Parser) : Op → Parser
  | .get k nm attr c => (p.Get k nm attr c).2
  | .getOne _ _ _ _ => p
  | .sectionsGet _ => p
  | .sectionsDel k nm => (p.SectionsDelete k nm).2
  | .sectionsCreate k nm => (p.SectionsCreate k nm).2
  | .setAttr k nm attr v i => (p.Set k nm attr v i).2
  | .delAttr k nm attr i => (p.Delete k nm attr i).2
  | .insAttr k nm attr v i => (p.Insert k nm attr v i).2
  | .hasParser _ _ => p
  | .render => p

/-! ## Spec-side description of the serializer output

These definitions restate §4.5's words directly (blocks, headers,
two-space indentation, lexicographically sorted names, empty/invalid
payloads contributing nothing); the claim theorems compare them with
the `writeParsers` builder implementation.
-/

/-- One output line without its terminating newline. -/
def lineText (useInd : Bool) (l : Line) : String :=
  (if useInd then "  " else "") ++ l.data ++
    (if l.comment ≠ "" then " # " ++ l.comment else "")

/-- The body lines one Section Parser Set contributes: each parser with
a valid payload contributes its lines in registration order; invalid
parsers contribute nothing. -/
def bodyLines (ps : List ParserType) (useInd : Bool) : List String :=
  ((ps.filterMap fun pt => pt.result true).flatten).map (lineText useInd)

/-- The lines of one section block: nothing when the body is empty;
otherwise the body alone for the headerless Comments pseudo-section, or
a blank line, the header (with its trailing space), and the body. -/
def blockLines (sectionName : String) (ps : List ParserType)
    (useInd : Bool) : List String :=
  if bodyLines ps useInd = [] then []
  else if sectionName = "" then bodyLines ps useInd
  else "" :: (sectionName ++ " ") :: bodyLines ps useInd

/-- Terminate every line with a newline and concatenate. -/
def joinNl (ls : List String) : String :=
  strConcat (ls.map fun l => l ++ "\n")

/-- The Section Parser Set registered under `(kind, name)`, defaulting
to an empty set. -/
def Parser.sectionSet (p : Parser) (k : Section) (nm : String) : ParserTypes :=
  (((p.Parsers k).getD []).lookup nm).getD ⟨[]⟩

/-- The lines §4.5 prescribes for one multi-instance kind: its names in
lexicographic order, one block each. -/
def kindLines (p : Parser) (k : Section) : List String :=
  ((getSortedList ((p.Parsers k).getD [])).map fun nm =>
    blockLines (sectionString k ++ " " ++ nm) (p.sectionSet k nm).parsers
      true).flatten

/-- The full serializer output as the spec describes it. -/
def specRenderLines (p : Parser) : List String :=
  blockLines "" (p.sectionSet .Comments "data").parsers false
  ++ blockLines "defaults" (p.sectionSet .Defaults "data").parsers true
  ++ blockLines "global" (p.sectionSet .Global "data").parsers true
  ++ (sectionsOrder.map (kindLines p)).flatten

/-! ## Well-formedness of a registry state

The round-trip claim needs the stored payloads to survive
re-tokenization: tokens non-empty and free of separators, `#` and
newlines; comments non-empty, not starting with whitespace and free of
newlines; integers within the 64-bit range `%d`/`ParseInt` round-trip.
-/

/-- A well-formed stored token. -/
def wfTokB (t : String) : Bool :=
  (!(t = "")) && t.toList.all fun c => !(isWS c) && !(c = '#') && !(c = '\n')

/-- A well-formed stored comment line. -/
def wfCommentB (c : String) : Bool :=
  (match c.toList with
   | [] => false
   | ch :: _ => !(isWS ch) && !(ch = '#')) &&
  c.toList.all fun ch => !(ch = '\n')

/-- A well-formed stored integer payload (64-bit range). -/
def wfIntB : Option Int → Bool
  | none => true
  | some n => decide (-9223372036854775808 ≤ n) &&
      decide (n ≤ 9223372036854775807)

/-- A well-formed indexed-list entry. -/
def wfEntryB (e : List String) : Bool := e.all wfTokB

/-- A body-holding Section Parser Set in roster shape for its kind,
with well-formed payloads. -/
def wfSetB (k : Section) (pt : ParserTypes) : Bool :=
  match pt.parsers with
  | [.sectionDecl _, .intDirective kw v, .listDirective kw2 es] =>
    decide (kw = "maxconn") && decide (kw2 = listKeyword k) &&
      wfIntB v && es.all wfEntryB
  | _ => false

/-- The Comments singleton in roster shape with well-formed comments. -/
def wfCommentsB (pt : ParserTypes) : Bool :=
  match pt.parsers with
  | [.sectionDecl _, .commentLine cs] => cs.all wfCommentB
  | _ => false

/-- A well-formed registry: the three singletons present under `"data"`
in roster shape, and every multi-instance kind present with distinct
well-formed names and roster-shaped well-formed sets. -/
def WFState (p : Parser) : Prop :=
  (∃ pt, p.Parsers .Comments = some [("data", pt)] ∧ wfCommentsB pt = true) ∧
  (∃ pt, p.Parsers .Defaults = some [("data", pt)] ∧
    wfSetB .Defaults pt = true) ∧
  (∃ pt, p.Parsers .Global = some [("data", pt)] ∧
    wfSetB .Global pt = true) ∧
  (∀ k, k ∈ sectionsOrder → ∃ m, p.Parsers k = some m ∧
    (m.map Prod.fst).Nodup ∧
    ∀ e ∈ m, wfTokB e.1 = true ∧ wfSetB k e.2 = true)

/-! ## Association-list lemmas shared by the claim proofs -/

theorem lookup_cons (nm : String) (e : String × ParserTypes) (rest : NameMap) :
    List.lookup nm (e :: rest) = if nm = e.1 then some e.2 else List.lookup nm rest := by
  by_cases h : nm = e.1
  · simp [List.lookup, h]
  · have hb : (nm == e.1) = false := beq_eq_false_iff_ne.mpr h
    simp [List.lookup, hb, h]

theorem mapErase_cons (e : String × ParserTypes) (rest : NameMap) (nm : String) :
    mapErase (e :: rest) nm =
      if e.1 = nm then mapErase rest nm else e :: mapErase rest nm := by
  by_cases h : e.1 = nm <;> simp [mapErase, List.filter_cons, h]

theorem mapReplace_cons (e : String × ParserTypes) (rest : NameMap) (nm : String) (v : ParserTypes) :
    mapReplace (e :: rest) nm v =
      (if e.1 = nm then (nm, v) else e) :: mapReplace rest nm v := by
  simp [mapReplace]

theorem lookup_mapErase_self (m : NameMap) (nm : String) :
    (mapErase m nm).lookup nm = none := by
  induction m with
  | nil => rfl
  | cons e rest ih =>
    rw [mapErase_cons]
    by_cases h : e.1 = nm
    · rw [if_pos h]; exact ih
    · rw [if_neg h, lookup_cons, if_neg (fun hc => h hc.symm)]; exact ih

theorem lookup_mapErase_ne (m : NameMap) (nm nm2 : String) (h : nm2 ≠ nm) :
    (mapErase m nm).lookup nm2 = m.lookup nm2 := by
  induction m with
  | nil => rfl
  | cons e rest ih =>
    rw [mapErase_cons, lookup_cons]
    by_cases he : e.1 = nm
    · rw [if_pos he, if_neg (fun hc : nm2 = e.1 => h (hc.trans he))]; exact ih
    · rw [if_neg he, lookup_cons]
      by_cases h2 : nm2 = e.1
      · rw [if_pos h2, if_pos h2]
      · rw [if_neg h2, if_neg h2]; exact ih

theorem mapErase_of_lookup_none (m : NameMap) (nm : String)
    (h : m.lookup nm = none) : mapErase m nm = m := by
  induction m with
  | nil => rfl
  | cons e rest ih =>
    rw [lookup_cons] at h
    by_cases hbe : nm = e.1
    · rw [if_pos hbe] at h; cases h
    · rw [if_neg hbe] at h
      rw [mapErase_cons, if_neg (fun hc => hbe hc.symm), ih h]

theorem lookup_mapSet_self (m : NameMap) (nm : String) (v : ParserTypes) :
    (mapSet m nm v).lookup nm = some v := by
  unfold mapSet
  by_cases hany : (m.any fun e => decide (e.1 = nm)) = true
  · rw [if_pos (by simpa using hany)]
    induction m with
    | nil => simp at hany
    | cons e rest ih =>
      rw [List.map_cons]
      by_cases he : e.1 = nm
      · rw [if_pos he, lookup_cons, if_pos rfl]
      · rw [if_neg he, lookup_cons, if_neg (fun hc => he hc.symm)]
        rw [List.any_cons] at hany
        exact ih (by simpa [he] using hany)
  · rw [if_neg hany]
    induction m with
    | nil => simp [List.lookup]
    | cons e rest ih =>
      rw [List.any_cons] at hany
      have he : ¬ e.1 = nm := by
        intro hc; exact hany (by simp [hc])
      rw [List.cons_append, lookup_cons, if_neg (fun hc => he hc.symm)]
      exact ih (by intro hc; exact hany (by simp [hc]))

theorem lookup_mapReplace_self (m : NameMap) (nm : String) (v a : ParserTypes)
    (h : m.lookup nm = some a) : (mapReplace m nm v).lookup nm = some v := by
  induction m with
  | nil => cases h
  | cons e rest ih =>
    rw [lookup_cons] at h
    rw [mapReplace_cons]
    by_cases he : e.1 = nm
    · rw [if_pos he, lookup_cons, if_pos rfl]
    · rw [if_neg he] at *
      rw [lookup_cons, if_neg (fun hc => he hc.symm)]
      rw [if_neg (fun hc => he hc.symm)] at h
      exact ih h

theorem lookup_mapReplace_ne (m : NameMap) (nm nm2 : String) (v : ParserTypes)
    (h : nm2 ≠ nm) : (mapReplace m nm v).lookup nm2 = m.lookup nm2 := by
  induction m with
  | nil => rfl
  | cons e rest ih =>
    rw [mapReplace_cons, lookup_cons, lookup_cons]
    by_cases he : e.1 = nm
    · rw [if_pos he]
      rw [if_neg (show ¬ nm2 = (nm, v).1 from h), if_neg (fun hc : nm2 = e.1 => h (hc.trans he))]
      exact ih
    · rw [if_neg he]
      by_cases h2 : nm2 = e.1
      · rw [if_pos h2, if_pos h2]
      · rw [if_neg h2, if_neg h2]; exact ih

theorem mapReplace_keys (m : NameMap) (nm : String) (v : ParserTypes) :
    (mapReplace m nm v).map Prod.fst = m.map Prod.fst := by
  induction m with
  | nil => rfl
  | cons e rest ih =>
    rw [mapReplace_cons, List.map_cons, List.map_cons, ih]
    by_cases he : e.1 = nm
    · rw [if_pos he]; simp [he]
    · rw [if_neg he]

theorem lookup_none_of_not_any (m : NameMap) (nm : String)
    (h : m.lookup nm = none) : (m.any fun e => e.1 = nm) = false := by
  induction m with
  | nil => rfl
  | cons e rest ih =>
    rw [lookup_cons] at h
    by_cases hbe : nm = e.1
    · rw [if_pos hbe] at h; cases h
    · rw [if_neg hbe] at h
      simp only [List.any_cons, Bool.or_eq_false_iff]
      exact ⟨by simpa using fun hc => hbe hc.symm, ih h⟩

theorem mapSet_of_lookup_none (m : NameMap) (nm : String) (v : ParserTypes)
    (h : m.lookup nm = none) : mapSet m nm v = m ++ [(nm, v)] := by
  unfold mapSet
  rw [if_neg]
  simp only [lookup_none_of_not_any m nm h]
  simp
/-! ## Claim C8: `SectionsDelete` error and no-op semantics -/

/-- C8: `deleteSection(kind, name)` returns `SectionMissing` exactly when
the kind is unknown to the registry; when the kind exists but the name
does not, the call succeeds and leaves the whole registry unchanged
(silent no-op); when the section exists it removes exactly that entry. -/
theorem c8_sections_delete (p : Parser) (k : Section) (nm : String) :
    ((p.SectionsDelete k nm).1 = .error .SectionMissing ↔ p.Parsers k = none) ∧
    (∀ st, p.Parsers k = some st →
      (p.SectionsDelete k nm).1 = .ok () ∧
      (p.SectionsDelete k nm).2.Parsers k = some (mapErase st nm) ∧
      (mapErase st nm).lookup nm = none ∧
      (st.lookup nm = none → (p.SectionsDelete k nm).2 = p)) := by
  unfold Parser.SectionsDelete
  cases hp : p.Parsers k with
  | none =>
    refine ⟨by simp [hp], ?_⟩
    intro st hst
    cases hst
  | some st0 =>
    constructor
    · simp [hp]
    · intro st hst
      cases hst
      refine ⟨rfl, by simp [hp], lookup_mapErase_self _ _, ?_⟩
      intro hnone
      cases p with
      | mk f =>
        simp only [Parser.mk.injEq]
        funext k2
        by_cases hk : k2 = k
        · subst hk
          simp only [if_pos rfl, mapErase_of_lookup_none _ _ hnone]
          exact hp.symm
        · simp [hk]

/-- Witness for C8 at concrete inputs: on the freshly initialized
registry, deleting the absent Frontends name `"f1"` succeeds and is a
perfect no-op. -/
theorem c8_sections_delete_witness :
    ((ParseData "").SectionsDelete .Frontends "f1").1 = .ok () ∧
    ((ParseData "").SectionsDelete .Frontends "f1").2 = ParseData "" := by
  have h := c8_sections_delete (ParseData "") .Frontends "f1"
  exact ⟨(h.2 [] rfl).1, (h.2 [] rfl).2.2.2 rfl⟩

/-! ## Claim C9: `SectionsDelete` does not disturb other sections -/

/-- C9: `deleteSection(kind, name)` leaves every Section Parser Set
other than the one registered under `(kind, name)` unchanged: every
other kind keeps its whole map, and within the same kind every other
name resolves to exactly its previous parser set. -/
theorem c9_sections_delete_frame (p : Parser) (k : Section) (nm : String) :
    (∀ k2, k2 ≠ k → (p.SectionsDelete k nm).2.Parsers k2 = p.Parsers k2) ∧
    (∀ st nm2, p.Parsers k = some st → nm2 ≠ nm →
      (((p.SectionsDelete k nm).2.Parsers k).getD []).lookup nm2 =
        st.lookup nm2) := by
  unfold Parser.SectionsDelete
  cases hp : p.Parsers k with
  | none => exact ⟨fun k2 _ => rfl, fun st nm2 hst => by cases hst⟩
  | some st0 =>
    constructor
    · intro k2 hk2
      simp [hk2]
    · intro st nm2 hst hnm2
      cases hst
      simp only [if_pos rfl, Option.getD_some]
      exact lookup_mapErase_ne _ _ _ hnm2

/-- Witness for C9 at concrete inputs: deleting `backend b1` from a
loaded configuration leaves the Frontends map and the other backend
`b2` untouched. -/
theorem c9_sections_delete_frame_witness :
    (((ParseData "frontend f1\nmaxconn 7\nbackend b1\nmaxconn 1\nbackend b2\nmaxconn 2\n").SectionsDelete
        .Backends "b1").2.Parsers .Frontends =
      (ParseData "frontend f1\nmaxconn 7\nbackend b1\nmaxconn 1\nbackend b2\nmaxconn 2\n").Parsers .Frontends) ∧
    ((((ParseData "frontend f1\nmaxconn 7\nbackend b1\nmaxconn 1\nbackend b2\nmaxconn 2\n").SectionsDelete
        .Backends "b1").2.Parsers .Backends).getD []).lookup "b2" =
      some ⟨[.sectionDecl none, .intDirective "maxconn" (some 2),
             .listDirective "server" []]⟩ := by
  have h := c9_sections_delete_frame
    (ParseData "frontend f1\nmaxconn 7\nbackend b1\nmaxconn 1\nbackend b2\nmaxconn 2\n") .Backends "b1"
  refine ⟨h.1 .Frontends (by decide), ?_⟩
  rw [h.2 _ "b2" rfl (by decide)]
  decide

/-! ## Claim C10: `HasParser` on kinds with no instances -/

/-- C10: for a known section kind that currently has zero instances,
`HasParser(kind, attribute)` returns `false` for every attribute (even
ones the kind's roster would recognize), and for an unknown kind it
likewise returns `false` rather than an error. -/
theorem c10_hasparser_no_instances (p : Parser) (k : Section) (attr : String) :
    (p.Parsers k = some [] → p.HasParser k attr = false) ∧
    (p.Parsers k = none → p.HasParser k attr = false) := by
  constructor
  · intro h
    simp [Parser.HasParser, h, List.lookup]
  · intro h
    simp [Parser.HasParser, h]

/-- Witness for C10 at concrete inputs: immediately after
initialization Frontends has zero instances and `HasParser` denies
`"maxconn"` even though the Frontends roster recognizes it; a registry
with no Frontends map at all also answers `false`. -/
theorem c10_hasparser_no_instances_witness :
    (ParseData "").Parsers .Frontends = some [] ∧
    (ParseData "").HasParser .Frontends "maxconn" = false ∧
    (rosterFor .Frontends).HasParser "maxconn" = true ∧
    (Parser.mk fun _ => none).HasParser .Frontends "maxconn" = false := by
  refine ⟨rfl, (c10_hasparser_no_instances (ParseData "") .Frontends "maxconn").1 rfl,
    by decide, (c10_hasparser_no_instances (Parser.mk fun _ => none) .Frontends "maxconn").2 rfl⟩

/-! ## Claim C7: when does `MaxConn.Parse` accept a line? -/

/-- C7 counterexample: the claim "accepts iff the line's first token
equals the keyword" is false in both directions on `MaxConn.Parse`,
which matches by string prefix: `"maxconnX 7"` has first token
`"maxconnX" ≠ "maxconn"` yet is accepted (storing 7), while
`"maxconn abc"` has first token `"maxconn"` yet is rejected. -/
theorem c7_maxconn_first_token_counterexample :
    (stringSplitIgnoreEmpty "maxconnX 7" ' ').head? = some "maxconnX" ∧
    "maxconnX" ≠ "maxconn" ∧
    (MaxConn.Parse ⟨0, false⟩ "maxconnX 7" "" "").1.2 = none ∧
    (MaxConn.Parse ⟨0, false⟩ "maxconnX 7" "" "").2 = ⟨7, true⟩ ∧
    (stringSplitIgnoreEmpty "maxconn abc" ' ').head? = some "maxconn" ∧
    (MaxConn.Parse ⟨0, false⟩ "maxconn abc" "" "").1.2 ≠ none := by
  decide

/-- Evaluation of `MaxConn.Parse` when the prefix test fails. -/
theorem maxconn_eval_noPre (m : MaxConn) (line w prev : String)
    (h : goHasPre line "maxconn" = false) :
    MaxConn.Parse m line w prev = (("", some ⟨"SectionName", line, ""⟩), m) := by
  unfold MaxConn.Parse
  rw [if_neg (by simp [h])]

/-- Evaluation of `MaxConn.Parse` on a prefix-matching line with fewer than two fields. -/
theorem maxconn_eval_short (m : MaxConn) (line w prev : String)
    (h : goHasPre line "maxconn" = true)
    (h2 : (stringSplitIgnoreEmpty line ' ').length < 2) :
    MaxConn.Parse m line w prev =
      (("", some ⟨"SectionName", line, "Parse error"⟩), m) := by
  unfold MaxConn.Parse
  rw [if_pos h]
  simp only [if_pos h2]

/-- Evaluation of `MaxConn.Parse` on a prefix-matching line whose second field is not an integer. -/
theorem maxconn_eval_bad (m : MaxConn) (line w prev : String)
    (h : goHasPre line "maxconn" = true)
    (h2 : ¬ (stringSplitIgnoreEmpty line ' ').length < 2)
    (h3 : parseInt64 (((stringSplitIgnoreEmpty line ' ').get? 1).getD "") = none) :
    MaxConn.Parse m line w prev =
      (("", some ⟨"SectionName", line, "strconv parse error"⟩), m) := by
  unfold MaxConn.Parse
  rw [if_pos h]
  simp only [if_neg h2, h3]

/-- Evaluation of `MaxConn.Parse` on a well-formed line. -/
theorem maxconn_eval_ok (m : MaxConn) (line w prev : String) (n : Int)
    (h : goHasPre line "maxconn" = true)
    (h2 : ¬ (stringSplitIgnoreEmpty line ' ').length < 2)
    (h3 : parseInt64 (((stringSplitIgnoreEmpty line ' ').get? 1).getD "") = some n) :
    MaxConn.Parse m line w prev = (("", none), ⟨n, true⟩) := by
  unfold MaxConn.Parse
  rw [if_pos h]
  simp only [if_neg h2, h3]

/-- C7 (amended): `MaxConn.Parse` accepts (returns a nil error) iff the
raw line has string prefix `"maxconn"`, splits into at least two
space-separated fields, and the second field decodes as a 64-bit
integer; on acceptance it stores the decoded value and marks itself
valid; when the prefix is absent it returns the soft error (empty
message) that merely drives fallthrough, leaving the receiver
unchanged. -/
theorem c7_maxconn_parse (m : MaxConn) (line w prev : String) :
    ((MaxConn.Parse m line w prev).1.2 = none ↔
      (goHasPre line "maxconn" = true ∧
       2 ≤ (stringSplitIgnoreEmpty line ' ').length ∧
       parseInt64 (((stringSplitIgnoreEmpty line ' ').get? 1).getD "") ≠ none)) ∧
    (∀ n, goHasPre line "maxconn" = true →
       2 ≤ (stringSplitIgnoreEmpty line ' ').length →
       parseInt64 (((stringSplitIgnoreEmpty line ' ').get? 1).getD "") = some n →
       (MaxConn.Parse m line w prev).2 = ⟨n, true⟩ ∧
       (MaxConn.Parse m line w prev).1.2 = none ∧
       (MaxConn.Parse m line w prev).1.1 = "") ∧
    (goHasPre line "maxconn" = false →
       (MaxConn.Parse m line w prev).1.2 = some ⟨"SectionName", line, ""⟩ ∧
       (MaxConn.Parse m line w prev).2 = m) := by
  cases hpre : goHasPre line "maxconn" with
  | false =>
    rw [maxconn_eval_noPre m line w prev hpre]
    refine ⟨?_, ?_, fun _ => ⟨rfl, rfl⟩⟩
    · constructor
      · intro hc; cases hc
      · rintro ⟨h1, -, -⟩; simp at h1
    · intro n h1; simp at h1
  | true =>
    by_cases hlen : (stringSplitIgnoreEmpty line ' ').length < 2
    · rw [maxconn_eval_short m line w prev hpre hlen]
      refine ⟨?_, ?_, ?_⟩
      · constructor
        · intro hc; cases hc
        · rintro ⟨-, h2, -⟩; omega
      · intro n _ h2 _; omega
      · intro hf; simp at hf
    · cases hi : parseInt64 (((stringSplitIgnoreEmpty line ' ').get? 1).getD "") with
      | none =>
        rw [maxconn_eval_bad m line w prev hpre hlen hi]
        refine ⟨?_, ?_, ?_⟩
        · constructor
          · intro hc; cases hc
          · rintro ⟨-, -, h3⟩; exact absurd rfl h3
        · intro n _ _ h3; exact Option.noConfusion h3
        · intro hf; simp at hf
      | some num =>
        rw [maxconn_eval_ok m line w prev num hpre hlen hi]
        refine ⟨?_, ?_, ?_⟩
        · exact ⟨fun _ => ⟨rfl, by omega, by simp⟩, fun _ => rfl⟩
        · intro n _ _ h3
          cases h3
          exact ⟨rfl, rfl, rfl⟩
        · intro hf; simp at hf

/-- Witness for C7 at concrete inputs: `"maxconn 2000"` is accepted and
stored; `"nbproc 4"` is rejected with the soft error. -/
theorem c7_maxconn_parse_witness :
    (MaxConn.Parse ⟨0, false⟩ "maxconn 2000" "" "").2 = ⟨2000, true⟩ ∧
    (MaxConn.Parse ⟨0, false⟩ "nbproc 4" "" "").1.2 =
      some ⟨"SectionName", "nbproc 4", ""⟩ := by
  have h1 := c7_maxconn_parse ⟨0, false⟩ "maxconn 2000" "" ""
  have h2 := c7_maxconn_parse ⟨0, false⟩ "nbproc 4" "" ""
  exact ⟨(h1.2.1 2000 (by decide) (by decide) (by decide)).1,
    (h2.2.2 (by decide)).1⟩

/-! ## Claim C4: does a malformed line abort the load with an error? -/

/-- C4 counterexample: on the text
`"global\nmaxconn bad\nmaxconn 7\n"` the line `"maxconn bad"` is
malformed (the `maxconn` directive parser reports a hard `ParseError`
carrying the line), yet `ParseData` returns success and keeps parsing:
the later line `"maxconn 7"` is applied to the Global section. -/
theorem c4_load_stops_counterexample :
    ParserType.parse (.intDirective "maxconn" none)
        ⟨"maxconn bad", ["maxconn", "bad"], ["global"], ""⟩ =
      .error ⟨"maxconn", "maxconn bad", "strconv parse error"⟩ ∧
    ParseDataE "global\nmaxconn bad\nmaxconn 7\n" =
      .ok (ParseData "global\nmaxconn bad\nmaxconn 7\n") ∧
    (ParseData "global\nmaxconn bad\nmaxconn 7\n").GetOne .Global "data"
        "maxconn" (-1) = .ok (.intV 7) := by
  refine ⟨by decide, rfl, by decide⟩

/-- C4 (amended): `ParseData` never returns an error — its body ends in
`return nil` — and a line every active parser rejects (including by a
hard malformed-value error) leaves the registry and the parse state
unchanged, after which parsing continues with the subsequent lines. -/
theorem c4_parse_data_never_errors :
    (∀ dat, ParseDataE dat = .ok (ParseData dat)) ∧
    (∀ (p : Parser) (cfg : ConfiguredParsers) (line : String)
       (parts prev : List String) (comment : String),
      findAccept ⟨line, parts, prev, comment⟩ (p.activeSet cfg).parsers = none →
      p.ProcessLine line parts prev comment cfg = (p, cfg)) := by
  refine ⟨fun _ => rfl, ?_⟩
  intro p cfg line parts prev comment h
  unfold Parser.ProcessLine
  simp [h]

/-- Witness for C4 at concrete inputs: the malformed `"maxconn bad"`
line is rejected by every parser of the active Global set and
`ProcessLine` leaves the state untouched. -/
theorem c4_parse_data_never_errors_witness :
    ParseDataE "x" = .ok (ParseData "x") ∧
    (ParseData "global\n").ProcessLine "maxconn bad" ["maxconn", "bad"]
        ["global"] "" ⟨"global", (.Global, "data")⟩ =
      (ParseData "global\n", ⟨"global", (.Global, "data")⟩) := by
  exact ⟨c4_parse_data_never_errors.1 "x",
    c4_parse_data_never_errors.2 _ _ _ _ _ _ (by decide)⟩

/-! ## Claim C2: first-match-wins dispatch -/

/-- Dispatch equation: the head parser accepts. -/
theorem findAccept_cons_ok (inp : LineIn) (pt : ParserType)
    (rest : List ParserType) (st : String) (pt2 : ParserType)
    (hp : pt.parse inp = .ok (st, pt2)) :
    findAccept inp (pt :: rest) = some (0, st, pt2) := by
  conv_lhs => unfold findAccept
  rw [hp]

/-- Dispatch equation: the head parser rejects. -/
theorem findAccept_cons_err (inp : LineIn) (pt : ParserType)
    (rest : List ParserType) (e : GoParseError)
    (hp : pt.parse inp = .error e) :
    findAccept inp (pt :: rest) =
      match findAccept inp rest with
      | some (i, st, pt2) => some (i + 1, st, pt2)
      | none => none := by
  conv_lhs => unfold findAccept
  rw [hp]

/-- Invocation-count equation: the head parser accepts. -/
theorem invokedCount_cons_ok (inp : LineIn) (pt : ParserType)
    (rest : List ParserType) (v : String × ParserType)
    (hp : pt.parse inp = .ok v) :
    invokedCount inp (pt :: rest) = 1 := by
  conv_lhs => unfold invokedCount
  rw [hp]

/-- Invocation-count equation: the head parser rejects. -/
theorem invokedCount_cons_err (inp : LineIn) (pt : ParserType)
    (rest : List ParserType) (e : GoParseError)
    (hp : pt.parse inp = .error e) :
    invokedCount inp (pt :: rest) = 1 + invokedCount inp rest := by
  conv_lhs => unfold invokedCount
  rw [hp]

/-- Helper: what a successful dispatch means. -/
theorem findAccept_some_spec (inp : LineIn) :
    ∀ (ps : List ParserType) (i : Nat) (st : String) (pt2 : ParserType),
    findAccept inp ps = some (i, st, pt2) →
    (∃ pt, ps.get? i = some pt ∧ pt.parse inp = .ok (st, pt2)) ∧
    (∀ j, j < i → ∀ pt, ps.get? j = some pt → ∃ e, pt.parse inp = .error e) ∧
    invokedCount inp ps = i + 1
  | [], i, st, pt2 => by intro h; cases h
  | pt :: rest, i, st, pt2 => by
    intro h
    cases hp : pt.parse inp with
    | ok v =>
      obtain ⟨v1, v2⟩ := v
      rw [findAccept_cons_ok inp pt rest v1 v2 hp] at h
      cases h
      refine ⟨⟨pt, rfl, hp⟩, fun j hj _ _ => by omega,
        invokedCount_cons_ok inp pt rest _ hp⟩
    | error e =>
      rw [findAccept_cons_err inp pt rest e hp] at h
      cases hrec : findAccept inp rest with
      | none => rw [hrec] at h; cases h
      | some trip =>
        rw [hrec] at h
        obtain ⟨i0, st0, pt0⟩ := trip
        cases h
        obtain ⟨⟨ptw, hw1, hw2⟩, hlt, hcnt⟩ :=
          findAccept_some_spec inp rest i0 st pt2 hrec
        refine ⟨⟨ptw, by simpa using hw1, hw2⟩, ?_, ?_⟩
        · intro j hj ptj hptj
          cases j with
          | zero =>
            cases hptj
            exact ⟨e, hp⟩
          | succ j0 =>
            exact hlt j0 (by omega) ptj (by simpa using hptj)
        · rw [invokedCount_cons_err inp pt rest e hp, hcnt]
          omega

/-- Helper: what a failed dispatch means. -/
theorem findAccept_none_spec (inp : LineIn) :
    ∀ (ps : List ParserType),
    findAccept inp ps = none →
    invokedCount inp ps = ps.length ∧
    ∀ pt ∈ ps, ∃ e, pt.parse inp = .error e
  | [] => by intro _; exact ⟨rfl, by simp⟩
  | pt :: rest => by
    intro h
    cases hp : pt.parse inp with
    | ok v =>
      obtain ⟨v1, v2⟩ := v
      rw [findAccept_cons_ok inp pt rest v1 v2 hp] at h
      cases h
    | error e =>
      rw [findAccept_cons_err inp pt rest e hp] at h
      cases hrec : findAccept inp rest with
      | some trip =>
        rw [hrec] at h
        obtain ⟨i0, st0, pt0⟩ := trip
        cases h
      | none =>
        obtain ⟨hcnt, hall⟩ := findAccept_none_spec inp rest hrec
        refine ⟨?_, ?_⟩
        · rw [invokedCount_cons_err inp pt rest e hp, hcnt, List.length_cons]
          omega
        · intro q hq
          rcases List.mem_cons.mp hq with rfl | hmem
          · exact ⟨e, hp⟩
          · exact hall q hmem

/-- C2: the dispatch loop of `ProcessLine` tries the active set's
parsers in registration order and stops at the first whose `Parse`
returns no error: the accepted index is the least accepting one, every
parser before it returned an error, the loop invoked exactly the
parsers up to and including the winner (so parsers registered after the
first accepting one are never invoked on that line), and `ProcessLine`
stores the winner's mutated parser back into the active Section Parser
Set.  -/
theorem c2_first_match_wins (ps : List ParserType) (inp : LineIn) :
    (∀ i st pt2, findAccept inp ps = some (i, st, pt2) →
      (∃ pt, ps.get? i = some pt ∧ pt.parse inp = .ok (st, pt2)) ∧
      (∀ j, j < i → ∀ pt, ps.get? j = some pt → ∃ e, pt.parse inp = .error e) ∧
      invokedCount inp ps = i + 1) ∧
    (findAccept inp ps = none →
      invokedCount inp ps = ps.length ∧
      ∀ pt ∈ ps, ∃ e, pt.parse inp = .error e) ∧
    (∀ (p : Parser) (cfg : ConfiguredParsers) (line : String)
       (parts prev : List String) (comment : String)
       (a : ParserTypes) (i : Nat) (pt2 : ParserType) (m : NameMap),
      p.Parsers cfg.ActiveKey.1 = some m →
      m.lookup cfg.ActiveKey.2 = some a →
      findAccept ⟨line, parts, prev, comment⟩ a.parsers = some (i, "", pt2) →
      (((p.ProcessLine line parts prev comment cfg).1.Parsers
          cfg.ActiveKey.1).getD []).lookup cfg.ActiveKey.2 =
        some ⟨a.parsers.set i pt2⟩ ∧
      (p.ProcessLine line parts prev comment cfg).2 = cfg) := by
  refine ⟨fun i st pt2 h => findAccept_some_spec inp ps i st pt2 h,
    fun h => findAccept_none_spec inp ps h, ?_⟩
  intro p cfg line parts prev comment a i pt2 m hm ha hf
  have hact : p.activeSet cfg = a := by
    unfold Parser.activeSet
    rw [hm, Option.getD_some, ha, Option.getD_some]
  unfold Parser.ProcessLine
  simp only [hact, hf, ne_eq, not_true_eq_false, if_false]
  constructor
  · unfold Parser.updateSection
    simp only [if_pos rfl, hm, Option.map_some, Option.getD_some]
    exact lookup_mapReplace_self m cfg.ActiveKey.2 _ a ha
  · trivial

/-- Witness for C2 at concrete inputs: two parsers that both accept
`"maxconn 5"`; the earlier-registered one wins and the dispatch loop
invokes exactly one parser, so the later one is never invoked. -/
theorem c2_first_match_wins_witness :
    invokedCount ⟨"maxconn 5", ["maxconn", "5"], [], ""⟩
      [.listDirective "maxconn" [], .intDirective "maxconn" none] = 1 ∧
    ParserType.parse (.intDirective "maxconn" none)
        ⟨"maxconn 5", ["maxconn", "5"], [], ""⟩ =
      .ok ("", .intDirective "maxconn" (some 5)) := by
  refine ⟨?_, by decide⟩
  exact ((c2_first_match_wins
      [.listDirective "maxconn" [], .intDirective "maxconn" none]
      ⟨"maxconn 5", ["maxconn", "5"], [], ""⟩).1 0 ""
      (.listDirective "maxconn" [["5"]]) (by decide)).2.2

/-! ## Claim C6: `SectionsCreate` duplicate handling -/

/-- Writing back through the active-set alias leaves other kinds alone. -/
theorem updateSection_ne (p : Parser) (sec : Section) (nm : String)
    (v : ParserTypes) (k2 : Section) (h : k2 ≠ sec) :
    (p.updateSection sec nm v).Parsers k2 = p.Parsers k2 := by
  unfold Parser.updateSection
  simp [h]

/-- Registering a section installs it in its kind map. -/
theorem registerSection_self (p : Parser) (sec : Section) (nm : String)
    (v : ParserTypes) :
    (p.registerSection sec nm v).Parsers sec =
      some (mapSet ((p.Parsers sec).getD []) nm v) := by
  unfold Parser.registerSection
  simp

/-- Registering a section leaves other kinds alone. -/
theorem registerSection_ne (p : Parser) (sec : Section) (nm : String)
    (v : ParserTypes) (k2 : Section) (h : k2 ≠ sec) :
    (p.registerSection sec nm v).Parsers k2 = p.Parsers k2 := by
  unfold Parser.registerSection
  simp [h]

/-- `SectionsCreate` on a taken name fails with `SectionAlreadyExists`. -/
theorem sectionsCreate_of_taken (p : Parser) (k : Section) (nm : String)
    (m : NameMap) (v : ParserTypes) (hm : p.Parsers k = some m)
    (hv : m.lookup nm = some v) :
    (p.SectionsCreate k nm).1 = .error .SectionAlreadyExists := by
  unfold Parser.SectionsCreate
  simp [hm, hv]

/-- On a multi-instance transition, the state-transition block registers a fresh roster under the produced name and activates it. -/
theorem stateDispatch_multi (p : Parser) (cfg : ConfiguredParsers)
    (pt : ParserType) (k : Section)
    (hmulti : multiKeywords.contains (sectionString k) = true)
    (hst : cfg.State = sectionString k) :
    stateDispatch p cfg pt =
      (p.registerSection k (extractName pt) (rosterFor k),
       { cfg with ActiveKey := (k, extractName pt) }) := by
  cases k <;> first
    | exact absurd hmulti (by decide)
    | (unfold stateDispatch singletonStep dispatchStep
       simp [hst, getFrontendParser, getBackendParser, getListenParser,
         getResolverParser, getUserlistParser, getPeersParser,
         getMailersParser, getCacheParser, getProgramParser, sectionString])

/-- A multi-instance keyword is never the empty string. -/
theorem sectionString_multi_ne_empty (k : Section)
    (hmulti : multiKeywords.contains (sectionString k) = true) :
    ¬ sectionString k = "" := by
  intro h
  rw [h] at hmulti
  exact absurd hmulti (by decide)

/-- A kind whose keyword is a multi-instance keyword is not Comments. -/
theorem multi_ne_comments (k : Section)
    (hmulti : multiKeywords.contains (sectionString k) = true) :
    k ≠ .Comments := by
  intro h
  subst h
  exact absurd hmulti (by decide)

/-- C6 (amended): for the nine multi-instance kinds,
`createSection(kind, name)` on a fresh name succeeds and registers a
fresh roster under `(kind, name)`, and an immediate second call fails
with `SectionAlreadyExists`; for the singleton kinds (refuted by the
counterexample) the synthesized declaration line registers nothing and
the second call succeeds again. -/
theorem c6_sections_create (p : Parser) (k : Section) (nm : String) (st : NameMap)
    (sd : Option (String × String)) (cl : List String)
    (hmulti : multiKeywords.contains (sectionString k) = true)
    (hk : p.Parsers k = some st) (hfresh : st.lookup nm = none)
    (hcm : ((p.Parsers .Comments).getD []).lookup "data" =
      some ⟨[.sectionDecl sd, .commentLine cl]⟩) :
    (p.SectionsCreate k nm).1 = .ok () ∧
    (((p.SectionsCreate k nm).2.Parsers k).getD []).lookup nm
      = some (rosterFor k) ∧
    ((p.SectionsCreate k nm).2.SectionsCreate k nm).1 =
      .error .SectionAlreadyExists := by
  have hact : ∀ cfg : ConfiguredParsers,
      cfg.ActiveKey = (Section.Comments, "data") →
      p.activeSet cfg = ⟨[.sectionDecl sd, .commentLine cl]⟩ := by
    intro cfg hcfg
    unfold Parser.activeSet
    rw [hcfg]
    simp only [hcm, Option.getD_some]
  have hparse : ParserType.parse (.sectionDecl sd)
      ⟨sectionString k ++ " " ++ nm, [sectionString k, nm], [], ""⟩ =
      .ok (sectionString k, .sectionDecl (some (sectionString k, nm))) := by
    unfold ParserType.parse
    simp only [hmulti]
    simp
  have hfa : findAccept
      ⟨sectionString k ++ " " ++ nm, [sectionString k, nm], [], ""⟩
      [.sectionDecl sd, .commentLine cl] =
      some (0, sectionString k, .sectionDecl (some (sectionString k, nm))) :=
    findAccept_cons_ok _ _ _ _ _ hparse
  have hpl : p.ProcessLine (sectionString k ++ " " ++ nm)
      [sectionString k, nm] [] "" ⟨"", (Section.Comments, "data")⟩ =
      ((p.updateSection .Comments "data"
          ⟨[.sectionDecl (some (sectionString k, nm)), .commentLine cl]⟩).registerSection
            k nm (rosterFor k),
        ⟨sectionString k, (k, nm)⟩) := by
    unfold Parser.ProcessLine
    rw [hact ⟨"", (Section.Comments, "data")⟩ rfl]
    simp only [hfa]
    rw [if_pos (sectionString_multi_ne_empty k hmulti)]
    exact stateDispatch_multi _ _ _ k hmulti rfl
  have hsc : p.SectionsCreate k nm =
      (.ok (), (p.updateSection .Comments "data"
          ⟨[.sectionDecl (some (sectionString k, nm)), .commentLine cl]⟩).registerSection
            k nm (rosterFor k)) := by
    unfold Parser.SectionsCreate
    simp only [hk, hfresh, hpl]
  have hreg : ((p.SectionsCreate k nm).2.Parsers k) =
      some (mapSet st nm (rosterFor k)) := by
    rw [hsc]
    rw [registerSection_self]
    rw [updateSection_ne _ _ _ _ _ (multi_ne_comments k hmulti)]
    rw [hk, Option.getD_some]
  refine ⟨by rw [hsc], ?_, ?_⟩
  · rw [hreg]
    simp only [Option.getD_some]
    exact lookup_mapSet_self st nm (rosterFor k)
  · exact sectionsCreate_of_taken _ _ _ _ _ hreg
      (lookup_mapSet_self st nm (rosterFor k))

/-- C6 counterexample: for the singleton kind `Global` the claim fails:
`createSection(Global, "x")` succeeds without registering anything
under `(Global, "x")`, and the immediate second call also returns
success instead of `SectionAlreadyExists`. -/
theorem c6_sections_create_counterexample :
    ((ParseData "").SectionsCreate .Global "x").1 = .ok () ∧
    ((((ParseData "").SectionsCreate .Global "x").2.Parsers .Global).getD
      []).lookup "x" = none ∧
    (((ParseData "").SectionsCreate .Global "x").2.SectionsCreate .Global
      "x").1 = .ok () := by
  decide

/-- Witness for C6 at concrete inputs: creating `frontend web` on the
fresh registry succeeds, registers the Frontends roster, and a repeat
create fails with `SectionAlreadyExists`. -/
theorem c6_sections_create_witness :
    ((ParseData "").SectionsCreate .Frontends "web").1 = .ok () ∧
    ((((ParseData "").SectionsCreate .Frontends "web").2.Parsers
      .Frontends).getD []).lookup "web" = some (rosterFor .Frontends) ∧
    (((ParseData "").SectionsCreate .Frontends "web").2.SectionsCreate
      .Frontends "web").1 = .error .SectionAlreadyExists :=
  c6_sections_create (ParseData "") .Frontends "web" [] none []
    (by decide) rfl rfl rfl

/-! ## Claim C3: the singleton-kind invariant -/

/-- A singleton reactivation step never touches the registry. -/
theorem singletonStep_fst (kw : String) (key : Section × String)
    (r : Parser × ConfiguredParsers) : (singletonStep kw key r).1 = r.1 := by
  unfold singletonStep
  split_ifs <;> rfl

/-- A registration step leaves other kinds alone. -/
theorem dispatchStep_parsers_ne (kw : String) (k : Section)
    (roster : ParserTypes) (pt : ParserType) (r : Parser × ConfiguredParsers)
    (s : Section) (h : s ≠ k) :
    (dispatchStep kw k roster pt r).1.Parsers s = r.1.Parsers s := by
  unfold dispatchStep
  split_ifs
  · exact registerSection_ne _ _ _ _ _ h
  · rfl

/-- The transition block never touches the singleton kinds’ maps. -/
theorem stateDispatch_parsers_singleton (p : Parser) (cfg : ConfiguredParsers)
    (pt : ParserType) (s : Section)
    (hs : s = .Comments ∨ s = .Defaults ∨ s = .Global) :
    (stateDispatch p cfg pt).1.Parsers s = p.Parsers s := by
  rcases hs with rfl | rfl | rfl <;>
    (unfold stateDispatch
     rw [dispatchStep_parsers_ne _ _ _ _ _ _ (by decide),
       dispatchStep_parsers_ne _ _ _ _ _ _ (by decide),
       dispatchStep_parsers_ne _ _ _ _ _ _ (by decide),
       dispatchStep_parsers_ne _ _ _ _ _ _ (by decide),
       dispatchStep_parsers_ne _ _ _ _ _ _ (by decide),
       dispatchStep_parsers_ne _ _ _ _ _ _ (by decide),
       dispatchStep_parsers_ne _ _ _ _ _ _ (by decide),
       dispatchStep_parsers_ne _ _ _ _ _ _ (by decide),
       dispatchStep_parsers_ne _ _ _ _ _ _ (by decide),
       singletonStep_fst, singletonStep_fst, singletonStep_fst])

/-- Write-back through the active alias preserves every kind’s name set. -/
theorem updateSection_dom (p : Parser) (k : Section) (nm : String)
    (v : ParserTypes) (s : Section) :
    domOf (p.updateSection k nm v) s = domOf p s := by
  unfold domOf Parser.updateSection
  by_cases h : s = k
  · subst h
    simp only [if_pos rfl]
    cases p.Parsers s with
    | none => rfl
    | some m => simp [mapReplace_keys]
  · simp [h]

/-- `ProcessLine` preserves the name set of each singleton kind. -/
theorem processLine_dom_singleton (p : Parser) (line : String)
    (parts prev : List String) (comment : String) (cfg : ConfiguredParsers)
    (s : Section) (hs : s = .Comments ∨ s = .Defaults ∨ s = .Global) :
    domOf ((p.ProcessLine line parts prev comment cfg).1) s = domOf p s := by
  unfold Parser.ProcessLine
  cases hfa : findAccept ⟨line, parts, prev, comment⟩ (p.activeSet cfg).parsers with
  | none => simp [hfa]
  | some trip =>
    obtain ⟨i, st, pt2⟩ := trip
    simp only [hfa]
    by_cases hst : st = ""
    · subst hst
      simp only [ne_eq, not_true_eq_false, if_false]
      exact updateSection_dom p _ _ _ s
    · rw [if_pos hst]
      unfold domOf
      rw [stateDispatch_parsers_singleton _ _ _ s hs]
      have h2 := updateSection_dom p cfg.ActiveKey.1 cfg.ActiveKey.2
        ⟨(p.activeSet cfg).parsers.set i pt2⟩ s
      unfold domOf at h2
      exact h2

/-- The `ParseData` line loop preserves the singleton name sets. -/
theorem parseLines_dom_singleton :
    ∀ (lines : List String) (p : Parser) (cfg : ConfiguredParsers)
      (prev : List String) (s : Section),
      (s = .Comments ∨ s = .Defaults ∨ s = .Global) →
      domOf (parseLines p cfg prev lines) s = domOf p s
  | [], _, _, _, _, _ => rfl
  | line :: rest, p, cfg, prev, s, hs => by
    unfold parseLines
    by_cases h0 : line = ""
    · rw [if_pos h0]
      exact parseLines_dom_singleton rest p cfg prev s hs
    · rw [if_neg h0]
      by_cases h1 : (if (stringSplitWithCommentIgnoreEmpty line).1 = [] ∧
          (stringSplitWithCommentIgnoreEmpty line).2 ≠ "" then [""]
          else (stringSplitWithCommentIgnoreEmpty line).1) = []
      · rw [if_pos h1]
        exact parseLines_dom_singleton rest p cfg prev s hs
      · rw [if_neg h1]
        rw [parseLines_dom_singleton rest _ _ _ s hs]
        exact processLine_dom_singleton p line _ prev
          (stringSplitWithCommentIgnoreEmpty line).2 cfg s hs

/-- `Get` preserves every kind’s name set. -/
theorem get_dom (p : Parser) (k : Section) (nm attr : String) (c : Bool)
    (s : Section) : domOf ((p.Get k nm attr c).2) s = domOf p s := by
  unfold Parser.Get
  cases hp : p.Parsers k with
  | none => rfl
  | some st =>
    cases hl : st.lookup nm with
    | none => simp only [hl]
    | some sec =>
      simp only [hl]
      exact updateSection_dom _ _ _ _ _

/-- `Set` preserves every kind’s name set. -/
theorem set_dom (p : Parser) (k : Section) (nm attr : String) (v : PValue)
    (i : Int) (s : Section) : domOf ((p.Set k nm attr v i).2) s = domOf p s := by
  unfold Parser.Set
  cases hp : p.Parsers k with
  | none => rfl
  | some st =>
    cases hl : st.lookup nm with
    | none => simp only [hl]
    | some sec =>
      simp only [hl]
      exact updateSection_dom _ _ _ _ _

/-- `Delete` preserves every kind’s name set. -/
theorem delete_dom (p : Parser) (k : Section) (nm attr : String)
    (i : Int) (s : Section) :
    domOf ((p.Delete k nm attr i).2) s = domOf p s := by
  unfold Parser.Delete
  cases hp : p.Parsers k with
  | none => rfl
  | some st =>
    cases hl : st.lookup nm with
    | none => simp only [hl]
    | some sec =>
      simp only [hl]
      exact updateSection_dom _ _ _ _ _

/-- `Insert` preserves every kind’s name set. -/
theorem insert_dom (p : Parser) (k : Section) (nm attr : String) (v : PValue)
    (i : Int) (s : Section) :
    domOf ((p.Insert k nm attr v i).2) s = domOf p s := by
  unfold Parser.Insert
  cases hp : p.Parsers k with
  | none => rfl
  | some st =>
    cases hl : st.lookup nm with
    | none => simp only [hl]
    | some sec =>
      simp only [hl]
      exact updateSection_dom _ _ _ _ _

/-- `SectionsCreate` preserves the singleton name sets. -/
theorem sectionsCreate_dom_singleton (p : Parser) (k : Section) (nm : String)
    (s : Section) (hs : s = .Comments ∨ s = .Defaults ∨ s = .Global) :
    domOf ((p.SectionsCreate k nm).2) s = domOf p s := by
  unfold Parser.SectionsCreate
  cases hp : p.Parsers k with
  | none => rfl
  | some st =>
    cases hl : st.lookup nm with
    | some sec => simp only [hl]
    | none =>
      simp only [hl]
      exact processLine_dom_singleton _ _ _ _ _ _ s hs

/-- `SectionsDelete` preserves the name sets of every other kind. -/
theorem sectionsDelete_dom_ne (p : Parser) (k : Section) (nm : String)
    (s : Section) (h : k ≠ s) :
    domOf ((p.SectionsDelete k nm).2) s = domOf p s := by
  unfold Parser.SectionsDelete
  cases hp : p.Parsers k with
  | none => rfl
  | some st =>
    unfold domOf
    simp only [hp]
    rw [if_neg (fun hc => h hc.symm)]

/-- Any public operation that is not a delete on the singleton kind itself preserves that singleton’s name set. -/
theorem applyOp_dom_singleton (p : Parser) (op : Op) (s : Section)
    (hs : s = .Comments ∨ s = .Defaults ∨ s = .Global)
    (hop : ∀ nm, op ≠ .sectionsDel s nm) :
    domOf (applyOp p op) s = domOf p s := by
  cases op with
  | get k nm attr c => exact get_dom p k nm attr c s
  | getOne k nm attr i => rfl
  | sectionsGet k => rfl
  | sectionsDel k nm =>
    refine sectionsDelete_dom_ne p k nm s ?_
    intro h
    subst h
    exact (hop nm) rfl
  | sectionsCreate k nm => exact sectionsCreate_dom_singleton p k nm s hs
  | setAttr k nm attr v i => exact set_dom p k nm attr v i s
  | delAttr k nm attr i => exact delete_dom p k nm attr i s
  | insAttr k nm attr v i => exact insert_dom p k nm attr v i s
  | hasParser k attr => rfl
  | render => rfl

/-- C3 (amended): after `ParseData` each singleton kind (Comments,
Defaults, Global) has exactly one instance, named `"data"`;
`listSections(Global)` returns exactly that one name; every public API
operation other than `SectionsDelete` on the singleton kind itself
preserves the one-instance invariant; but (refuting the claim as
stated) `SectionsDelete(Global, "data")` is accepted and removes the
singleton, leaving zero Global instances. -/
theorem c3_singleton_invariant :
    (∀ (dat : String) (s : Section),
      s = .Comments ∨ s = .Defaults ∨ s = .Global →
      domOf (ParseData dat) s = some ["data"]) ∧
    (∀ dat : String, (ParseData dat).SectionsGet .Global = .ok ["data"]) ∧
    (∀ (p : Parser) (op : Op) (s : Section),
      (s = .Comments ∨ s = .Defaults ∨ s = .Global) →
      (∀ nm, op ≠ .sectionsDel s nm) →
      domOf p s = some ["data"] → domOf (applyOp p op) s = some ["data"]) ∧
    (∀ (p : Parser) (pt : ParserTypes),
      p.Parsers .Global = some [("data", pt)] →
      (p.SectionsDelete .Global "data").1 = .ok () ∧
      (p.SectionsDelete .Global "data").2.Parsers .Global = some []) := by
  refine ⟨?_, ?_, ?_, ?_⟩
  · intro dat s hs
    unfold ParseData
    rw [parseLines_dom_singleton _ _ _ _ s hs]
    rcases hs with rfl | rfl | rfl <;> rfl
  · intro dat
    have hd : domOf (ParseData dat) .Global = some ["data"] := by
      unfold ParseData
      rw [parseLines_dom_singleton _ _ _ _ .Global (Or.inr (Or.inr rfl))]
      rfl
    unfold domOf at hd
    unfold Parser.SectionsGet
    cases hp : (ParseData dat).Parsers .Global with
    | none => rw [hp] at hd; cases hd
    | some m =>
      rw [hp] at hd
      simp at hd
      simp only [hd]
  · intro p op s hs hop hinv
    rw [applyOp_dom_singleton p op s hs hop]
    exact hinv
  · intro p pt hp
    unfold Parser.SectionsDelete
    simp [hp, mapErase]

/-- C3 counterexample: `deleteSection(Global, "data")` is neither
rejected nor a no-op: it succeeds, `listSections(Global)` then returns
zero names, and the singleton is no longer retrievable. -/
theorem c3_singleton_deleted_counterexample :
    (ParseData "").SectionsGet .Global = .ok ["data"] ∧
    ((ParseData "").SectionsDelete .Global "data").1 = .ok () ∧
    ((ParseData "").SectionsDelete .Global "data").2.SectionsGet .Global =
      .ok [] ∧
    (((ParseData "").SectionsDelete .Global "data").2.Get .Global "data"
      "maxconn" false).1 = .error .SectionMissing := by
  decide

/-- Witness for C3 at concrete inputs: the singleton name set after a
load, its preservation across a create on another kind, and the
successful deletion of the Global singleton. -/
theorem c3_singleton_invariant_witness :
    domOf (ParseData "frontend f\n") .Global = some ["data"] ∧
    domOf (applyOp (ParseData "") (.sectionsCreate .Backends "b")) .Global =
      some ["data"] ∧
    ((ParseData "").SectionsDelete .Global "data").1 = .ok () ∧
    ((ParseData "").SectionsDelete .Global "data").2.Parsers .Global =
      some [] := by
  refine ⟨c3_singleton_invariant.1 "frontend f\n" .Global (Or.inr (Or.inr rfl)),
    c3_singleton_invariant.2.2.1 (ParseData "")
      (.sectionsCreate .Backends "b") .Global (Or.inr (Or.inr rfl))
      (fun nm h => Op.noConfusion h) rfl,
    (c3_singleton_invariant.2.2.2 (ParseData "") getGlobalParser rfl).1,
    (c3_singleton_invariant.2.2.2 (ParseData "") getGlobalParser rfl).2⟩

/-- The lexicographic character order is total. -/
theorem charListLe_total : ∀ a b : List Char,
    charListLe a b = true ∨ charListLe b a = true
  | [], _ => Or.inl rfl
  | _ :: _, [] => Or.inr rfl
  | a :: as, b :: bs => by
    unfold charListLe
    rcases Nat.lt_trichotomy a.toNat b.toNat with h | h | h
    · left; rw [if_pos h]
    · rcases charListLe_total as bs with hr | hr
      · left
        rw [if_neg (by omega), if_neg (by omega)]
        exact hr
      · right
        rw [if_neg (by omega), if_neg (by omega)]
        exact hr
    · right; rw [if_pos h]

/-- The lexicographic character order is transitive. -/
theorem charListLe_trans : ∀ a b c : List Char,
    charListLe a b = true → charListLe b c = true → charListLe a c = true
  | [], _, _, _, _ => rfl
  | _ :: _, [], _, h1, _ => by cases h1
  | _ :: _, _ :: _, [], _, h2 => by cases h2
  | a :: as, b :: bs, c :: cs, h1, h2 => by
    unfold charListLe at h1 h2 ⊢
    rcases Nat.lt_trichotomy a.toNat b.toNat with hab | hab | hab
    · rcases Nat.lt_trichotomy b.toNat c.toNat with hbc | hbc | hbc
      · rw [if_pos (by omega)]
      · rw [if_pos (show a.toNat < c.toNat by omega)]
      · rw [if_neg (by omega), if_pos hbc] at h2
        cases h2
    · rw [if_neg (by omega), if_neg (by omega)] at h1
      rcases Nat.lt_trichotomy b.toNat c.toNat with hbc | hbc | hbc
      · rw [if_pos (by omega)]
      · rw [if_neg (by omega), if_neg (by omega)] at h2
        rw [if_neg (by omega), if_neg (by omega)]
        exact charListLe_trans as bs cs h1 h2
      · rw [if_neg (by omega), if_pos hbc] at h2
        cases h2
    · rw [if_neg (by omega), if_pos hab] at h1
      cases h1

/-- Characters with equal code points are equal. -/
theorem charToNat_inj (a b : Char) (h : a.toNat = b.toNat) : a = b := by
  apply Char.ext
  exact UInt32.ext h

/-- The lexicographic character order is antisymmetric. -/
theorem charListLe_antisymm : ∀ a b : List Char,
    charListLe a b = true → charListLe b a = true → a = b
  | [], [], _, _ => rfl
  | [], _ :: _, _, h2 => by cases h2
  | _ :: _, [], h1, _ => by cases h1
  | a :: as, b :: bs, h1, h2 => by
    unfold charListLe at h1 h2
    rcases Nat.lt_trichotomy a.toNat b.toNat with hab | hab | hab
    · rw [if_neg (by omega), if_pos hab] at h2
      cases h2
    · rw [if_neg (by omega), if_neg (by omega)] at h1 h2
      rw [charToNat_inj a b hab, charListLe_antisymm as bs h1 h2]
    · rw [if_neg (by omega), if_pos hab] at h1
      cases h1

/-- Totality of the Go string order. -/
theorem strLe_total (a b : String) : strLe a b = true ∨ strLe b a = true :=
  charListLe_total a.toList b.toList

/-- Transitivity of the Go string order. -/
theorem strLe_trans (a b c : String) (h1 : strLe a b = true)
    (h2 : strLe b c = true) : strLe a c = true :=
  charListLe_trans a.toList b.toList c.toList h1 h2

/-- Antisymmetry of the Go string order. -/
theorem strLe_antisymm (a b : String) (h1 : strLe a b = true)
    (h2 : strLe b a = true) : a = b := by
  have h := charListLe_antisymm a.toList b.toList h1 h2
  cases a with
  | mk da =>
    cases b with
    | mk db =>
      simp only [String.toList] at h
      rw [show da = db from h]

/-! ## Claim C5: the serializer structure -/

/-- A valid payload renders at least one line (§4.2). -/
theorem result_ne_nil (pt : ParserType) (lines : List Line)
    (h : pt.result true = some lines) : lines ≠ [] := by
  cases pt with
  | sectionDecl s => cases h
  | commentLine cs =>
    simp only [ParserType.result] at h
    by_cases hcs : cs = []
    · rw [if_pos hcs] at h; cases h
    · rw [if_neg hcs] at h
      cases h
      simpa using hcs
  | intDirective kw v =>
    simp only [ParserType.result] at h
    cases v with
    | none => cases h
    | some n => cases h; simp
  | listDirective kw es =>
    simp only [ParserType.result] at h
    by_cases hes : es = []
    · rw [if_pos hes] at h; cases h
    · rw [if_neg hes] at h
      cases h
      simpa using hes

/-- Concatenation distributes over list append. -/
theorem strConcat_append (a b : List String) :
    strConcat (a ++ b) = strConcat a ++ strConcat b := by
  induction a with
  | nil => simp [strConcat]
  | cons x xs ih => simp [strConcat, ih, String.append_assoc]

/-- Unfolding one line of `joinNl`. -/
theorem joinNl_cons (a : String) (l : List String) :
    joinNl (a :: l) = a ++ "\n" ++ joinNl l := by
  show (a ++ "\n") ++ joinNl l = a ++ "\n" ++ joinNl l
  rw [String.append_assoc]

/-- `joinNl` distributes over append. -/
theorem joinNl_append (a b : List String) :
    joinNl (a ++ b) = joinNl a ++ joinNl b := by
  unfold joinNl
  rw [List.map_append, strConcat_append]

/-- `joinNl` of a flattened list of blocks. -/
theorem joinNl_flatten (ls : List (List String)) :
    joinNl ls.flatten = strConcat (ls.map joinNl) := by
  induction ls with
  | nil => rfl
  | cons x xs ih =>
    rw [List.flatten_cons, joinNl_append, List.map_cons, ih]
    rfl

/-- A rendered line is its text plus the newline. -/
theorem renderLine_eq (useInd : Bool) (l : Line) :
    renderLine useInd l = lineText useInd l ++ "\n" := by
  unfold renderLine lineText
  simp [String.append_assoc]

/-- The builder writes of a line list equal their `joinNl`. -/
theorem strConcat_renderLines (useInd : Bool) (lines : List Line) :
    strConcat (lines.map (renderLine useInd)) =
      joinNl (lines.map (lineText useInd)) := by
  induction lines with
  | nil => rfl
  | cons x xs ih =>
    rw [List.map_cons, List.map_cons, joinNl_cons]
    show renderLine useInd x ++ strConcat (xs.map (renderLine useInd)) = _
    rw [ih, renderLine_eq, String.append_assoc]

/-- An invalid parser contributes no body lines. -/
theorem bodyLines_cons_none (pt : ParserType) (rest : List ParserType)
    (useInd : Bool) (hr : pt.result true = none) :
    bodyLines (pt :: rest) useInd = bodyLines rest useInd := by
  unfold bodyLines
  simp only [List.filterMap_cons, hr]

/-- A valid parser contributes its lines in order. -/
theorem bodyLines_cons_some (pt : ParserType) (rest : List ParserType)
    (useInd : Bool) (lines : List Line) (hr : pt.result true = some lines) :
    bodyLines (pt :: rest) useInd =
      lines.map (lineText useInd) ++ bodyLines rest useInd := by
  unfold bodyLines
  simp only [List.filterMap_cons, hr, List.flatten_cons, List.map_append]

/-- Builder equation: invalid head parser. -/
theorem writeParsersAux_cons_none (n : String) (ind : Bool)
    (pt : ParserType) (rest : List ParserType) (w : Bool)
    (hr : pt.result true = none) :
    writeParsersAux n ind (pt :: rest) w = writeParsersAux n ind rest w := by
  conv_lhs => unfold writeParsersAux
  rw [hr]

/-- Builder equation: valid head parser. -/
theorem writeParsersAux_cons_some (n : String) (ind : Bool)
    (pt : ParserType) (rest : List ParserType) (w : Bool)
    (lines : List Line) (hr : pt.result true = some lines) :
    writeParsersAux n ind (pt :: rest) w =
      (if w then "" else "\n" ++ n ++ " \n") ++
        strConcat (lines.map (renderLine ind)) ++
        writeParsersAux n ind rest true := by
  conv_lhs => unfold writeParsersAux
  rw [hr]

/-- With the header already written, the builder emits exactly the body lines. -/
theorem writeParsersAux_true (sectionName : String) (useInd : Bool) :
    ∀ ps : List ParserType,
    writeParsersAux sectionName useInd ps true = joinNl (bodyLines ps useInd)
  | [] => rfl
  | pt :: rest => by
    cases hr : pt.result true with
    | none =>
      rw [writeParsersAux_cons_none _ _ _ _ _ hr,
        bodyLines_cons_none pt rest useInd hr]
      exact writeParsersAux_true sectionName useInd rest
    | some lines =>
      rw [writeParsersAux_cons_some _ _ _ _ _ _ hr,
        bodyLines_cons_some pt rest useInd lines hr, joinNl_append,
        writeParsersAux_true sectionName useInd rest,
        strConcat_renderLines useInd lines]
      simp

/-- With the header pending, the builder emits nothing for an empty body, else the blank line, the header with its trailing space, and the body. -/
theorem writeParsersAux_false (sectionName : String) (useInd : Bool) :
    ∀ ps : List ParserType,
    writeParsersAux sectionName useInd ps false =
      (if bodyLines ps useInd = [] then ""
       else "\n" ++ sectionName ++ " \n" ++ joinNl (bodyLines ps useInd))
  | [] => rfl
  | pt :: rest => by
    cases hr : pt.result true with
    | none =>
      rw [writeParsersAux_cons_none _ _ _ _ _ hr,
        bodyLines_cons_none pt rest useInd hr]
      exact writeParsersAux_false sectionName useInd rest
    | some lines =>
      have hne : lines ≠ [] := result_ne_nil pt lines hr
      rw [writeParsersAux_cons_some _ _ _ _ _ _ hr,
        bodyLines_cons_some pt rest useInd lines hr]
      rw [if_neg (by simp [hne])]
      rw [writeParsersAux_true sectionName useInd rest, joinNl_append,
        strConcat_renderLines useInd lines]
      simp only [String.append_assoc]
      rw [if_neg (by simp [hne])]

/-- Left identity of string append. -/
theorem strEmptyAppend (s : String) : "" ++ s = s := by
  cases s with
  | mk data => rfl

/-- `writeParsers` emits exactly the spec-side block lines. -/
theorem writeParsers_eq_blockLines (n : String) (ps : List ParserType)
    (ind : Bool) : writeParsers n ps ind = joinNl (blockLines n ps ind) := by
  unfold writeParsers blockLines
  by_cases hn : n = ""
  · subst hn
    by_cases hb : bodyLines ps ind = []
    · simp only [hb, if_pos rfl]
      have h := writeParsersAux_true "" ind ps
      rw [hb] at h
      simpa using h
    · simp only [hb, if_neg, if_pos rfl]
      simpa using writeParsersAux_true "" ind ps
  · by_cases hb : bodyLines ps ind = []
    · have h := writeParsersAux_false n ind ps
      rw [hb, if_pos rfl] at h
      simp only [hb, if_pos rfl]
      simpa [hn] using h
    · have h := writeParsersAux_false n ind ps
      rw [if_neg hb] at h
      have hd : (decide (n = "")) = false := by simp [hn]
      rw [hd, h, if_neg hb, if_neg hn, joinNl_cons, joinNl_cons]
      simp only [strEmptyAppend, String.append_assoc,
        show (" \n" : String) = " " ++ "\n" from rfl]

/-- Map respects pointwise-equal functions. -/
theorem map_fun_ext {α β : Type} (l : List α) (f g : α → β)
    (h : ∀ a, f a = g a) : l.map f = l.map g :=
  congrArg (fun fn => l.map fn) (funext h)

/-- One kind renders as its spec-side lines. -/
theorem renderKind_eq (p : Parser) (k : Section) :
    p.renderKind k = joinNl (kindLines p k) := by
  unfold Parser.renderKind kindLines
  rw [joinNl_flatten, List.map_map]
  exact congrArg strConcat
    (map_fun_ext _ _ _ fun nm => writeParsers_eq_blockLines _ _ _)

/-- The serializer output equals the spec-side description. -/
theorem render_eq_spec (p : Parser) :
    p.render = joinNl (specRenderLines p) := by
  unfold Parser.render specRenderLines
  rw [joinNl_append, joinNl_append, joinNl_append, joinNl_flatten,
    List.map_map]
  rw [writeParsers_eq_blockLines, writeParsers_eq_blockLines,
    writeParsers_eq_blockLines]
  have hlast : List.map p.renderKind sectionsOrder =
      List.map (joinNl ∘ kindLines p) sectionsOrder :=
    map_fun_ext _ _ _ fun k => renderKind_eq p k
  rw [hlast]
  rfl

/-- C5 (amended): `render` emits, in order, the Comments singleton
with no header; the Defaults and Global singletons and then the nine
multi-instance kinds in the fixed order UserList, Peers, Mailers,
Resolvers, Cache, Frontends, Backends, Listen, Program, each section as
a blank line, a header carrying a trailing space (`"defaults "`,
`"global "`, `"<kind> <name> "`), and two-space-indented body lines;
names within a kind are sorted lexicographically; parsers and sections
whose payload is empty or invalid contribute zero output lines and no
header. -/
theorem c5_render_structure (p : Parser) :
    p.render = joinNl (specRenderLines p) ∧
    (∀ m : NameMap,
      List.Sorted (fun a b : String => strLe a b = true) (getSortedList m) ∧
      List.Perm (getSortedList m) (m.map Prod.fst)) ∧
    (∀ (n : String) (ps : List ParserType) (ind : Bool),
      bodyLines ps ind = [] → blockLines n ps ind = []) ∧
    (∀ pt : ParserType, pt.result true = none →
      ∀ ind, bodyLines [pt] ind = []) := by
  refine ⟨render_eq_spec p, ?_, ?_, ?_⟩
  · intro m
    haveI : IsTotal String (fun a b => strLe a b = true) := ⟨strLe_total⟩
    haveI : IsTrans String (fun a b => strLe a b = true) := ⟨strLe_trans⟩
    exact ⟨List.sorted_insertionSort _ _, List.perm_insertionSort _ _⟩
  · intro n ps ind h
    unfold blockLines
    rw [if_pos h]
  · intro pt h ind
    rw [bodyLines_cons_none pt [] ind h]
    rfl

/-- C5 counterexample: the headers are emitted with a trailing space
(`"defaults "`), not as the bare `"defaults"` the claim states. -/
theorem c5_header_trailing_space_counterexample :
    (ParseData "defaults\nmaxconn 10\n").render = "\ndefaults \n  maxconn 10\n" ∧
    (ParseData "defaults\nmaxconn 10\n").render ≠ "\ndefaults\n  maxconn 10\n" := by
  decide

/-- Witness for C5 at concrete inputs: a loaded configuration whose
render shows the comment block, the global block, and the two frontends
in sorted order; and an all-invalid roster contributing no lines. -/
theorem c5_render_structure_witness :
    (ParseData "# top\nglobal\nmaxconn 5\nfrontend b\nbind x\nfrontend a\nbind y\n").render =
      joinNl (specRenderLines
        (ParseData "# top\nglobal\nmaxconn 5\nfrontend b\nbind x\nfrontend a\nbind y\n")) ∧
    (ParseData "# top\nglobal\nmaxconn 5\nfrontend b\nbind x\nfrontend a\nbind y\n").render =
      "# top\n\nglobal \n  maxconn 5\n\nfrontend a \n  bind y\n\nfrontend b \n  bind x\n" ∧
    blockLines "defaults" (rosterFor .Defaults).parsers true = [] := by
  refine ⟨(c5_render_structure _).1, by decide,
    (c5_render_structure (ParseData "")).2.2.1 "defaults"
      (rosterFor .Defaults).parsers true (by decide)⟩

/-! ### C1: newline split/join lemmas -/

theorem splitIEAux_no_sep : ∀ (chars cur : List Char) (rest : List Char)
    (sep : Char), chars.all (fun c => !(c = sep)) = true →
    splitIEAux sep cur (chars ++ rest) = splitIEAux sep (cur ++ chars) rest
  | [], cur, rest, sep, _ => by simp
  | c :: cs, cur, rest, sep, h => by
    simp only [List.all_cons, Bool.and_eq_true] at h
    have hc : ¬ c = sep := by simpa using h.1
    rw [List.cons_append]
    conv_lhs => unfold splitIEAux
    rw [if_neg hc]
    rw [splitIEAux_no_sep cs (cur ++ [c]) rest sep h.2, List.append_assoc]
    rfl

theorem splitIEAux_sep (sep : Char) (cur rest : List Char) :
    splitIEAux sep cur (sep :: rest) =
      flushTok cur ++ splitIEAux sep [] rest := by
  conv_lhs => unfold splitIEAux
  rw [if_pos rfl]

theorem splitNl_line (l : String) (rest : List Char)
    (h : l.toList.all (fun c => !(c = '\n')) = true) :
    splitIEAux '\n' [] (l.toList ++ '\n' :: rest) =
      flushTok l.toList ++ splitIEAux '\n' [] rest := by
  rw [splitIEAux_no_sep l.toList [] ('\n' :: rest) '\n' h]
  simpa using splitIEAux_sep '\n' l.toList rest

theorem toList_append (a b : String) : (a ++ b).toList = a.toList ++ b.toList := by
  cases a with
  | mk da =>
    cases b with
    | mk db => rfl

theorem joinNl_toList (l : String) (ls : List String) :
    (joinNl (l :: ls)).toList = l.toList ++ '\n' :: (joinNl ls).toList := by
  rw [joinNl_cons, toList_append, toList_append]
  simp

theorem splitNl_joinNl : ∀ ls : List String,
    (∀ l ∈ ls, l.toList.all (fun c => !(c = '\n')) = true) →
    splitIEAux '\n' [] (joinNl ls).toList = ls.filter (fun l => !(l = ""))
  | [], _ => rfl
  | l :: ls, h => by
    rw [joinNl_toList, splitNl_line l _ (h l (by simp)),
      splitNl_joinNl ls (fun x hx => h x (by simp [hx]))]
    rw [List.filter_cons]
    by_cases hl : l = ""
    · subst hl
      simp [flushTok]
    · have : l.toList ≠ [] := by
        intro hc
        apply hl
        exact congrArg String.mk hc
      rw [flushTok, if_neg this]
      have hmk : String.mk l.toList = l := by cases l <;> rfl
      simp [hmk, hl]

theorem parseLines_filter_empty : ∀ (lines : List String) (p : Parser)
    (cfg : ConfiguredParsers) (prev : List String),
    parseLines p cfg prev (lines.filter (fun l => !(l = ""))) =
      parseLines p cfg prev lines
  | [], _, _, _ => rfl
  | l :: ls, p, cfg, prev => by
    rw [List.filter_cons]
    by_cases hl : l = ""
    · subst hl
      rw [if_neg (by simp)]
      conv_rhs => unfold parseLines
      rw [if_pos rfl]
      exact parseLines_filter_empty ls p cfg prev
    · rw [if_pos (by simpa using hl)]
      conv_lhs => unfold parseLines
      conv_rhs => unfold parseLines
      rw [if_neg hl, if_neg hl]
      by_cases h1 : (if (stringSplitWithCommentIgnoreEmpty l).1 = [] ∧
          (stringSplitWithCommentIgnoreEmpty l).2 ≠ "" then [""]
          else (stringSplitWithCommentIgnoreEmpty l).1) = []
      · rw [if_pos h1, if_pos h1]
        exact parseLines_filter_empty ls p cfg prev
      · rw [if_neg h1, if_neg h1]
        exact parseLines_filter_empty ls _ _ _

theorem parseData_lines (ls : List String)
    (h : ∀ l ∈ ls, l.toList.all (fun c => !(c = '\n')) = true) :
    ParseData (joinNl ls) =
      parseLines ⟨initParsers⟩ ⟨"", (Section.Comments, "data")⟩ [] ls := by
  unfold ParseData
  rw [splitNl_joinNl ls h, parseLines_filter_empty]

/-! ### C1: tokenization of rendered lines, and the decimal round trip -/

theorem mk_toList (s : String) : String.mk s.toList = s := by
  cases s
  rfl

theorem splitWC_nil (cur : List Char) :
    splitWCAux cur [] = (flushTok cur, "") := rfl

theorem splitWC_hash (cur rest : List Char) :
    splitWCAux cur ('#' :: rest) =
      (flushTok cur, String.mk (rest.dropWhile isWS)) := by
  conv_lhs => unfold splitWCAux
  rw [if_pos rfl]

theorem splitWC_ws (cur rest : List Char) (c : Char) (h : isWS c = true) :
    splitWCAux cur (c :: rest) =
      (flushTok cur ++ (splitWCAux [] rest).1, (splitWCAux [] rest).2) := by
  have hc : ¬ c = '#' := by
    intro hc
    subst hc
    exact absurd h (by decide)
  conv_lhs => unfold splitWCAux
  rw [if_neg hc, if_pos h]

theorem splitWC_tok : ∀ (chars cur rest : List Char),
    chars.all (fun c => !(isWS c) && !(c = '#')) = true →
    splitWCAux cur (chars ++ rest) = splitWCAux (cur ++ chars) rest
  | [], cur, rest, _ => by simp
  | c :: cs, cur, rest, h => by
    simp only [List.all_cons, Bool.and_eq_true] at h
    have h1 : ¬ isWS c = true := by simpa using h.1.1
    have h2 : ¬ c = '#' := by simpa using h.1.2
    rw [List.cons_append]
    conv_lhs => unfold splitWCAux
    rw [if_neg h2, if_neg (by simpa using h1)]
    rw [splitWC_tok cs (cur ++ [c]) rest h.2, List.append_assoc]
    rfl

theorem wfTok_chars (t : String) (h : wfTokB t = true) :
    t.toList.all (fun c => !(isWS c) && !(c = '#')) = true := by
  unfold wfTokB at h
  simp only [Bool.and_eq_true, List.all_eq_true] at h ⊢
  intro c hc
  exact ⟨(h.2 c hc).1.1, (h.2 c hc).1.2⟩

theorem wfTok_ne_empty (t : String) (h : wfTokB t = true) : ¬ t = "" := by
  unfold wfTokB at h
  simp only [Bool.and_eq_true] at h
  simpa using h.1

theorem wfTok_toList_ne_nil (t : String) (h : wfTokB t = true) :
    ¬ t.toList = [] := by
  intro hc
  exact wfTok_ne_empty t h (by
    have := congrArg String.mk hc
    rwa [mk_toList] at this)

theorem flushTok_wf (t : String) (h : wfTokB t = true) :
    flushTok t.toList = [t] := by
  rw [flushTok, if_neg (wfTok_toList_ne_nil t h), mk_toList]

theorem joinTokens_cons_cons (a b : String) (l : List String) :
    joinTokens (a :: b :: l) = a ++ " " ++ joinTokens (b :: l) := rfl

theorem splitWC_joinTokens : ∀ ts : List String, ¬ ts = [] →
    (∀ t ∈ ts, wfTokB t = true) →
    splitWCAux [] (joinTokens ts).toList = (ts, "")
  | [], h, _ => absurd rfl h
  | [t], _, h => by
    have hw := h t (by simp)
    rw [joinTokens]
    have := splitWC_tok t.toList [] [] (wfTok_chars t hw)
    rw [List.append_nil] at this
    rw [this, List.nil_append, splitWC_nil, flushTok_wf t hw]
  | t :: t2 :: ts, _, h => by
    have hw := h t (by simp)
    rw [joinTokens_cons_cons, toList_append, toList_append,
      List.append_assoc]
    rw [splitWC_tok t.toList [] _ (wfTok_chars t hw)]
    rw [List.nil_append]
    have : (" ".toList ++ (joinTokens (t2 :: ts)).toList) =
        ' ' :: (joinTokens (t2 :: ts)).toList := rfl
    rw [this, splitWC_ws _ _ _ (by decide)]
    rw [splitWC_joinTokens (t2 :: ts) (List.cons_ne_nil t2 ts)
      (fun x hx => h x (by simp [hx]))]
    rw [flushTok_wf t hw]
    rfl

theorem splitWC_joinTokens_sp : ∀ (ts : List String) (rest : List Char),
    ¬ ts = [] → (∀ t ∈ ts, wfTokB t = true) →
    splitWCAux [] ((joinTokens ts).toList ++ ' ' :: rest) =
      (ts ++ (splitWCAux [] rest).1, (splitWCAux [] rest).2)
  | [], _, h, _ => absurd rfl h
  | [t], rest, _, h => by
    have hw := h t (by simp)
    rw [joinTokens]
    rw [splitWC_tok t.toList [] _ (wfTok_chars t hw)]
    rw [List.nil_append, splitWC_ws _ _ _ (by decide), flushTok_wf t hw]
  | t :: t2 :: ts, rest, _, h => by
    have hw := h t (by simp)
    rw [joinTokens_cons_cons, toList_append, toList_append,
      List.append_assoc, List.append_assoc]
    rw [splitWC_tok t.toList [] _ (wfTok_chars t hw), List.nil_append]
    have : (" ".toList ++ ((joinTokens (t2 :: ts)).toList ++ ' ' :: rest)) =
        ' ' :: ((joinTokens (t2 :: ts)).toList ++ ' ' :: rest) := rfl
    rw [this, splitWC_ws _ _ _ (by decide)]
    rw [splitWC_joinTokens_sp (t2 :: ts) rest (List.cons_ne_nil t2 ts)
      (fun x hx => h x (by simp [hx]))]
    rw [flushTok_wf t hw]
    rfl

theorem tok_indent (ts : List String) (hne : ¬ ts = [])
    (h : ∀ t ∈ ts, wfTokB t = true) :
    stringSplitWithCommentIgnoreEmpty ("  " ++ joinTokens ts) = (ts, "") := by
  unfold stringSplitWithCommentIgnoreEmpty
  rw [toList_append]
  have : ("  " : String).toList ++ (joinTokens ts).toList =
      ' ' :: ' ' :: (joinTokens ts).toList := rfl
  rw [this, splitWC_ws _ _ _ (by decide), splitWC_ws _ _ _ (by decide),
    splitWC_joinTokens ts hne h]
  rfl

theorem tok_header (ts : List String) (hne : ¬ ts = [])
    (h : ∀ t ∈ ts, wfTokB t = true) :
    stringSplitWithCommentIgnoreEmpty (joinTokens ts ++ " ") = (ts, "") := by
  unfold stringSplitWithCommentIgnoreEmpty
  rw [toList_append]
  have : (joinTokens ts).toList ++ (" " : String).toList =
      (joinTokens ts).toList ++ ' ' :: [] := rfl
  rw [this, splitWC_joinTokens_sp ts [] hne h]
  simp [splitWC_nil, flushTok]

theorem wfComment_parts (c : String) (h : wfCommentB c = true) :
    stringSplitWithCommentIgnoreEmpty ("# " ++ c) = ([], c) := by
  unfold stringSplitWithCommentIgnoreEmpty
  rw [toList_append]
  have : ("# " : String).toList ++ c.toList = '#' :: ' ' :: c.toList := rfl
  rw [this, splitWC_hash]
  have hdw : (' ' :: c.toList).dropWhile isWS = c.toList.dropWhile isWS := by
    rw [List.dropWhile_cons_of_pos (by decide)]
  rw [hdw]
  unfold wfCommentB at h
  simp only [Bool.and_eq_true] at h
  cases hc : c.toList with
  | nil => rw [hc] at h; simp at h
  | cons ch rest =>
    rw [hc] at h
    have hn : isWS ch = false := by
      rcases h with ⟨h1, _⟩
      simp only [Bool.and_eq_true] at h1
      simpa using h1.1
    rw [List.dropWhile_cons_of_neg (by simp [hn])]
    rw [← hc, mk_toList]
    simp [flushTok]

theorem wfComment_ne_empty (c : String) (h : wfCommentB c = true) :
    ¬ c = "" := by
  intro hc
  subst hc
  simp [wfCommentB] at h

theorem toList_mk (l : List Char) : (String.mk l).toList = l := rfl

theorem digitVal_digitChar (d : Nat) (h : d < 10) :
    digitVal (Nat.digitChar d) = some d := by
  interval_cases d <;> decide

theorem decDigits_append (a b : List Char) (acc m : Nat)
    (h : decDigits a acc = some m) :
    decDigits (a ++ b) acc = decDigits b m := by
  induction a generalizing acc with
  | nil =>
    simp only [decDigits] at h
    cases h
    rfl
  | cons c cs ih =>
    rw [List.cons_append]
    simp only [decDigits] at h ⊢
    cases hd : digitVal c with
    | none => rw [hd] at h; exact absurd h (by simp)
    | some d =>
      rw [hd] at h
      exact ih _ h

theorem natCharsAux_sound : ∀ (fuel n acc : Nat), n < 10 ^ fuel →
    decDigits (natCharsAux fuel n) acc =
      some (acc * 10 ^ (natCharsAux fuel n).length + n)
  | 0, n, acc, h => by
    have : n = 0 := by simpa using Nat.lt_one_iff.mp (by simpa using h)
    subst this
    simp [natCharsAux, decDigits]
  | fuel + 1, n, acc, h => by
    by_cases hn : n < 10
    · rw [natCharsAux, if_pos hn]
      simp only [decDigits, digitVal_digitChar n hn, List.length_cons,
        List.length_nil]
      norm_num
    · rw [natCharsAux, if_neg hn]
      have hdiv : n / 10 < 10 ^ fuel := by
        rw [Nat.div_lt_iff_lt_mul (by norm_num)]
        calc n < 10 ^ (fuel + 1) := h
        _ = 10 ^ fuel * 10 := by ring
      have ih := natCharsAux_sound fuel (n / 10) acc hdiv
      rw [decDigits_append _ _ _ _ ih]
      simp only [decDigits, digitVal_digitChar (n % 10) (Nat.mod_lt n (by norm_num)),
        List.length_append, List.length_cons, List.length_nil]
      congr 1
      have hmod := Nat.div_add_mod n 10
      ring_nf
      omega

theorem natCharsAux_ne_nil (fuel n : Nat) :
    ¬ natCharsAux (fuel + 1) n = [] := by
  rw [natCharsAux]
  by_cases hn : n < 10
  · rw [if_pos hn]
    simp
  · rw [if_neg hn]
    simp

theorem parseUns_natChars (n : Nat) : parseUns (natChars n) = some n := by
  have hlt : n < 10 ^ (n + 1) := by
    calc n < 10 ^ n := Nat.lt_pow_self (by norm_num) n
    _ ≤ 10 ^ (n + 1) := Nat.pow_le_pow_right (by norm_num) (Nat.le_succ n)
  unfold parseUns natChars
  rw [if_neg (natCharsAux_ne_nil n n), natCharsAux_sound (n + 1) n 0 hlt]
  simp

theorem natCharsAux_digits : ∀ (fuel n : Nat) (c : Char),
    c ∈ natCharsAux fuel n → ∃ d, d < 10 ∧ c = Nat.digitChar d
  | 0, n, c, h => by simp [natCharsAux] at h
  | fuel + 1, n, c, h => by
    rw [natCharsAux] at h
    by_cases hn : n < 10
    · rw [if_pos hn] at h
      simp only [List.mem_singleton] at h
      exact ⟨n, hn, h⟩
    · rw [if_neg hn] at h
      rcases List.mem_append.mp h with h2 | h2
      · exact natCharsAux_digits fuel (n / 10) c h2
      · simp only [List.mem_singleton] at h2
        exact ⟨n % 10, Nat.mod_lt n (by norm_num), h2⟩

theorem digitChar_tok (d : Nat) (h : d < 10) :
    (!(isWS (Nat.digitChar d)) && !(Nat.digitChar d = '#') &&
      !(Nat.digitChar d = '\n')) = true := by
  interval_cases d <;> decide

theorem digitChar_ne_plus (d : Nat) (h : d < 10) :
    ¬ Nat.digitChar d = '+' := by
  interval_cases d <;> decide

theorem digitChar_ne_minus (d : Nat) (h : d < 10) :
    ¬ Nat.digitChar d = '-' := by
  interval_cases d <;> decide

theorem wfTok_intToString (n : Int) : wfTokB (intToString n) = true := by
  unfold intToString wfTokB
  by_cases hn : n < 0
  · rw [if_pos hn]
    rw [Bool.and_eq_true]
    constructor
    · rw [Bool.not_eq_true', decide_eq_false_iff_not]
      intro hc
      have := congrArg String.toList hc
      rw [toList_append, toList_mk] at this
      simp at this
    · rw [List.all_eq_true]
      intro c hc
      rw [toList_append, toList_mk] at hc
      rcases List.mem_append.mp hc with h2 | h2
      · have : c = '-' := by simpa using h2
        subst this
        decide
      · rcases natCharsAux_digits _ _ c h2 with ⟨d, hd, rfl⟩
        exact digitChar_tok d hd
  · rw [if_neg hn]
    rw [Bool.and_eq_true]
    constructor
    · rw [Bool.not_eq_true', decide_eq_false_iff_not]
      intro hc
      have := congrArg String.toList hc
      rw [toList_mk] at this
      exact natCharsAux_ne_nil _ _ (by simpa using this)
    · rw [List.all_eq_true]
      intro c hc
      rw [toList_mk] at hc
      rcases natCharsAux_digits _ _ c hc with ⟨d, hd, rfl⟩
      exact digitChar_tok d hd

theorem parseInt64_mk (l : List Char) :
    parseInt64 (String.mk l) =
      (match l with
      | [] => none
      | c :: rest =>
        if c = '+' then
          (parseUns rest).bind fun m =>
            if m ≤ 9223372036854775807 then some (Int.ofNat m) else none
        else if c = '-' then
          (parseUns rest).bind fun m =>
            if m ≤ 9223372036854775808 then some (-(Int.ofNat m)) else none
        else
          (parseUns (c :: rest)).bind fun m =>
            if m ≤ 9223372036854775807 then some (Int.ofNat m) else none) := rfl

theorem parseInt64_cons (c : Char) (rest : List Char) :
    parseInt64 (String.mk (c :: rest)) =
      (if c = '+' then
        (parseUns rest).bind fun m =>
          if m ≤ 9223372036854775807 then some (Int.ofNat m) else none
      else if c = '-' then
        (parseUns rest).bind fun m =>
          if m ≤ 9223372036854775808 then some (-(Int.ofNat m)) else none
      else
        (parseUns (c :: rest)).bind fun m =>
          if m ≤ 9223372036854775807 then some (Int.ofNat m) else none) := rfl

theorem parseInt64_intToString (n : Int)
    (h1 : -9223372036854775808 ≤ n) (h2 : n ≤ 9223372036854775807) :
    parseInt64 (intToString n) = some n := by
  unfold intToString
  by_cases hn : n < 0
  · rw [if_pos hn]
    have hmk : ("-" ++ String.mk (natChars (-n).toNat)) =
        String.mk ('-' :: natChars (-n).toNat) := by
      apply congrArg String.mk
      rfl
    rw [hmk, parseInt64_cons]
    rw [if_neg (by decide), if_pos rfl, parseUns_natChars]
    simp only [Option.some_bind]
    rw [if_pos (by omega)]
    congr 1
    have : ((-n).toNat : Int) = -n := Int.toNat_of_nonneg (by omega)
    rw [Int.ofNat_eq_coe, this]
    ring
  · rw [if_neg hn]
    cases hnc : natChars n.toNat with
    | nil => exact absurd hnc (natCharsAux_ne_nil _ _)
    | cons c rest =>
      have hcd : ∃ d, d < 10 ∧ c = Nat.digitChar d := by
        apply natCharsAux_digits (n.toNat + 1) n.toNat
        rw [← natChars, hnc]
        simp
      rcases hcd with ⟨d, hd, rfl⟩
      rw [parseInt64_cons]
      rw [if_neg (digitChar_ne_plus d hd), if_neg (digitChar_ne_minus d hd)]
      rw [← hnc, parseUns_natChars]
      simp only [Option.some_bind]
      rw [if_pos (by omega)]
      congr 1
      rw [Int.ofNat_eq_coe]
      omega


/-! ### C1: single-line dispatch evaluations -/

theorem sectionDecl_parse_reject (sd : Option (String × String))
    (l : String) (kw : String) (rest pr : List String) (c : String)
    (h1 : multiKeywords.contains kw = false)
    (h2 : ¬ kw = "defaults") (h3 : ¬ kw = "global") :
    (ParserType.sectionDecl sd).parse ⟨l, kw :: rest, pr, c⟩ =
      .error ⟨"Section", l, ""⟩ := by
  unfold ParserType.parse
  simp only [h1, Bool.false_eq_true, if_false]
  rw [if_neg]
  simp [h2, h3]

theorem sectionDecl_parse_multi (sd : Option (String × String))
    (l : String) (kw nm : String) (rest pr : List String) (c : String)
    (h1 : multiKeywords.contains kw = true) :
    (ParserType.sectionDecl sd).parse ⟨l, kw :: nm :: rest, pr, c⟩ =
      .ok (kw, .sectionDecl (some (kw, nm))) := by
  unfold ParserType.parse
  simp only [h1, if_true]

theorem sectionDecl_parse_single (sd : Option (String × String))
    (l : String) (kw : String) (rest pr : List String) (c : String)
    (h1 : multiKeywords.contains kw = false)
    (h2 : kw = "defaults" ∨ kw = "global") :
    (ParserType.sectionDecl sd).parse ⟨l, kw :: rest, pr, c⟩ =
      .ok (kw, .sectionDecl (some (kw, ""))) := by
  unfold ParserType.parse
  simp only [h1, Bool.false_eq_true, if_false]
  rw [if_pos]
  rcases h2 with h | h <;> simp [h]

theorem intDirective_parse_reject (k : String) (v : Option Int)
    (l : String) (kw : String) (rest pr : List String) (c : String)
    (h : ¬ kw = k) :
    (ParserType.intDirective k v).parse ⟨l, kw :: rest, pr, c⟩ =
      .error ⟨k, l, ""⟩ := by
  unfold ParserType.parse
  simp only [h, if_false]

theorem intDirective_parse_ok (k : String) (v : Option Int)
    (l : String) (t : String) (rest pr : List String) (c : String) (n : Int)
    (h : parseInt64 t = some n) :
    (ParserType.intDirective k v).parse ⟨l, k :: t :: rest, pr, c⟩ =
      .ok ("", .intDirective k (some n)) := by
  unfold ParserType.parse
  simp only [if_pos rfl, h]
  simp

theorem listDirective_parse_reject (k : String) (es : List (List String))
    (l : String) (kw : String) (rest pr : List String) (c : String)
    (h : ¬ kw = k) :
    (ParserType.listDirective k es).parse ⟨l, kw :: rest, pr, c⟩ =
      .error ⟨k, l, ""⟩ := by
  unfold ParserType.parse
  simp only [h, if_false]

theorem listDirective_parse_ok (k : String) (es : List (List String))
    (l : String) (a pr : List String) (c : String) :
    (ParserType.listDirective k es).parse ⟨l, k :: a, pr, c⟩ =
      .ok ("", .listDirective k (es ++ [a])) := by
  unfold ParserType.parse
  simp only [if_pos rfl]
  simp

theorem commentLine_parse_ok (cs : List String)
    (l : String) (pr : List String) (c : String) :
    (ParserType.commentLine cs).parse ⟨l, [""], pr, c⟩ =
      .ok ("", .commentLine (cs ++ [c])) := by
  unfold ParserType.parse
  simp only [if_pos rfl]
  simp

theorem stateDispatch_defaults (p : Parser) (cfg : ConfiguredParsers)
    (pt : ParserType) (hst : cfg.State = "defaults") :
    stateDispatch p cfg pt =
      (p, { cfg with ActiveKey := (.Defaults, "data") }) := by
  unfold stateDispatch singletonStep dispatchStep
  simp [hst]

theorem stateDispatch_global (p : Parser) (cfg : ConfiguredParsers)
    (pt : ParserType) (hst : cfg.State = "global") :
    stateDispatch p cfg pt =
      (p, { cfg with ActiveKey := (.Global, "data") }) := by
  unfold stateDispatch singletonStep dispatchStep
  simp [hst]

theorem processLine_body_max (p : Parser) (cfg : ConfiguredParsers)
    (l : String) (t : String) (prev : List String) (n : Int)
    (sd : Option (String × String)) (v : Option Int) (kw : String)
    (es : List (List String))
    (hact : p.activeSet cfg = ⟨[.sectionDecl sd, .intDirective "maxconn" v,
      .listDirective kw es]⟩)
    (ht : parseInt64 t = some n) :
    p.ProcessLine l ["maxconn", t] prev "" cfg =
      (p.updateSection cfg.ActiveKey.1 cfg.ActiveKey.2
        ⟨[.sectionDecl sd, .intDirective "maxconn" (some n),
          .listDirective kw es]⟩, cfg) := by
  unfold Parser.ProcessLine
  rw [hact]
  simp only
  rw [findAccept_cons_err _ _ _ _
    (sectionDecl_parse_reject sd l "maxconn" [t] prev "" (by decide)
      (by decide) (by decide))]
  rw [findAccept_cons_ok _ _ _ _ _ (intDirective_parse_ok "maxconn" v l t [] prev "" n ht)]
  simp only
  rw [if_neg (by simp)]
  rfl

theorem processLine_body_list (p : Parser) (cfg : ConfiguredParsers)
    (l : String) (a prev : List String)
    (sd : Option (String × String)) (v : Option Int) (kw : String)
    (es : List (List String))
    (hact : p.activeSet cfg = ⟨[.sectionDecl sd, .intDirective "maxconn" v,
      .listDirective kw es]⟩)
    (h1 : multiKeywords.contains kw = false)
    (h2 : ¬ kw = "defaults") (h3 : ¬ kw = "global") (h4 : ¬ kw = "maxconn") :
    p.ProcessLine l (kw :: a) prev "" cfg =
      (p.updateSection cfg.ActiveKey.1 cfg.ActiveKey.2
        ⟨[.sectionDecl sd, .intDirective "maxconn" v,
          .listDirective kw (es ++ [a])]⟩, cfg) := by
  unfold Parser.ProcessLine
  rw [hact]
  simp only
  rw [findAccept_cons_err _ _ _ _
    (sectionDecl_parse_reject sd l kw a prev "" h1 h2 h3)]
  rw [findAccept_cons_err _ _ _ _
    (intDirective_parse_reject "maxconn" v l kw a prev "" h4)]
  rw [findAccept_cons_ok _ _ _ _ _ (listDirective_parse_ok kw es l a prev "")]
  simp only
  rw [if_neg (by simp)]
  rfl

theorem processLine_comment (p : Parser) (cfg : ConfiguredParsers)
    (l : String) (prev : List String) (c : String)
    (sd : Option (String × String)) (cs : List String)
    (hact : p.activeSet cfg = ⟨[.sectionDecl sd, .commentLine cs]⟩) :
    p.ProcessLine l [""] prev c cfg =
      (p.updateSection cfg.ActiveKey.1 cfg.ActiveKey.2
        ⟨[.sectionDecl sd, .commentLine (cs ++ [c])]⟩, cfg) := by
  unfold Parser.ProcessLine
  rw [hact]
  simp only
  rw [findAccept_cons_err _ _ _ _
    (sectionDecl_parse_reject sd l "" [] prev c (by decide)
      (by decide) (by decide))]
  rw [findAccept_cons_ok _ _ _ _ _ (commentLine_parse_ok cs l prev c)]
  simp only
  rw [if_neg (by simp)]
  rfl

theorem processLine_single_header (p : Parser) (cfg : ConfiguredParsers)
    (l : String) (prev : List String) (kw : String) (tgt : Section × String)
    (sd : Option (String × String)) (tail : List ParserType)
    (hact : p.activeSet cfg = ⟨.sectionDecl sd :: tail⟩)
    (hkw : (kw = "defaults" ∧ tgt = (.Defaults, "data")) ∨
           (kw = "global" ∧ tgt = (.Global, "data"))) :
    p.ProcessLine l [kw] prev "" cfg =
      (p.updateSection cfg.ActiveKey.1 cfg.ActiveKey.2
        ⟨.sectionDecl (some (kw, "")) :: tail⟩,
       { cfg with State := kw, ActiveKey := tgt }) := by
  have h1 : multiKeywords.contains kw = false := by
    rcases hkw with ⟨h, _⟩ | ⟨h, _⟩ <;> subst h <;> decide
  unfold Parser.ProcessLine
  rw [hact]
  simp only
  rw [findAccept_cons_ok _ _ _ _ _
    (sectionDecl_parse_single sd l kw [] prev "" h1
      (by rcases hkw with ⟨h, _⟩ | ⟨h, _⟩ <;> [left; right] <;> exact h))]
  simp only
  rw [if_pos (by rcases hkw with ⟨h, _⟩ | ⟨h, _⟩ <;> subst h <;> simp)]
  rcases hkw with ⟨h, h2⟩ | ⟨h, h2⟩ <;> subst h <;> subst h2
  · rw [stateDispatch_defaults _ _ _ rfl]
    rfl
  · rw [stateDispatch_global _ _ _ rfl]
    rfl

theorem processLine_multi_header (p : Parser) (cfg : ConfiguredParsers)
    (l : String) (prev : List String) (k : Section) (nm : String)
    (sd : Option (String × String)) (tail : List ParserType)
    (hact : p.activeSet cfg = ⟨.sectionDecl sd :: tail⟩)
    (hmulti : multiKeywords.contains (sectionString k) = true) :
    p.ProcessLine l [sectionString k, nm] prev "" cfg =
      ((p.updateSection cfg.ActiveKey.1 cfg.ActiveKey.2
          ⟨.sectionDecl (some (sectionString k, nm)) :: tail⟩).registerSection
            k nm (rosterFor k),
       { cfg with State := sectionString k, ActiveKey := (k, nm) }) := by
  unfold Parser.ProcessLine
  rw [hact]
  simp only
  rw [findAccept_cons_ok _ _ _ _ _
    (sectionDecl_parse_multi sd l (sectionString k) nm [] prev "" hmulti)]
  simp only
  rw [if_pos (by simpa using sectionString_multi_ne_empty k hmulti)]
  rw [stateDispatch_multi _ _ _ k hmulti rfl]
  rfl

/-! ### C1: erasing section-declaration payloads

The serializer never prints a `sectionDecl` payload (`Result` errors on
it), while re-parsing a header line rewrites the previously active
set's `sectionDecl`.  The round-trip argument therefore tracks registry
states up to erasure of all `sectionDecl` payloads. -/

def eraseDecl : ParserType → ParserType
  | .sectionDecl _ => .sectionDecl none
  | pt => pt

def eraseSet (s : ParserTypes) : ParserTypes := ⟨s.parsers.map eraseDecl⟩

def eraseMap (m : NameMap) : NameMap := m.map fun e => (e.1, eraseSet e.2)

def eraseAll (P : Parser) : Parser := ⟨fun k => (P.Parsers k).map eraseMap⟩

def uniqKeys (m : NameMap) : Prop := (m.map Prod.fst).Nodup

def regOK (P : Parser) : Prop :=
  ∀ k, ∃ m, P.Parsers k = some m ∧ uniqKeys m

theorem eraseMap_keys (m : NameMap) :
    (eraseMap m).map Prod.fst = m.map Prod.fst := by
  unfold eraseMap
  rw [List.map_map]
  rfl

theorem lookup_eraseMap (m : NameMap) (nm : String) :
    (eraseMap m).lookup nm = (m.lookup nm).map eraseSet := by
  induction m with
  | nil => rfl
  | cons e rest ih =>
    unfold eraseMap
    rw [List.map_cons]
    rw [lookup_cons, lookup_cons]
    by_cases h : nm = e.1
    · rw [if_pos h, if_pos h]
      rfl
    · rw [if_neg h, if_neg h]
      exact ih

theorem eraseMap_mapReplace (m : NameMap) (nm : String) (v : ParserTypes) :
    eraseMap (mapReplace m nm v) = mapReplace (eraseMap m) nm (eraseSet v) := by
  unfold eraseMap mapReplace
  rw [List.map_map, List.map_map]
  apply map_fun_ext
  intro e
  by_cases h : e.1 = nm
  · simp [h]
  · simp [h]

theorem any_key_eraseMap (m : NameMap) (nm : String) :
    (eraseMap m).any (fun e => e.1 = nm) = m.any (fun e => e.1 = nm) := by
  unfold eraseMap
  rw [List.any_map]
  rfl

theorem eraseMap_append (a b : NameMap) :
    eraseMap (a ++ b) = eraseMap a ++ eraseMap b := by
  unfold eraseMap
  rw [List.map_append]

theorem eraseMap_mapSet (m : NameMap) (nm : String) (v : ParserTypes) :
    eraseMap (mapSet m nm v) = mapSet (eraseMap m) nm (eraseSet v) := by
  unfold mapSet
  rw [any_key_eraseMap]
  by_cases h : m.any (fun e => e.1 = nm) = true
  · rw [if_pos h, if_pos h]
    unfold eraseMap
    rw [List.map_map, List.map_map]
    apply map_fun_ext
    intro e
    by_cases h2 : e.1 = nm
    · simp [h2]
    · simp [h2]
  · rw [if_neg h, if_neg h, eraseMap_append]
    rfl

theorem eraseAll_Parsers (P : Parser) (k : Section) :
    (eraseAll P).Parsers k = (P.Parsers k).map eraseMap := rfl

theorem eraseAll_updateSection (P : Parser) (k : Section) (nm : String)
    (v : ParserTypes) :
    eraseAll (P.updateSection k nm v) =
      (eraseAll P).updateSection k nm (eraseSet v) := by
  unfold eraseAll Parser.updateSection
  apply congrArg Parser.mk
  funext k2
  dsimp only
  by_cases h : k2 = k
  · rw [if_pos h, if_pos h]
    cases P.Parsers k with
    | none => rfl
    | some m => simp [eraseMap_mapReplace]
  · rw [if_neg h, if_neg h]

theorem eraseAll_registerSection (P : Parser) (k : Section) (nm : String)
    (v : ParserTypes) :
    eraseAll (P.registerSection k nm v) =
      (eraseAll P).registerSection k nm (eraseSet v) := by
  unfold eraseAll Parser.registerSection
  apply congrArg Parser.mk
  funext k2
  dsimp only
  by_cases h : k2 = k
  · rw [if_pos h, if_pos h]
    cases P.Parsers k with
    | none => simp [eraseMap_mapSet]; rfl
    | some m => simp [eraseMap_mapSet]
  · rw [if_neg h, if_neg h]

theorem eraseAll_activeSet (P : Parser) (cfg : ConfiguredParsers) :
    (eraseAll P).activeSet cfg = eraseSet (P.activeSet cfg) := by
  unfold Parser.activeSet
  rw [eraseAll_Parsers]
  cases P.Parsers cfg.ActiveKey.1 with
  | none => rfl
  | some m =>
    simp only [Option.map, Option.getD]
    rw [lookup_eraseMap]
    cases m.lookup cfg.ActiveKey.2 with
    | none => rfl
    | some s => rfl

theorem eraseDecl_eq_decl (pt : ParserType) (x : Option (String × String))
    (h : eraseDecl pt = .sectionDecl x) : ∃ sd, pt = .sectionDecl sd := by
  cases pt with
  | sectionDecl sd => exact ⟨sd, rfl⟩
  | commentLine cs => exact absurd h (by simp [eraseDecl])
  | intDirective k v => exact absurd h (by simp [eraseDecl])
  | listDirective k es => exact absurd h (by simp [eraseDecl])

theorem eraseDecl_eq_int (pt : ParserType) (k : String) (v : Option Int)
    (h : eraseDecl pt = .intDirective k v) : pt = .intDirective k v := by
  cases pt with
  | sectionDecl sd => exact absurd h (by simp [eraseDecl])
  | commentLine cs => exact absurd h (by simp [eraseDecl])
  | intDirective k2 v2 => simpa [eraseDecl] using h
  | listDirective k2 es => exact absurd h (by simp [eraseDecl])

theorem eraseDecl_eq_list (pt : ParserType) (k : String)
    (es : List (List String))
    (h : eraseDecl pt = .listDirective k es) : pt = .listDirective k es := by
  cases pt with
  | sectionDecl sd => exact absurd h (by simp [eraseDecl])
  | commentLine cs => exact absurd h (by simp [eraseDecl])
  | intDirective k2 v2 => exact absurd h (by simp [eraseDecl])
  | listDirective k2 es2 => simpa [eraseDecl] using h

theorem eraseDecl_eq_comment (pt : ParserType) (cs : List String)
    (h : eraseDecl pt = .commentLine cs) : pt = .commentLine cs := by
  cases pt with
  | sectionDecl sd => exact absurd h (by simp [eraseDecl])
  | commentLine cs2 => simpa [eraseDecl] using h
  | intDirective k2 v2 => exact absurd h (by simp [eraseDecl])
  | listDirective k2 es2 => exact absurd h (by simp [eraseDecl])

theorem map_eraseDecl_cons (ps : List ParserType) (x : ParserType)
    (rest : List ParserType) (h : ps.map eraseDecl = x :: rest) :
    ∃ a tl, ps = a :: tl ∧ eraseDecl a = x ∧ tl.map eraseDecl = rest := by
  cases ps with
  | nil => exact absurd h (by simp)
  | cons a tl =>
    rw [List.map_cons] at h
    injection h with h1 h2
    exact ⟨a, tl, rfl, h1, h2⟩

theorem map_eraseDecl_nil (ps : List ParserType)
    (h : ps.map eraseDecl = []) : ps = [] := by
  cases ps with
  | nil => rfl
  | cons a tl => exact absurd h (by simp)

theorem eraseSet_roster (S : ParserTypes) (v : Option Int) (kw : String)
    (es : List (List String))
    (h : eraseSet S = ⟨[.sectionDecl none, .intDirective "maxconn" v,
      .listDirective kw es]⟩) :
    ∃ sd, S = ⟨[.sectionDecl sd, .intDirective "maxconn" v,
      .listDirective kw es]⟩ := by
  cases S with
  | mk ps =>
    unfold eraseSet at h
    simp only [ParserTypes.mk.injEq] at h
    rcases map_eraseDecl_cons _ _ _ h with ⟨a, tl, rfl, ha, h⟩
    rcases map_eraseDecl_cons _ _ _ h with ⟨b, tl2, rfl, hb, h⟩
    rcases map_eraseDecl_cons _ _ _ h with ⟨c, tl3, rfl, hc, h⟩
    rw [map_eraseDecl_nil _ h]
    rcases eraseDecl_eq_decl a none ha with ⟨sd, rfl⟩
    rw [eraseDecl_eq_int b _ _ hb, eraseDecl_eq_list c _ _ hc]
    exact ⟨sd, rfl⟩

theorem eraseSet_start (S : ParserTypes) (cs : List String)
    (h : eraseSet S = ⟨[.sectionDecl none, .commentLine cs]⟩) :
    ∃ sd, S = ⟨[.sectionDecl sd, .commentLine cs]⟩ := by
  cases S with
  | mk ps =>
    unfold eraseSet at h
    simp only [ParserTypes.mk.injEq] at h
    rcases map_eraseDecl_cons _ _ _ h with ⟨a, tl, rfl, ha, h⟩
    rcases map_eraseDecl_cons _ _ _ h with ⟨b, tl2, rfl, hb, h⟩
    rw [map_eraseDecl_nil _ h]
    rcases eraseDecl_eq_decl a none ha with ⟨sd, rfl⟩
    rw [eraseDecl_eq_comment b _ hb]
    exact ⟨sd, rfl⟩

theorem eraseSet_headed (S : ParserTypes) (tail : List ParserType)
    (h : eraseSet S = ⟨.sectionDecl none :: tail⟩) :
    ∃ sd tail0, S = ⟨.sectionDecl sd :: tail0⟩ ∧
      tail0.map eraseDecl = tail := by
  cases S with
  | mk ps =>
    unfold eraseSet at h
    simp only [ParserTypes.mk.injEq] at h
    rcases map_eraseDecl_cons _ _ _ h with ⟨a, tl, rfl, ha, h2⟩
    rcases eraseDecl_eq_decl a none ha with ⟨sd, rfl⟩
    exact ⟨sd, tl, rfl, h2⟩

theorem mapReplace_not_mem : ∀ (m : NameMap) (nm : String),
    ¬ nm ∈ m.map Prod.fst → ∀ v : ParserTypes, mapReplace m nm v = m
  | [], _, _, _ => rfl
  | e :: rest, nm, h, v => by
    rw [mapReplace_cons]
    rw [List.map_cons, List.mem_cons] at h
    push_neg at h
    rw [if_neg (by intro hc; exact h.1 hc.symm)]
    rw [mapReplace_not_mem rest nm h.2 v]

theorem mapReplace_lookup_id : ∀ (m : NameMap) (nm : String)
    (w : ParserTypes), uniqKeys m → m.lookup nm = some w →
    mapReplace m nm w = m
  | [], nm, w, _, hl => by simp [List.lookup] at hl
  | e :: rest, nm, w, hu, hl => by
    rw [mapReplace_cons]
    rw [lookup_cons] at hl
    unfold uniqKeys at hu
    rw [List.map_cons, List.nodup_cons] at hu
    by_cases h : nm = e.1
    · rw [if_pos h] at hl
      injection hl with hw
      rw [if_pos h.symm]
      have he : (nm, w) = e := by rw [← hw, h]
      rw [he, mapReplace_not_mem rest nm (by rw [h]; exact hu.1) w]
    · rw [if_neg h] at hl
      rw [if_neg (fun hc => h hc.symm)]
      rw [mapReplace_lookup_id rest nm w hu.2 hl]

theorem lookup_none_not_mem : ∀ (m : NameMap) (nm : String),
    m.lookup nm = none → ¬ nm ∈ m.map Prod.fst
  | [], _, _ => by simp
  | e :: rest, nm, h => by
    rw [lookup_cons] at h
    by_cases h2 : nm = e.1
    · rw [if_pos h2] at h
      exact absurd h (by simp)
    · rw [if_neg h2] at h
      rw [List.map_cons, List.mem_cons]
      push_neg
      exact ⟨h2, lookup_none_not_mem rest nm h⟩

theorem uniq_mapReplace (m : NameMap) (nm : String) (v : ParserTypes)
    (h : uniqKeys m) : uniqKeys (mapReplace m nm v) := by
  unfold uniqKeys
  rw [mapReplace_keys]
  exact h

theorem uniq_mapSet (m : NameMap) (nm : String) (v : ParserTypes)
    (h : uniqKeys m) : uniqKeys (mapSet m nm v) := by
  unfold mapSet
  by_cases ha : m.any (fun e => e.1 = nm) = true
  · rw [if_pos ha]
    unfold uniqKeys at *
    have : (List.map (fun e => if e.1 = nm then (nm, v) else e) m).map Prod.fst
        = m.map Prod.fst := by
      rw [List.map_map]
      apply map_fun_ext
      intro e
      by_cases h2 : e.1 = nm
      · simp [h2]
      · simp [h2]
    rw [this]
    exact h
  · rw [if_neg ha]
    unfold uniqKeys at *
    rw [List.map_append]
    simp only [List.map_cons, List.map_nil]
    rw [List.nodup_append]
    refine ⟨h, by simp, ?_⟩
    intro x hx
    simp only [List.mem_singleton]
    intro hc
    subst hc
    rcases List.mem_map.mp hx with ⟨e, he, hfst⟩
    exact ha (List.any_eq_true.mpr ⟨e, he, by simp [hfst]⟩)

/-! ### C1: the rendered lines of roster-shaped sets -/

def cmtLine (c : String) : String := "# " ++ c

def indentLine (ts : List String) : String := "  " ++ joinTokens ts

def bodyL (kw : String) (v : Option Int) (es : List (List String)) :
    List String :=
  (match v with
   | none => []
   | some n => [indentLine ["maxconn", intToString n]]) ++
  es.map fun a => indentLine (kw :: a)

def blockL (hdr : String) (body : List String) : List String :=
  if body = [] then [] else "" :: (hdr ++ " ") :: body

theorem lineText_nc (u : Bool) (d : String) :
    lineText u ⟨d, ""⟩ = (if u then "  " else "") ++ d := by
  unfold lineText
  simp

theorem lineText_ind (d : String) : lineText true ⟨d, ""⟩ = "  " ++ d := by
  rw [lineText_nc]
  rfl

theorem lineText_noind (d : String) : lineText false ⟨d, ""⟩ = d := by
  rw [lineText_nc]
  rw [if_neg (by simp)]
  exact strEmptyAppend d

theorem map_lineText_entries (kw : String) (es : List (List String)) :
    List.map (lineText true)
      (es.map fun a => (⟨joinTokens (kw :: a), ""⟩ : Line)) =
      es.map fun a => indentLine (kw :: a) := by
  rw [List.map_map]
  apply map_fun_ext
  intro a
  rw [Function.comp_apply, lineText_ind]
  rfl

theorem map_lineText_cmts (cs : List String) :
    List.map (lineText false) (cs.map fun c => (⟨"# " ++ c, ""⟩ : Line)) =
      cs.map cmtLine := by
  rw [List.map_map]
  apply map_fun_ext
  intro c
  rw [Function.comp_apply, lineText_noind]
  rfl

theorem bodyLines_roster (sd : Option (String × String)) (v : Option Int)
    (kw : String) (es : List (List String)) :
    bodyLines [.sectionDecl sd, .intDirective "maxconn" v,
      .listDirective kw es] true = bodyL kw v es := by
  rw [bodyLines_cons_none (.sectionDecl sd) _ _ rfl]
  unfold bodyL
  cases v with
  | none =>
    rw [bodyLines_cons_none (.intDirective "maxconn" none) _ _ rfl]
    cases es with
    | nil => rfl
    | cons a es2 =>
      rw [bodyLines_cons_some (.listDirective kw (a :: es2)) _ _ _ rfl]
      have h0 : bodyLines [] true = [] := rfl
      rw [h0, List.append_nil, map_lineText_entries]
      rfl
  | some n =>
    rw [bodyLines_cons_some (.intDirective "maxconn" (some n)) _ _ _ rfl]
    cases es with
    | nil =>
      rw [bodyLines_cons_none (.listDirective kw []) _ _ rfl]
      have h0 : bodyLines [] true = [] := rfl
      rw [h0]
      simp only [List.map_cons, List.map_nil, List.append_nil]
      rw [lineText_ind]
      rfl
    | cons a es2 =>
      rw [bodyLines_cons_some (.listDirective kw (a :: es2)) _ _ _ rfl]
      have h0 : bodyLines [] true = [] := rfl
      rw [h0, List.append_nil, map_lineText_entries]
      simp only [List.map_cons, List.map_nil]
      rw [lineText_ind]
      rfl

theorem bodyLines_start (sd : Option (String × String)) (cs : List String) :
    bodyLines [.sectionDecl sd, .commentLine cs] false = cs.map cmtLine := by
  rw [bodyLines_cons_none (.sectionDecl sd) _ _ rfl]
  cases cs with
  | nil => rfl
  | cons c cs2 =>
    rw [bodyLines_cons_some (.commentLine (c :: cs2)) _ _ _ rfl]
    have h0 : bodyLines [] false = [] := rfl
    rw [h0, List.append_nil, map_lineText_cmts]

theorem blockLines_eq_blockL (n : String) (ps : List ParserType) (u : Bool)
    (hn : ¬ n = "") :
    blockLines n ps u = blockL n (bodyLines ps u) := by
  unfold blockLines blockL
  by_cases h : bodyLines ps u = []
  · rw [if_pos h, if_pos h]
  · rw [if_neg h, if_neg h, if_neg hn]

theorem blockLines_comments (ps : List ParserType) (u : Bool) :
    blockLines "" ps u = bodyLines ps u := by
  unfold blockLines
  by_cases h : bodyLines ps u = []
  · rw [if_pos h, h]
  · rw [if_neg h, if_pos rfl]

theorem result_eraseDecl (pt : ParserType) (b : Bool) :
    (eraseDecl pt).result b = pt.result b := by
  cases pt <;> rfl

theorem bodyLines_eraseDecl (ps : List ParserType) (u : Bool) :
    bodyLines (ps.map eraseDecl) u = bodyLines ps u := by
  unfold bodyLines
  rw [List.filterMap_map]
  have : List.filterMap ((fun pt => pt.result true) ∘ eraseDecl) ps =
      List.filterMap (fun pt => pt.result true) ps := by
    apply List.filterMap_congr
    intro pt _
    rw [Function.comp_apply, result_eraseDecl]
  rw [this]

theorem sectionSet_eraseAll (P : Parser) (k : Section) (nm : String) :
    (eraseAll P).sectionSet k nm = eraseSet (P.sectionSet k nm) := by
  unfold Parser.sectionSet
  rw [eraseAll_Parsers]
  cases P.Parsers k with
  | none => rfl
  | some m =>
    simp only [Option.map, Option.getD]
    rw [lookup_eraseMap]
    cases m.lookup nm with
    | none => rfl
    | some s => rfl

theorem getSortedList_eraseMap (m : NameMap) :
    getSortedList (eraseMap m) = getSortedList m := by
  unfold getSortedList
  rw [eraseMap_keys]

theorem blockLines_eraseSet (n : String) (S : ParserTypes) (u : Bool) :
    blockLines n (eraseSet S).parsers u = blockLines n S.parsers u := by
  unfold blockLines
  have h0 : (eraseSet S).parsers = S.parsers.map eraseDecl := rfl
  rw [h0, bodyLines_eraseDecl]

theorem kindLines_eraseAll (P : Parser) (k : Section) :
    kindLines (eraseAll P) k = kindLines P k := by
  unfold kindLines
  rw [eraseAll_Parsers]
  have hm : ((P.Parsers k).map eraseMap).getD [] =
      eraseMap ((P.Parsers k).getD []) := by
    cases P.Parsers k with
    | none => rfl
    | some m => rfl
  rw [hm, getSortedList_eraseMap]
  apply congrArg List.flatten
  apply map_fun_ext
  intro nm
  rw [sectionSet_eraseAll, blockLines_eraseSet]

theorem specRenderLines_eraseAll (P : Parser) :
    specRenderLines (eraseAll P) = specRenderLines P := by
  unfold specRenderLines
  rw [sectionSet_eraseAll, sectionSet_eraseAll, sectionSet_eraseAll,
    blockLines_eraseSet, blockLines_eraseSet, blockLines_eraseSet]
  have hmap : List.map (kindLines (eraseAll P)) sectionsOrder =
      List.map (kindLines P) sectionsOrder :=
    map_fun_ext _ _ _ fun k => kindLines_eraseAll P k
  rw [hmap]

/-! ### C1: line-loop equations and registry write-back algebra -/

theorem parseLines_cons_empty (P : Parser) (cfg : ConfiguredParsers)
    (prev rest : List String) :
    parseLines P cfg prev ("" :: rest) = parseLines P cfg prev rest := by
  conv_lhs => unfold parseLines
  rw [if_pos rfl]

theorem parseLines_cons_proc (P : Parser) (cfg : ConfiguredParsers)
    (prev : List String) (l : String) (rest : List String)
    (parts : List String) (c : String)
    (hl : ¬ l = "")
    (htok : stringSplitWithCommentIgnoreEmpty l = (parts, c))
    (hparts : ¬ parts = []) :
    parseLines P cfg prev (l :: rest) =
      parseLines (P.ProcessLine l parts prev c cfg).1
        (P.ProcessLine l parts prev c cfg).2 parts rest := by
  conv_lhs => unfold parseLines
  rw [if_neg hl]
  simp only [htok]
  rw [if_neg (by simp [hparts])]
  rw [if_neg (by simp [hparts])]

theorem parseLines_cons_cmt (P : Parser) (cfg : ConfiguredParsers)
    (prev : List String) (l : String) (rest : List String) (c : String)
    (hl : ¬ l = "")
    (htok : stringSplitWithCommentIgnoreEmpty l = ([], c))
    (hc : ¬ c = "") :
    parseLines P cfg prev (l :: rest) =
      parseLines (P.ProcessLine l [""] prev c cfg).1
        (P.ProcessLine l [""] prev c cfg).2 [""] rest := by
  conv_lhs => unfold parseLines
  rw [if_neg hl]
  simp only [htok]
  have hinner : (if True ∧ c ≠ "" then [""] else ([] : List String)) =
      [""] := if_pos ⟨trivial, hc⟩
  rw [hinner]
  rw [if_neg (by simp)]

theorem indentLine_ne_empty (ts : List String) : ¬ indentLine ts = "" := by
  intro h
  have := congrArg String.toList h
  rw [indentLine, toList_append] at this
  simp at this

theorem cmtLine_ne_empty (c : String) : ¬ cmtLine c = "" := by
  intro h
  have := congrArg String.toList h
  rw [cmtLine, toList_append] at this
  simp at this

theorem header_ne_empty (hdr : String) : ¬ hdr ++ " " = "" := by
  intro h
  have := congrArg String.toList h
  rw [toList_append] at this
  simp only [String.toList_empty, List.append_eq_nil] at this
  exact absurd this.2 (by decide)

theorem activeSet_some (P : Parser) (cfg : ConfiguredParsers)
    (S : ParserTypes) (hS : ¬ S.parsers = [])
    (hact : P.activeSet cfg = S) :
    ∃ m, P.Parsers cfg.ActiveKey.1 = some m ∧
      m.lookup cfg.ActiveKey.2 = some S := by
  unfold Parser.activeSet at hact
  cases hm : P.Parsers cfg.ActiveKey.1 with
  | none =>
    rw [hm] at hact
    simp only [Option.getD_none] at hact
    exact absurd (congrArg ParserTypes.parsers hact.symm) (by simpa using hS)
  | some m =>
    rw [hm] at hact
    simp only [Option.getD_some] at hact
    cases hl : m.lookup cfg.ActiveKey.2 with
    | none =>
      rw [hl] at hact
      simp only [Option.getD_none] at hact
      exact absurd (congrArg ParserTypes.parsers hact.symm) (by simpa using hS)
    | some s =>
      rw [hl] at hact
      simp only [Option.getD_some] at hact
      exact ⟨m, rfl, by rw [hl, hact]⟩

theorem updateSection_Parsers_self (P : Parser) (k : Section) (nm : String)
    (v : ParserTypes) (m : NameMap) (hm : P.Parsers k = some m) :
    (P.updateSection k nm v).Parsers k = some (mapReplace m nm v) := by
  unfold Parser.updateSection
  dsimp only
  rw [if_pos rfl, hm]
  rfl

theorem updateSection_Parsers_ne (P : Parser) (k k2 : Section) (nm : String)
    (v : ParserTypes) (h : ¬ k2 = k) :
    (P.updateSection k nm v).Parsers k2 = P.Parsers k2 := by
  unfold Parser.updateSection
  dsimp only
  rw [if_neg h]

theorem registerSection_Parsers_self (P : Parser) (k : Section) (nm : String)
    (v : ParserTypes) :
    (P.registerSection k nm v).Parsers k =
      some (mapSet ((P.Parsers k).getD []) nm v) := by
  unfold Parser.registerSection
  dsimp only
  rw [if_pos rfl]

theorem registerSection_Parsers_ne (P : Parser) (k k2 : Section) (nm : String)
    (v : ParserTypes) (h : ¬ k2 = k) :
    (P.registerSection k nm v).Parsers k2 = P.Parsers k2 := by
  unfold Parser.registerSection
  dsimp only
  rw [if_neg h]

theorem activeSet_update (P : Parser) (cfg : ConfiguredParsers)
    (v : ParserTypes) (m : NameMap) (S : ParserTypes)
    (hm : P.Parsers cfg.ActiveKey.1 = some m)
    (hl : m.lookup cfg.ActiveKey.2 = some S) :
    (P.updateSection cfg.ActiveKey.1 cfg.ActiveKey.2 v).activeSet cfg = v := by
  unfold Parser.activeSet
  rw [updateSection_Parsers_self P _ _ v m hm]
  rw [Option.getD_some]
  rw [lookup_mapReplace_self m _ v S hl]
  rfl

theorem parser_ext (P Q : Parser) (h : ∀ k, P.Parsers k = Q.Parsers k) :
    P = Q := by
  cases P
  cases Q
  exact congrArg Parser.mk (funext h)

theorem mapReplace_mapReplace (m : NameMap) (nm : String)
    (v w : ParserTypes) :
    mapReplace (mapReplace m nm v) nm w = mapReplace m nm w := by
  unfold mapReplace
  rw [List.map_map]
  apply map_fun_ext
  intro e
  by_cases h2 : e.1 = nm
  · simp [h2]
  · simp [h2]

theorem updateSection_Parsers_none (P : Parser) (k : Section) (nm : String)
    (v : ParserTypes) (hm : P.Parsers k = none) :
    (P.updateSection k nm v).Parsers k = none := by
  unfold Parser.updateSection
  dsimp only
  rw [if_pos rfl, hm]
  rfl

theorem updateSection_active_id (P : Parser) (cfg : ConfiguredParsers)
    (S : ParserTypes) (hreg : regOK P) (hS : ¬ S.parsers = [])
    (hact : P.activeSet cfg = S) :
    P.updateSection cfg.ActiveKey.1 cfg.ActiveKey.2 S = P := by
  rcases activeSet_some P cfg S hS hact with ⟨m, hm, hl⟩
  rcases hreg cfg.ActiveKey.1 with ⟨m2, hm2, hu⟩
  rw [hm] at hm2
  injection hm2 with hm2
  subst hm2
  apply parser_ext
  intro k2
  by_cases h : k2 = cfg.ActiveKey.1
  · subst h
    rw [updateSection_Parsers_self P _ _ S m hm, hm,
      mapReplace_lookup_id m _ S hu hl]
  · rw [updateSection_Parsers_ne P _ _ _ _ h]

theorem updateSection_updateSection (P : Parser) (k : Section) (nm : String)
    (v w : ParserTypes) :
    (P.updateSection k nm v).updateSection k nm w = P.updateSection k nm w := by
  apply parser_ext
  intro k2
  by_cases h : k2 = k
  · subst h
    cases hm : P.Parsers k2 with
    | none =>
      rw [updateSection_Parsers_none _ _ nm w hm]
      rw [updateSection_Parsers_none _ _ nm w
        (updateSection_Parsers_none _ _ nm v hm)]
    | some m =>
      rw [updateSection_Parsers_self _ _ nm w _
        (updateSection_Parsers_self _ _ nm v _ hm)]
      rw [updateSection_Parsers_self _ _ nm w _ hm]
      rw [mapReplace_mapReplace]
  · rw [updateSection_Parsers_ne _ _ _ _ _ h,
      updateSection_Parsers_ne _ _ _ _ _ h,
      updateSection_Parsers_ne _ _ _ _ _ h]

theorem mapReplace_mapSet (m : NameMap) (nm : String) (v w : ParserTypes) :
    mapReplace (mapSet m nm v) nm w = mapSet m nm w := by
  unfold mapSet mapReplace
  by_cases h : m.any (fun e => e.1 = nm) = true
  · rw [if_pos h, if_pos h, List.map_map]
    apply map_fun_ext
    intro e
    by_cases h2 : e.1 = nm
    · simp [h2]
    · simp [h2]
  · rw [if_neg h, if_neg h]
    have h1 : mapReplace m nm w = m := by
      apply mapReplace_not_mem
      intro hmem
      rcases List.mem_map.mp hmem with ⟨e, he, hfst⟩
      exact h (List.any_eq_true.mpr ⟨e, he, by simp [hfst]⟩)
    unfold mapReplace at h1
    rw [List.map_append, h1]
    simp

theorem regOK_update (P : Parser) (k : Section) (nm : String)
    (v : ParserTypes) (h : regOK P) : regOK (P.updateSection k nm v) := by
  intro k2
  by_cases hk : k2 = k
  · subst hk
    rcases h k2 with ⟨m, hm, hu⟩
    exact ⟨mapReplace m nm v, updateSection_Parsers_self P k2 nm v m hm,
      uniq_mapReplace m nm v hu⟩
  · rw [updateSection_Parsers_ne P k k2 nm v hk]
    exact h k2

theorem regOK_register (P : Parser) (k : Section) (nm : String)
    (v : ParserTypes) (h : regOK P) : regOK (P.registerSection k nm v) := by
  intro k2
  by_cases hk : k2 = k
  · subst hk
    rcases h k2 with ⟨m, hm, hu⟩
    refine ⟨mapSet ((P.Parsers k2).getD []) nm v,
      registerSection_Parsers_self P k2 nm v, ?_⟩
    rw [hm]
    exact uniq_mapSet m nm v hu
  · rw [registerSection_Parsers_ne P k k2 nm v hk]
    exact h k2

/-! ### C1: replaying the comment block and a section body -/

theorem activeSet_eq (P : Parser) (cfg : ConfiguredParsers) (m : NameMap)
    (S : ParserTypes) (hm : P.Parsers cfg.ActiveKey.1 = some m)
    (hl : m.lookup cfg.ActiveKey.2 = some S) :
    P.activeSet cfg = S := by
  unfold Parser.activeSet
  rw [hm, Option.getD_some, hl, Option.getD_some]

theorem joinTokens_single (t : String) : joinTokens [t] = t := rfl

theorem joinTokens_pair (a b : String) : joinTokens [a, b] = a ++ " " ++ b :=
  rfl

theorem wfEntry_tokens (kw : String) (a : List String)
    (hkw : wfTokB kw = true) (ha : wfEntryB a = true) :
    ∀ t ∈ kw :: a, wfTokB t = true := by
  intro t ht
  rcases List.mem_cons.mp ht with h | h
  · subst h
    exact hkw
  · unfold wfEntryB at ha
    exact List.all_eq_true.mp ha t h

theorem stage_comments : ∀ (cs cs0 : List String) (P : Parser)
    (cfg : ConfiguredParsers) (prev rest : List String)
    (sd : Option (String × String)),
    regOK P →
    (∀ c ∈ cs, wfCommentB c = true) →
    P.activeSet cfg = ⟨[.sectionDecl sd, .commentLine cs0]⟩ →
    ∃ prev2, parseLines P cfg prev (cs.map cmtLine ++ rest) =
      parseLines (P.updateSection cfg.ActiveKey.1 cfg.ActiveKey.2
        ⟨[.sectionDecl sd, .commentLine (cs0 ++ cs)]⟩) cfg prev2 rest
  | [], cs0, P, cfg, prev, rest, sd, hreg, _, hact => by
    refine ⟨prev, ?_⟩
    rw [List.map_nil, List.nil_append, List.append_nil,
      updateSection_active_id P cfg _ hreg (by simp) hact]
  | c :: cs, cs0, P, cfg, prev, rest, sd, hreg, hwf, hact => by
    rw [List.map_cons, List.cons_append]
    rw [parseLines_cons_cmt P cfg prev (cmtLine c) _ c
      (cmtLine_ne_empty c) (wfComment_parts c (hwf c (by simp)))
      (wfComment_ne_empty c (hwf c (by simp)))]
    rw [processLine_comment P cfg (cmtLine c) prev c sd cs0 hact]
    dsimp only
    obtain ⟨m, hm, hl⟩ := activeSet_some P cfg _ (by simp) hact
    have hact2 : (P.updateSection cfg.ActiveKey.1 cfg.ActiveKey.2
        ⟨[.sectionDecl sd, .commentLine (cs0 ++ [c])]⟩).activeSet cfg =
        ⟨[.sectionDecl sd, .commentLine (cs0 ++ [c])]⟩ :=
      activeSet_update P cfg _ m _ hm hl
    obtain ⟨prev2, hrec⟩ := stage_comments cs (cs0 ++ [c]) _ cfg [""] rest sd
      (regOK_update P _ _ _ hreg) (fun x hx => hwf x (by simp [hx])) hact2
    refine ⟨prev2, ?_⟩
    rw [hrec, updateSection_updateSection, List.append_assoc]
    rfl

theorem stage_list : ∀ (es es0 : List (List String)) (v0 : Option Int)
    (kw : String) (P : Parser) (cfg : ConfiguredParsers)
    (prev rest : List String) (sd : Option (String × String)),
    regOK P →
    multiKeywords.contains kw = false → ¬ kw = "defaults" →
    ¬ kw = "global" → ¬ kw = "maxconn" → wfTokB kw = true →
    (∀ a ∈ es, wfEntryB a = true) →
    P.activeSet cfg = ⟨[.sectionDecl sd, .intDirective "maxconn" v0,
      .listDirective kw es0]⟩ →
    ∃ prev2, parseLines P cfg prev
        ((es.map fun a => indentLine (kw :: a)) ++ rest) =
      parseLines (P.updateSection cfg.ActiveKey.1 cfg.ActiveKey.2
        ⟨[.sectionDecl sd, .intDirective "maxconn" v0,
          .listDirective kw (es0 ++ es)]⟩) cfg prev2 rest
  | [], es0, v0, kw, P, cfg, prev, rest, sd, hreg, _, _, _, _, _, _, hact => by
    refine ⟨prev, ?_⟩
    rw [List.map_nil, List.nil_append, List.append_nil,
      updateSection_active_id P cfg _ hreg (by simp) hact]
  | a :: es, es0, v0, kw, P, cfg, prev, rest, sd, hreg, h1, h2, h3, h4, h5,
      hwf, hact => by
    rw [List.map_cons, List.cons_append]
    rw [parseLines_cons_proc P cfg prev (indentLine (kw :: a)) _ (kw :: a) ""
      (indentLine_ne_empty _)
      (tok_indent (kw :: a) (by simp)
        (wfEntry_tokens kw a h5 (hwf a (by simp))))
      (by simp)]
    rw [processLine_body_list P cfg (indentLine (kw :: a)) a prev sd v0 kw
      es0 hact h1 h2 h3 h4]
    dsimp only
    obtain ⟨m, hm, hl⟩ := activeSet_some P cfg _ (by simp) hact
    have hact2 := activeSet_update P cfg
      ⟨[.sectionDecl sd, .intDirective "maxconn" v0,
        .listDirective kw (es0 ++ [a])]⟩ m _ hm hl
    obtain ⟨prev2, hrec⟩ := stage_list es (es0 ++ [a]) v0 kw _ cfg (kw :: a)
      rest sd (regOK_update P _ _ _ hreg) h1 h2 h3 h4 h5
      (fun x hx => hwf x (by simp [hx])) hact2
    refine ⟨prev2, ?_⟩
    rw [hrec, updateSection_updateSection, List.append_assoc]
    rfl

theorem stage_body (v : Option Int) (es es0 : List (List String))
    (kw : String) (P : Parser) (cfg : ConfiguredParsers)
    (prev rest : List String) (sd : Option (String × String))
    (hreg : regOK P)
    (h1 : multiKeywords.contains kw = false) (h2 : ¬ kw = "defaults")
    (h3 : ¬ kw = "global") (h4 : ¬ kw = "maxconn") (h5 : wfTokB kw = true)
    (hwfv : wfIntB v = true)
    (hwf : ∀ a ∈ es, wfEntryB a = true)
    (hact : P.activeSet cfg = ⟨[.sectionDecl sd, .intDirective "maxconn" none,
      .listDirective kw es0]⟩) :
    ∃ prev2, parseLines P cfg prev (bodyL kw v es ++ rest) =
      parseLines (P.updateSection cfg.ActiveKey.1 cfg.ActiveKey.2
        ⟨[.sectionDecl sd, .intDirective "maxconn" v,
          .listDirective kw (es0 ++ es)]⟩) cfg prev2 rest := by
  cases v with
  | none =>
    unfold bodyL
    rw [List.nil_append]
    exact stage_list es es0 none kw P cfg prev rest sd hreg h1 h2 h3 h4 h5
      hwf hact
  | some n =>
    unfold bodyL
    rw [List.cons_append, List.nil_append, List.cons_append]
    have hrange : -9223372036854775808 ≤ n ∧ n ≤ 9223372036854775807 := by
      unfold wfIntB at hwfv
      simp only [Bool.and_eq_true, decide_eq_true_eq] at hwfv
      exact hwfv
    rw [parseLines_cons_proc P cfg prev
      (indentLine ["maxconn", intToString n]) _ ["maxconn", intToString n] ""
      (indentLine_ne_empty _)
      (tok_indent ["maxconn", intToString n] (by simp)
        (by
          intro t ht
          rcases List.mem_cons.mp ht with h | h
          · subst h
            decide
          · simp only [List.mem_singleton] at h
            subst h
            exact wfTok_intToString n))
      (by simp)]
    rw [processLine_body_max P cfg _ (intToString n) prev n sd none kw es0
      hact (parseInt64_intToString n hrange.1 hrange.2)]
    dsimp only
    obtain ⟨m, hm, hl⟩ := activeSet_some P cfg _ (by simp) hact
    have hact2 := activeSet_update P cfg
      ⟨[.sectionDecl sd, .intDirective "maxconn" (some n),
        .listDirective kw es0]⟩ m _ hm hl
    obtain ⟨prev2, hrec⟩ := stage_list es es0 (some n) kw _ cfg
      ["maxconn", intToString n] rest sd (regOK_update P _ _ _ hreg)
      h1 h2 h3 h4 h5 hwf hact2
    refine ⟨prev2, ?_⟩
    rw [hrec, updateSection_updateSection]

/-! ### C1: replaying one rendered section block -/

theorem wfTok_multi_keyword (k : Section)
    (hmulti : multiKeywords.contains (sectionString k) = true) :
    wfTokB (sectionString k) = true := by
  cases k <;> revert hmulti <;> decide

theorem stage_single (v : Option Int) (es : List (List String))
    (P : Parser) (cfg : ConfiguredParsers) (prev rest : List String)
    (sd : Option (String × String)) (tail : List ParserType)
    (kw lkw : String) (tgtK : Section) (sdT : Option (String × String))
    (mT : NameMap)
    (hreg : regOK P)
    (hact : P.activeSet cfg = ⟨.sectionDecl sd :: tail⟩)
    (hkw : (kw = "defaults" ∧ tgtK = .Defaults) ∨
           (kw = "global" ∧ tgtK = .Global))
    (hne : ¬ cfg.ActiveKey.1 = tgtK)
    (hmT : P.Parsers tgtK = some mT)
    (hlT : mT.lookup "data" = some ⟨[.sectionDecl sdT,
      .intDirective "maxconn" none, .listDirective lkw []]⟩)
    (hl1 : multiKeywords.contains lkw = false) (hl2 : ¬ lkw = "defaults")
    (hl3 : ¬ lkw = "global") (hl4 : ¬ lkw = "maxconn")
    (hl5 : wfTokB lkw = true)
    (hwfv : wfIntB v = true) (hwfe : ∀ a ∈ es, wfEntryB a = true)
    (hbody : ¬ bodyL lkw v es = []) :
    ∃ prev2, parseLines P cfg prev (blockL kw (bodyL lkw v es) ++ rest) =
      parseLines ((P.updateSection cfg.ActiveKey.1 cfg.ActiveKey.2
          ⟨.sectionDecl (some (kw, "")) :: tail⟩).updateSection tgtK "data"
          ⟨[.sectionDecl sdT, .intDirective "maxconn" v,
            .listDirective lkw es]⟩)
        { cfg with State := kw, ActiveKey := (tgtK, "data") } prev2 rest := by
  have hkwtok : wfTokB kw = true := by
    rcases hkw with ⟨h, _⟩ | ⟨h, _⟩ <;> subst h <;> decide
  set P1 := P.updateSection cfg.ActiveKey.1 cfg.ActiveKey.2
    ⟨.sectionDecl (some (kw, "")) :: tail⟩ with hP1
  set cfg1 : ConfiguredParsers :=
    { cfg with State := kw, ActiveKey := (tgtK, "data") } with hcfg1
  have hmT1 : P1.Parsers tgtK = some mT := by
    rw [hP1, updateSection_Parsers_ne P _ _ _ _ (fun hc => hne hc.symm), hmT]
  have hact1 : P1.activeSet cfg1 = ⟨[.sectionDecl sdT,
      .intDirective "maxconn" none, .listDirective lkw []]⟩ :=
    activeSet_eq P1 cfg1 mT _ hmT1 hlT
  have hreg1 : regOK P1 := regOK_update P _ _ _ hreg
  obtain ⟨prev2, hrec⟩ := stage_body v es [] lkw P1 cfg1 [kw] rest sdT hreg1
    hl1 hl2 hl3 hl4 hl5 hwfv hwfe hact1
  refine ⟨prev2, ?_⟩
  unfold blockL
  rw [if_neg hbody, List.cons_append, List.cons_append]
  rw [parseLines_cons_empty]
  have hjoin : kw ++ " " = joinTokens [kw] ++ " " := rfl
  rw [hjoin, parseLines_cons_proc P cfg prev (joinTokens [kw] ++ " ") _ [kw]
    "" (header_ne_empty _)
    (tok_header [kw] (by simp) (by
      intro t ht
      simp only [List.mem_singleton] at ht
      subst ht
      exact hkwtok))
    (by simp)]
  rw [processLine_single_header P cfg _ prev kw (tgtK, "data") sd tail hact
    (by rcases hkw with ⟨h, h2⟩ | ⟨h, h2⟩ <;> [left; right] <;>
      exact ⟨h, by rw [h2]⟩)]
  dsimp only
  rw [hrec]
  rw [List.nil_append]

theorem stage_multi (k : Section) (nm : String) (v : Option Int)
    (es : List (List String)) (P : Parser) (cfg : ConfiguredParsers)
    (prev rest : List String) (sd : Option (String × String))
    (tail : List ParserType)
    (hreg : regOK P)
    (hact : P.activeSet cfg = ⟨.sectionDecl sd :: tail⟩)
    (hmulti : multiKeywords.contains (sectionString k) = true)
    (hnm : wfTokB nm = true)
    (hl1 : multiKeywords.contains (listKeyword k) = false)
    (hl2 : ¬ listKeyword k = "defaults") (hl3 : ¬ listKeyword k = "global")
    (hl4 : ¬ listKeyword k = "maxconn") (hl5 : wfTokB (listKeyword k) = true)
    (hwfv : wfIntB v = true) (hwfe : ∀ a ∈ es, wfEntryB a = true)
    (hbody : ¬ bodyL (listKeyword k) v es = []) :
    ∃ prev2, parseLines P cfg prev
        (blockL (sectionString k ++ " " ++ nm) (bodyL (listKeyword k) v es)
          ++ rest) =
      parseLines
        (((P.updateSection cfg.ActiveKey.1 cfg.ActiveKey.2
            ⟨.sectionDecl (some (sectionString k, nm)) :: tail⟩).registerSection
              k nm (rosterFor k)).updateSection k nm
            ⟨[.sectionDecl none, .intDirective "maxconn" v,
              .listDirective (listKeyword k) es]⟩)
        { cfg with State := sectionString k, ActiveKey := (k, nm) }
        prev2 rest := by
  set P1 := (P.updateSection cfg.ActiveKey.1 cfg.ActiveKey.2
    ⟨.sectionDecl (some (sectionString k, nm)) :: tail⟩).registerSection
      k nm (rosterFor k) with hP1
  set cfg1 : ConfiguredParsers :=
    { cfg with State := sectionString k, ActiveKey := (k, nm) } with hcfg1
  have hmT1 : P1.Parsers k = some (mapSet
      (((P.updateSection cfg.ActiveKey.1 cfg.ActiveKey.2
        ⟨.sectionDecl (some (sectionString k, nm)) :: tail⟩).Parsers k).getD
          []) nm (rosterFor k)) := registerSection_Parsers_self _ _ _ _
  have hact1 : P1.activeSet cfg1 = rosterFor k :=
    activeSet_eq P1 cfg1 _ _ hmT1 (lookup_mapSet_self _ _ _)
  have hreg1 : regOK P1 :=
    regOK_register _ _ _ _ (regOK_update P _ _ _ hreg)
  obtain ⟨prev2, hrec⟩ := stage_body v es [] (listKeyword k) P1 cfg1
    [sectionString k, nm] rest none hreg1 hl1 hl2 hl3 hl4 hl5 hwfv hwfe
    (by rw [hact1]; rfl)
  refine ⟨prev2, ?_⟩
  unfold blockL
  rw [if_neg hbody, List.cons_append, List.cons_append]
  rw [parseLines_cons_empty]
  have hjoin : sectionString k ++ " " ++ nm ++ " " =
      joinTokens [sectionString k, nm] ++ " " := by
    rw [joinTokens_pair]
  rw [hjoin, parseLines_cons_proc P cfg prev
    (joinTokens [sectionString k, nm] ++ " ") _ [sectionString k, nm] ""
    (header_ne_empty _)
    (tok_header [sectionString k, nm] (by simp) (by
      intro t ht
      rcases List.mem_cons.mp ht with h | h
      · subst h
        exact wfTok_multi_keyword k hmulti
      · simp only [List.mem_singleton] at h
        subst h
        exact hnm))
    (by simp)]
  rw [processLine_multi_header P cfg _ prev k nm sd tail hact hmulti]
  dsimp only
  rw [hrec]
  rw [List.nil_append]

/-! ### C1: replaying all blocks of one multi-instance kind -/

abbrev SEntry := String × Option Int × List (List String)

def entrySet (k : Section) (e : SEntry) : ParserTypes :=
  ⟨[.sectionDecl none, .intDirective "maxconn" e.2.1,
    .listDirective (listKeyword k) e.2.2]⟩

def entryLines (k : Section) (e : SEntry) : List String :=
  blockL (sectionString k ++ " " ++ e.1) (bodyL (listKeyword k) e.2.1 e.2.2)

def regFold (k : Section) : NameMap → List SEntry → NameMap
  | acc, [] => acc
  | acc, e :: es =>
    regFold k
      (if e.2.1 = none ∧ e.2.2 = [] then acc
       else mapSet acc e.1 (entrySet k e)) es

theorem regFold_cons (k : Section) (acc : NameMap) (e : SEntry)
    (es : List SEntry) :
    regFold k acc (e :: es) =
      regFold k (if e.2.1 = none ∧ e.2.2 = [] then acc
        else mapSet acc e.1 (entrySet k e)) es := rfl

theorem regOK_eraseAll (P : Parser) (h : regOK P) : regOK (eraseAll P) := by
  intro k
  rcases h k with ⟨m, hm, hu⟩
  refine ⟨eraseMap m, by rw [eraseAll_Parsers, hm]; rfl, ?_⟩
  unfold uniqKeys
  rw [eraseMap_keys]
  exact hu

theorem eraseSet_ne_nil (S : ParserTypes) (h : ¬ S.parsers = []) :
    ¬ (eraseSet S).parsers = [] := by
  intro hc
  apply h
  have : (eraseSet S).parsers = S.parsers.map eraseDecl := rfl
  rw [this] at hc
  exact List.map_eq_nil_iff.mp hc

theorem eraseAll_update_active (P : Parser) (cfg : ConfiguredParsers)
    (S : ParserTypes) (hS : ¬ S.parsers = []) (hreg : regOK P)
    (hact : P.activeSet cfg = S) (v : ParserTypes)
    (hv : eraseSet v = eraseSet S) :
    eraseAll (P.updateSection cfg.ActiveKey.1 cfg.ActiveKey.2 v) =
      eraseAll P := by
  rw [eraseAll_updateSection, hv]
  exact updateSection_active_id (eraseAll P) cfg (eraseSet S)
    (regOK_eraseAll P hreg) (eraseSet_ne_nil S hS)
    (by rw [eraseAll_activeSet, hact])

theorem register_update_collapse (E : Parser) (k : Section) (nm : String)
    (v w : ParserTypes) :
    (E.registerSection k nm v).updateSection k nm w =
      E.registerSection k nm w := by
  apply parser_ext
  intro k2
  by_cases h : k2 = k
  · subst h
    rw [updateSection_Parsers_self _ _ _ _ _
      (registerSection_Parsers_self E k2 nm v)]
    rw [registerSection_Parsers_self, mapReplace_mapSet]
  · rw [updateSection_Parsers_ne _ _ _ _ _ h,
      registerSection_Parsers_ne _ _ _ _ _ h,
      registerSection_Parsers_ne _ _ _ _ _ h]

theorem eraseSet_entry (k : Section) (e : SEntry) :
    eraseSet (entrySet k e) = entrySet k e := rfl

theorem stage_kind : ∀ (entries : List SEntry) (k : Section) (P : Parser)
    (cfg : ConfiguredParsers) (prev rest : List String) (acc : NameMap),
    regOK P →
    (∃ sd tail, P.activeSet cfg = ⟨.sectionDecl sd :: tail⟩) →
    multiKeywords.contains (sectionString k) = true →
    multiKeywords.contains (listKeyword k) = false →
    ¬ listKeyword k = "defaults" → ¬ listKeyword k = "global" →
    ¬ listKeyword k = "maxconn" → wfTokB (listKeyword k) = true →
    (∀ e ∈ entries, wfTokB e.1 = true ∧ wfIntB e.2.1 = true ∧
      ∀ a ∈ e.2.2, wfEntryB a = true) →
    (eraseAll P).Parsers k = some acc →
    ∃ P2 cfg2 prev2,
      parseLines P cfg prev ((entries.map (entryLines k)).flatten ++ rest) =
        parseLines P2 cfg2 prev2 rest ∧
      regOK P2 ∧
      (∃ sd2 tail2, P2.activeSet cfg2 = ⟨.sectionDecl sd2 :: tail2⟩) ∧
      (∀ k2, ¬ k2 = k → (eraseAll P2).Parsers k2 = (eraseAll P).Parsers k2) ∧
      (eraseAll P2).Parsers k = some (regFold k acc entries)
  | [], k, P, cfg, prev, rest, acc, hreg, hhead, _, _, _, _, _, _, _, hacc =>
    ⟨P, cfg, prev, by rw [List.map_nil]; rfl, hreg, hhead,
      fun k2 _ => rfl, hacc⟩
  | e :: entries, k, P, cfg, prev, rest, acc, hreg, hhead, hmulti, hl1, hl2,
      hl3, hl4, hl5, hwf, hacc => by
    rw [List.map_cons, List.flatten_cons, List.append_assoc]
    by_cases hemp : e.2.1 = none ∧ e.2.2 = []
    · have hlines : entryLines k e = [] := by
        unfold entryLines
        rw [hemp.1, hemp.2]
        rfl
      rw [hlines, List.nil_append]
      obtain ⟨P2, cfg2, prev2, heq, hreg2, hhead2, hpres, hk⟩ :=
        stage_kind entries k P cfg prev rest acc hreg hhead hmulti hl1 hl2
          hl3 hl4 hl5 (fun x hx => hwf x (by simp [hx])) hacc
      refine ⟨P2, cfg2, prev2, heq, hreg2, hhead2, hpres, ?_⟩
      rw [hk, regFold_cons, if_pos hemp]
    · have hbody : ¬ bodyL (listKeyword k) e.2.1 e.2.2 = [] := by
        intro hc
        apply hemp
        unfold bodyL at hc
        rcases List.append_eq_nil.mp hc with ⟨hc1, hc2⟩
        constructor
        · cases hv : e.2.1 with
          | none => rfl
          | some n => rw [hv] at hc1; exact absurd hc1 (by simp)
        · exact List.map_eq_nil_iff.mp hc2
      obtain ⟨sd, tail, hact⟩ := hhead
      obtain ⟨prev1, heq1⟩ := stage_multi k e.1 e.2.1 e.2.2 P cfg prev
        ((entries.map (entryLines k)).flatten ++ rest) sd tail hreg hact
        hmulti (hwf e (by simp)).1 hl1 hl2 hl3 hl4 hl5
        (hwf e (by simp)).2.1 (hwf e (by simp)).2.2 hbody
      set P1 := P.updateSection cfg.ActiveKey.1 cfg.ActiveKey.2
        ⟨.sectionDecl (some (sectionString k, e.1)) :: tail⟩ with hP1def
      set P2 := (P1.registerSection k e.1 (rosterFor k)).updateSection k e.1
        ⟨[.sectionDecl none, .intDirective "maxconn" e.2.1,
          .listDirective (listKeyword k) e.2.2]⟩ with hP2def
      set cfg2 : ConfiguredParsers :=
        { cfg with State := sectionString k, ActiveKey := (k, e.1) }
        with hcfg2def
      have hereg1 : eraseAll P1 = eraseAll P :=
        eraseAll_update_active P cfg _ (by simp) hreg hact _ rfl
      have hP2collapse : P2 = P1.registerSection k e.1 (entrySet k e) := by
        rw [hP2def, register_update_collapse]
        rfl
      have hereg2 : eraseAll P2 =
          (eraseAll P).registerSection k e.1 (entrySet k e) := by
        rw [hP2collapse, eraseAll_registerSection, eraseSet_entry, hereg1]
      have hreg2 : regOK P2 := by
        rw [hP2collapse]
        exact regOK_register _ _ _ _ (regOK_update P _ _ _ hreg)
      have hact2 : P2.activeSet cfg2 =
          ⟨[.sectionDecl none, .intDirective "maxconn" e.2.1,
            .listDirective (listKeyword k) e.2.2]⟩ := by
        rw [hP2collapse]
        exact activeSet_eq _ _ _ _ (registerSection_Parsers_self _ _ _ _)
          (lookup_mapSet_self _ _ _)
      have hacc2 : (eraseAll P2).Parsers k =
          some (mapSet acc e.1 (entrySet k e)) := by
        rw [hereg2, registerSection_Parsers_self, hacc, Option.getD_some]
      obtain ⟨P3, cfg3, prev3, heq3, hreg3, hhead3, hpres3, hk3⟩ :=
        stage_kind entries k P2 cfg2 prev1 rest
          (mapSet acc e.1 (entrySet k e)) hreg2
          ⟨none, _, hact2⟩ hmulti hl1 hl2 hl3 hl4 hl5
          (fun x hx => hwf x (by simp [hx])) hacc2
      refine ⟨P3, cfg3, prev3, ?_, hreg3, hhead3, ?_, ?_⟩
      · have hentry : entryLines k e = blockL (sectionString k ++ " " ++ e.1)
            (bodyL (listKeyword k) e.2.1 e.2.2) := rfl
        rw [hentry, heq1, heq3]
      · intro k2 hk2
        rw [hpres3 k2 hk2, hereg2,
          registerSection_Parsers_ne _ _ _ _ _ hk2]
      · rw [hk3, regFold_cons, if_neg hemp]


theorem stage_kinds : ∀ (ks : List Section) (specs : Section → List SEntry)
    (P : Parser) (cfg : ConfiguredParsers) (prev rest : List String),
    regOK P →
    (∃ sd tail, P.activeSet cfg = ⟨.sectionDecl sd :: tail⟩) →
    ks.Nodup →
    (∀ k ∈ ks, multiKeywords.contains (sectionString k) = true ∧
      multiKeywords.contains (listKeyword k) = false ∧
      ¬ listKeyword k = "defaults" ∧ ¬ listKeyword k = "global" ∧
      ¬ listKeyword k = "maxconn" ∧ wfTokB (listKeyword k) = true) →
    (∀ k ∈ ks, ∀ e ∈ specs k, wfTokB e.1 = true ∧ wfIntB e.2.1 = true ∧
      ∀ a ∈ e.2.2, wfEntryB a = true) →
    (∀ k ∈ ks, (eraseAll P).Parsers k = some []) →
    ∃ P2 cfg2 prev2,
      parseLines P cfg prev
        ((ks.map fun k => ((specs k).map (entryLines k)).flatten).flatten
          ++ rest) = parseLines P2 cfg2 prev2 rest ∧
      regOK P2 ∧
      (∃ sd2 tail2, P2.activeSet cfg2 = ⟨.sectionDecl sd2 :: tail2⟩) ∧
      (∀ k2, ¬ k2 ∈ ks →
        (eraseAll P2).Parsers k2 = (eraseAll P).Parsers k2) ∧
      (∀ k ∈ ks, (eraseAll P2).Parsers k = some (regFold k [] (specs k)))
  | [], specs, P, cfg, prev, rest, hreg, hhead, _, _, _, _ =>
    ⟨P, cfg, prev, by rw [List.map_nil]; rfl, hreg, hhead,
      fun k2 _ => rfl, fun k hk => absurd hk (by simp)⟩
  | k :: ks, specs, P, cfg, prev, rest, hreg, hhead, hnd, hkw, hwf, hinit =>
    by
    rw [List.map_cons, List.flatten_cons, List.append_assoc]
    rw [List.nodup_cons] at hnd
    obtain ⟨hk1, hk2, hk3, hk4, hk5, hk6⟩ := hkw k (by simp)
    obtain ⟨P2, cfg2, prev2, heq, hreg2, hhead2, hpres, hkval⟩ :=
      stage_kind (specs k) k P cfg prev
        ((ks.map fun k2 => ((specs k2).map (entryLines k2)).flatten).flatten
          ++ rest) [] hreg hhead hk1 hk2 hk3 hk4 hk5 hk6
        (hwf k (by simp)) (hinit k (by simp))
    obtain ⟨P3, cfg3, prev3, heq3, hreg3, hhead3, hpres3, hkval3⟩ :=
      stage_kinds ks specs P2 cfg2 prev2 rest hreg2 hhead2 hnd.2
        (fun k2 h => hkw k2 (by simp [h]))
        (fun k2 h => hwf k2 (by simp [h]))
        (fun k2 h => by
          rw [hpres k2 (fun hc => hnd.1 (hc ▸ h))]
          exact hinit k2 (by simp [h]))
    refine ⟨P3, cfg3, prev3, ?_, hreg3, hhead3, ?_, ?_⟩
    · rw [heq, heq3]
    · intro k2 hk2m
      simp only [List.mem_cons, not_or] at hk2m
      rw [hpres3 k2 (by simpa using hk2m.2), hpres k2 (by simpa using hk2m.1)]
    · intro k2 hk2m
      rcases List.mem_cons.mp hk2m with h | h
      · subst h
        rw [hpres3 k2 hnd.1, hkval]
      · exact hkval3 k2 h

/-! ### C1: replaying the defaults and global singleton blocks -/

theorem bodyL_nil_inv (kw : String) (v : Option Int)
    (es : List (List String)) (h : bodyL kw v es = []) :
    v = none ∧ es = [] := by
  unfold bodyL at h
  rcases List.append_eq_nil.mp h with ⟨h1, h2⟩
  constructor
  · cases hv : v with
    | none => rfl
    | some n => rw [hv] at h1; exact absurd h1 (by simp)
  · exact List.map_eq_nil_iff.mp h2

theorem stage_single_block (v : Option Int) (es : List (List String))
    (P : Parser) (cfg : ConfiguredParsers) (prev rest : List String)
    (sd : Option (String × String)) (tail : List ParserType)
    (kw lkw : String) (tgtK : Section) (sdT : Option (String × String))
    (hreg : regOK P)
    (hact : P.activeSet cfg = ⟨.sectionDecl sd :: tail⟩)
    (hkw : (kw = "defaults" ∧ tgtK = .Defaults) ∨
           (kw = "global" ∧ tgtK = .Global))
    (hne : ¬ cfg.ActiveKey.1 = tgtK)
    (hmT : P.Parsers tgtK = some [("data", ⟨[.sectionDecl sdT,
      .intDirective "maxconn" none, .listDirective lkw []]⟩)])
    (hl1 : multiKeywords.contains lkw = false) (hl2 : ¬ lkw = "defaults")
    (hl3 : ¬ lkw = "global") (hl4 : ¬ lkw = "maxconn")
    (hl5 : wfTokB lkw = true)
    (hwv : wfIntB v = true) (hwe : ∀ a ∈ es, wfEntryB a = true) :
    ∃ P2 cfg2 prev2,
      parseLines P cfg prev (blockL kw (bodyL lkw v es) ++ rest) =
        parseLines P2 cfg2 prev2 rest ∧
      regOK P2 ∧
      (∃ sd2 tail2, P2.activeSet cfg2 = ⟨.sectionDecl sd2 :: tail2⟩) ∧
      (∀ k2, ¬ k2 = tgtK →
        (eraseAll P2).Parsers k2 = (eraseAll P).Parsers k2) ∧
      (∀ k2, ¬ k2 = tgtK → ¬ k2 = cfg.ActiveKey.1 →
        P2.Parsers k2 = P.Parsers k2) ∧
      (eraseAll P2).Parsers tgtK = some [("data",
        ⟨[.sectionDecl none, .intDirective "maxconn" v,
          .listDirective lkw es]⟩)] ∧
      (cfg2.ActiveKey = cfg.ActiveKey ∨ cfg2.ActiveKey = (tgtK, "data")) := by
  by_cases hbody : bodyL lkw v es = []
  · obtain ⟨hv, hes⟩ := bodyL_nil_inv lkw v es hbody
    subst hv
    subst hes
    refine ⟨P, cfg, prev, ?_, hreg, ⟨sd, tail, hact⟩, fun k2 _ => rfl,
      fun k2 _ _ => rfl, ?_, Or.inl rfl⟩
    · unfold blockL
      rw [if_pos hbody, List.nil_append]
    · rw [eraseAll_Parsers, hmT]
      rfl
  · obtain ⟨prev2, heq⟩ := stage_single v es P cfg prev rest sd tail kw lkw
      tgtK sdT _ hreg hact hkw hne hmT (by simp [List.lookup]) hl1 hl2 hl3
      hl4 hl5 hwv hwe hbody
    set P1 := P.updateSection cfg.ActiveKey.1 cfg.ActiveKey.2
      ⟨.sectionDecl (some (kw, "")) :: tail⟩ with hP1
    set v2 : ParserTypes := ⟨[.sectionDecl sdT, .intDirective "maxconn" v,
      .listDirective lkw es]⟩ with hv2
    set P2 := P1.updateSection tgtK "data" v2 with hP2
    set cfg2 : ConfiguredParsers :=
      { cfg with State := kw, ActiveKey := (tgtK, "data") } with hcfg2
    have hP1T : P1.Parsers tgtK = some [("data", ⟨[.sectionDecl sdT,
        .intDirective "maxconn" none, .listDirective lkw []]⟩)] := by
      rw [hP1, updateSection_Parsers_ne P _ _ _ _ (fun hc => hne hc.symm),
        hmT]
    have hereg1 : eraseAll P1 = eraseAll P :=
      eraseAll_update_active P cfg _ (by simp) hreg hact _ rfl
    have hrege2 : eraseAll P2 = (eraseAll P).updateSection tgtK "data"
        (eraseSet v2) := by
      rw [hP2, eraseAll_updateSection, hereg1]
    have heT : (eraseAll P).Parsers tgtK = some [("data",
        eraseSet ⟨[.sectionDecl sdT, .intDirective "maxconn" none,
          .listDirective lkw []]⟩)] := by
      rw [eraseAll_Parsers, hmT]
      rfl
    refine ⟨P2, cfg2, prev2, heq, ?_, ?_, ?_, ?_, ?_, Or.inr rfl⟩
    · rw [hP2, hP1]
      exact regOK_update _ _ _ _ (regOK_update P _ _ _ hreg)
    · refine ⟨sdT, [.intDirective "maxconn" v, .listDirective lkw es], ?_⟩
      show P2.activeSet cfg2 = v2
      apply activeSet_eq P2 cfg2
        (mapReplace [("data", ⟨[.sectionDecl sdT,
          .intDirective "maxconn" none, .listDirective lkw []]⟩)] "data" v2)
        v2
      · rw [hP2]
        exact updateSection_Parsers_self P1 tgtK "data" v2 _ hP1T
      · unfold mapReplace
        simp [List.lookup]
    · intro k2 hk2
      rw [hrege2, updateSection_Parsers_ne _ _ _ _ _ hk2]
    · intro k2 hk2 hk0
      rw [hP2, updateSection_Parsers_ne _ _ _ _ _ hk2, hP1,
        updateSection_Parsers_ne _ _ _ _ _ hk0]
    · rw [hrege2, updateSection_Parsers_self _ _ _ _ _ heT]
      apply congrArg some
      unfold mapReplace
      rw [List.map_cons, List.map_nil]
      rfl

theorem stage_singles (vD : Option Int) (esD : List (List String))
    (vG : Option Int) (esG : List (List String))
    (P : Parser) (cfg : ConfiguredParsers) (prev rest : List String)
    (sd : Option (String × String)) (tail : List ParserType)
    (sdD sdG : Option (String × String))
    (hreg : regOK P)
    (hact : P.activeSet cfg = ⟨.sectionDecl sd :: tail⟩)
    (hkey : cfg.ActiveKey = (.Comments, "data"))
    (hD : P.Parsers .Defaults = some [("data", ⟨[.sectionDecl sdD,
      .intDirective "maxconn" none, .listDirective "timeout" []]⟩)])
    (hG : P.Parsers .Global = some [("data", ⟨[.sectionDecl sdG,
      .intDirective "maxconn" none, .listDirective "log" []]⟩)])
    (hwvD : wfIntB vD = true) (hweD : ∀ a ∈ esD, wfEntryB a = true)
    (hwvG : wfIntB vG = true) (hweG : ∀ a ∈ esG, wfEntryB a = true) :
    ∃ P2 cfg2 prev2,
      parseLines P cfg prev (blockL "defaults" (bodyL "timeout" vD esD) ++
        (blockL "global" (bodyL "log" vG esG) ++ rest)) =
        parseLines P2 cfg2 prev2 rest ∧
      regOK P2 ∧
      (∃ sd2 tail2, P2.activeSet cfg2 = ⟨.sectionDecl sd2 :: tail2⟩) ∧
      (∀ k2, ¬ k2 = .Defaults → ¬ k2 = .Global →
        (eraseAll P2).Parsers k2 = (eraseAll P).Parsers k2) ∧
      (eraseAll P2).Parsers .Defaults = some [("data",
        ⟨[.sectionDecl none, .intDirective "maxconn" vD,
          .listDirective "timeout" esD]⟩)] ∧
      (eraseAll P2).Parsers .Global = some [("data",
        ⟨[.sectionDecl none, .intDirective "maxconn" vG,
          .listDirective "log" esG]⟩)] := by
  obtain ⟨P1, cfg1, prev1, heq1, hreg1, ⟨sd1, tail1, hact1⟩, hpres1,
      hrpres1, hval1, hkey1⟩ :=
    stage_single_block vD esD P cfg prev
      (blockL "global" (bodyL "log" vG esG) ++ rest) sd tail "defaults"
      "timeout" .Defaults sdD hreg hact (Or.inl ⟨rfl, rfl⟩)
      (by rw [hkey]; decide) hD (by decide) (by decide) (by decide)
      (by decide) (by decide) hwvD hweD
  have hG1 : P1.Parsers .Global = some [("data", ⟨[.sectionDecl sdG,
      .intDirective "maxconn" none, .listDirective "log" []]⟩)] := by
    rw [hrpres1 .Global (by decide) (by rw [hkey]; decide)]
    exact hG
  have hne1 : ¬ cfg1.ActiveKey.1 = Section.Global := by
    rcases hkey1 with h | h
    · rw [h, hkey]
      decide
    · rw [h]
      decide
  obtain ⟨P2, cfg2, prev2, heq2, hreg2, hhead2, hpres2, hrpres2, hval2,
      hkey2⟩ :=
    stage_single_block vG esG P1 cfg1 prev1 rest sd1 tail1 "global"
      "log" .Global sdG hreg1 hact1 (Or.inr ⟨rfl, rfl⟩) hne1 hG1
      (by decide) (by decide) (by decide) (by decide) (by decide) hwvG hweG
  refine ⟨P2, cfg2, prev2, ?_, hreg2, hhead2, ?_, ?_, hval2⟩
  · rw [heq1, heq2]
  · intro k2 hk2D hk2G
    rw [hpres2 k2 hk2G, hpres1 k2 hk2D]
  · rw [hpres2 .Defaults (by decide), hval1]

/-! ### C1: the canonical rendered lines of a well-formed registry -/

theorem wfCommentsB_shape (pt : ParserTypes) (h : wfCommentsB pt = true) :
    ∃ sd cs, pt = ⟨[.sectionDecl sd, .commentLine cs]⟩ ∧
      ∀ c ∈ cs, wfCommentB c = true := by
  rcases pt with ⟨ps⟩
  unfold wfCommentsB at h
  dsimp only at h
  split at h
  · rename_i sd cs
    exact ⟨sd, cs, rfl, List.all_eq_true.mp h⟩
  · simp at h

theorem wfSetB_shape (k : Section) (pt : ParserTypes)
    (h : wfSetB k pt = true) :
    ∃ sd v es, pt = ⟨[.sectionDecl sd, .intDirective "maxconn" v,
      .listDirective (listKeyword k) es]⟩ ∧ wfIntB v = true ∧
      ∀ a ∈ es, wfEntryB a = true := by
  rcases pt with ⟨ps⟩
  unfold wfSetB at h
  dsimp only at h
  split at h
  · rename_i sd kw v kw2 es
    simp only [Bool.and_eq_true, decide_eq_true_eq] at h
    obtain ⟨⟨⟨hkw, hkw2⟩, hv⟩, hes⟩ := h
    subst hkw
    subst hkw2
    exact ⟨sd, v, es, rfl, hv, List.all_eq_true.mp hes⟩
  · simp at h

theorem sectionSet_singleton (p : Parser) (k : Section) (pt : ParserTypes)
    (h : p.Parsers k = some [("data", pt)]) :
    p.sectionSet k "data" = pt := by
  unfold Parser.sectionSet
  rw [h, Option.getD_some]
  simp [List.lookup]

theorem mem_keys_lookup : ∀ (m : NameMap) (nm : String),
    nm ∈ m.map Prod.fst → ∃ S, m.lookup nm = some S ∧ (nm, S) ∈ m
  | [], nm, h => absurd h (by simp)
  | e :: rest, nm, h => by
    by_cases h2 : nm = e.1
    · refine ⟨e.2, by rw [lookup_cons, if_pos h2], ?_⟩
      rw [List.mem_cons]
      left
      rw [h2]
    · rw [List.map_cons, List.mem_cons] at h
      rcases h with h | h
      · exact absurd h h2
      · obtain ⟨S, hl, hm⟩ := mem_keys_lookup rest nm h
        exact ⟨S, by rw [lookup_cons, if_neg h2]; exact hl,
          List.mem_cons.mpr (Or.inr hm)⟩

theorem lookup_of_mem_uniq : ∀ (m : NameMap) (nm : String) (S : ParserTypes),
    uniqKeys m → (nm, S) ∈ m → m.lookup nm = some S
  | [], nm, S, _, hm => absurd hm (by simp)
  | e :: rest, nm, S, hu, hm => by
    unfold uniqKeys at hu
    rw [List.map_cons, List.nodup_cons] at hu
    rcases List.mem_cons.mp hm with h | h
    · rw [lookup_cons, if_pos (congrArg Prod.fst h ▸ rfl)]
      rw [← h]
    · have hne : ¬ nm = e.1 := by
        intro hc
        apply hu.1
        rw [← hc]
        exact List.mem_map.mpr ⟨(nm, S), h, rfl⟩
      rw [lookup_cons, if_neg hne]
      exact lookup_of_mem_uniq rest nm S hu.2 h

def entryOfSet (nm : String) (S : ParserTypes) : SEntry :=
  match S.parsers with
  | [_, .intDirective _ v, .listDirective _ es] => (nm, v, es)
  | _ => (nm, none, [])

def entriesOf (m : NameMap) : List SEntry :=
  (getSortedList m).map fun nm => entryOfSet nm ((m.lookup nm).getD ⟨[]⟩)

theorem header_join_ne (a b : String) : ¬ a ++ " " ++ b = "" := by
  intro h
  have := congrArg String.toList h
  rw [toList_append, toList_append] at this
  simp only [String.toList_empty, List.append_eq_nil] at this
  exact absurd this.1.2 (by decide)

theorem kindLines_eq_entries (p : Parser) (k : Section) (m : NameMap)
    (hm : p.Parsers k = some m)
    (hwf : ∀ e ∈ m, wfSetB k e.2 = true) :
    kindLines p k = ((entriesOf m).map (entryLines k)).flatten := by
  unfold kindLines entriesOf
  rw [hm, Option.getD_some, List.map_map]
  apply congrArg List.flatten
  apply List.map_congr_left
  intro nm hnm
  have hmem : nm ∈ m.map Prod.fst := by
    haveI : IsTotal String (fun a b => strLe a b = true) := ⟨strLe_total⟩
    haveI : IsTrans String (fun a b => strLe a b = true) := ⟨strLe_trans⟩
    exact (List.perm_insertionSort _ _).mem_iff.mp hnm
  obtain ⟨S, hl, hSm⟩ := mem_keys_lookup m nm hmem
  obtain ⟨sd, v, es, hshape, hv, hes⟩ := wfSetB_shape k S (hwf (nm, S) hSm)
  have hset : p.sectionSet k nm = S := by
    unfold Parser.sectionSet
    rw [hm, Option.getD_some, hl, Option.getD_some]
  rw [Function.comp_apply, hset, hl, Option.getD_some, hshape]
  rw [blockLines_eq_blockL _ _ _ (header_join_ne _ _), bodyLines_roster]
  rfl

theorem specRenderLines_wf (p : Parser) (cs : List String)
    (sdC sdD sdG : Option (String × String)) (vD : Option Int)
    (esD : List (List String)) (vG : Option Int)
    (esG : List (List String)) (ms : Section → NameMap)
    (hC : p.Parsers .Comments = some [("data",
      ⟨[.sectionDecl sdC, .commentLine cs]⟩)])
    (hD : p.Parsers .Defaults = some [("data",
      ⟨[.sectionDecl sdD, .intDirective "maxconn" vD,
        .listDirective "timeout" esD]⟩)])
    (hG : p.Parsers .Global = some [("data",
      ⟨[.sectionDecl sdG, .intDirective "maxconn" vG,
        .listDirective "log" esG]⟩)])
    (hM : ∀ k ∈ sectionsOrder, p.Parsers k = some (ms k) ∧
      ∀ e ∈ ms k, wfSetB k e.2 = true) :
    specRenderLines p = cs.map cmtLine ++
      (blockL "defaults" (bodyL "timeout" vD esD) ++
        (blockL "global" (bodyL "log" vG esG) ++
          (sectionsOrder.map fun k =>
            ((entriesOf (ms k)).map (entryLines k)).flatten).flatten)) := by
  unfold specRenderLines
  rw [sectionSet_singleton p _ _ hC, sectionSet_singleton p _ _ hD,
    sectionSet_singleton p _ _ hG]
  rw [blockLines_comments, bodyLines_start]
  rw [blockLines_eq_blockL _ _ _ (by decide), bodyLines_roster]
  rw [blockLines_eq_blockL _ _ _ (by decide), bodyLines_roster]
  rw [List.append_assoc, List.append_assoc]
  apply congrArg
  apply congrArg
  apply congrArg
  apply congrArg List.flatten
  apply List.map_congr_left
  intro k hk
  exact kindLines_eq_entries p k (ms k) (hM k hk).1 (hM k hk).2

/-! ### C1: reading back the registrations of one kind -/

def entFull (e : SEntry) : Bool := !(decide (e.2.1 = none ∧ e.2.2 = []))

theorem mapSet_fresh (m : NameMap) (nm : String) (v : ParserTypes)
    (h : ¬ nm ∈ m.map Prod.fst) : mapSet m nm v = m ++ [(nm, v)] := by
  unfold mapSet
  rw [if_neg]
  intro ha
  rcases List.any_eq_true.mp ha with ⟨e, he, hp⟩
  simp only [decide_eq_true_eq] at hp
  exact h (List.mem_map.mpr ⟨e, he, hp⟩)

theorem regFold_eq (k : Section) : ∀ (entries : List SEntry) (acc : NameMap),
    (∀ e ∈ entries, ¬ e.1 ∈ acc.map Prod.fst) →
    (entries.map fun e => e.1).Nodup →
    regFold k acc entries =
      acc ++ (entries.filter entFull).map fun e => (e.1, entrySet k e)
  | [], acc, _, _ => by
    rw [List.filter_nil, List.map_nil, List.append_nil]
    rfl
  | e :: es, acc, hfr, hnd => by
    rw [regFold_cons, List.filter_cons]
    rw [List.map_cons, List.nodup_cons] at hnd
    by_cases hemp : e.2.1 = none ∧ e.2.2 = []
    · rw [if_pos hemp]
      have hef : entFull e = false := by simp [entFull, hemp]
      rw [hef]
      simp only [Bool.false_eq_true, if_false]
      exact regFold_eq k es acc (fun x hx => hfr x (by simp [hx])) hnd.2
    · rw [if_neg hemp]
      have hef : entFull e = true := by simp [entFull, hemp]
      rw [hef]
      simp only [if_true]
      rw [regFold_eq k es (mapSet acc e.1 (entrySet k e)) ?_ hnd.2]
      · rw [mapSet_fresh acc e.1 _ (hfr e (by simp))]
        rw [List.map_cons, List.append_assoc]
        rfl
      · intro x hx
        rw [mapSet_fresh acc e.1 _ (hfr e (by simp)), List.map_append]
        simp only [List.map_cons, List.map_nil, List.mem_append,
          List.mem_singleton]
        push_neg
        refine ⟨hfr x (by simp [hx]), ?_⟩
        intro hc
        apply hnd.1
        rw [← hc]
        exact List.mem_map.mpr ⟨x, hx, rfl⟩

theorem entryOfSet_fst (nm : String) (S : ParserTypes) :
    (entryOfSet nm S).1 = nm := by
  unfold entryOfSet
  split <;> rfl

theorem entryOfSet_entrySet (k : Section) (e : SEntry) :
    entryOfSet e.1 (entrySet k e) = e := rfl

theorem entriesOf_eq_self (m : NameMap)
    (hs : List.Sorted (fun a b => strLe a b = true) (m.map Prod.fst))
    (hu : uniqKeys m) :
    entriesOf m = m.map fun e => entryOfSet e.1 e.2 := by
  unfold entriesOf getSortedList
  rw [List.Sorted.insertionSort_eq hs]
  rw [List.map_map]
  apply List.map_congr_left
  intro e he
  rw [Function.comp_apply, lookup_of_mem_uniq m e.1 e.2 hu he,
    Option.getD_some]

theorem entryLines_empty (k : Section) (e : SEntry)
    (h : entFull e = false) : entryLines k e = [] := by
  simp only [entFull, Bool.not_eq_false', decide_eq_true_eq] at h
  unfold entryLines
  rw [h.1, h.2]
  rfl

theorem flatten_filter_map {α : Type} (q : α → Bool) (f : α → List String) :
    ∀ l : List α, (∀ x ∈ l, q x = false → f x = []) →
    ((l.filter q).map f).flatten = (l.map f).flatten
  | [], _ => rfl
  | x :: l, h => by
    rw [List.filter_cons, List.map_cons, List.flatten_cons]
    cases hq : q x with
    | true =>
      rw [if_pos rfl, List.map_cons, List.flatten_cons,
        flatten_filter_map q f l (fun y hy => h y (by simp [hy]))]
    | false =>
      simp only [Bool.false_eq_true, if_false]
      rw [h x (by simp) hq, List.nil_append,
        flatten_filter_map q f l (fun y hy => h y (by simp [hy]))]

theorem wfSetB_entrySet (k : Section) (e : SEntry)
    (hv : wfIntB e.2.1 = true) (hes : ∀ a ∈ e.2.2, wfEntryB a = true) :
    wfSetB k (entrySet k e) = true := by
  unfold wfSetB entrySet
  dsimp only
  simp [hv, List.all_eq_true.mpr hes]

theorem kind_readback (k : Section) (entries : List SEntry)
    (hs : List.Sorted (fun a b => strLe a b = true)
      (entries.map fun e => e.1))
    (hnd : (entries.map fun e => e.1).Nodup) :
    ((entriesOf (regFold k [] entries)).map (entryLines k)).flatten =
      (entries.map (entryLines k)).flatten := by
  rw [regFold_eq k entries [] (by simp) hnd, List.nil_append]
  have hkeys : ((entries.filter entFull).map fun e =>
      (e.1, entrySet k e)).map Prod.fst =
      (entries.filter entFull).map fun e => e.1 := by
    rw [List.map_map]
    rfl
  have hsub : List.Sublist ((entries.filter entFull).map fun e => e.1)
      (entries.map fun e => e.1) :=
    (List.filter_sublist entries).map _
  have hs2 : List.Sorted (fun a b => strLe a b = true)
      (((entries.filter entFull).map fun e =>
        (e.1, entrySet k e)).map Prod.fst) := by
    rw [hkeys]
    exact List.Pairwise.sublist hsub hs
  have hu2 : uniqKeys ((entries.filter entFull).map fun e =>
      (e.1, entrySet k e)) := by
    unfold uniqKeys
    rw [hkeys]
    exact List.Nodup.sublist hsub hnd
  rw [entriesOf_eq_self _ hs2 hu2, List.map_map, List.map_map]
  have hcomp : ((entryLines k ∘ fun e => entryOfSet e.1 e.2) ∘ fun e =>
      (e.1, entrySet k e)) = entryLines k := by
    funext e
    simp only [Function.comp_apply]
    rw [show entryOfSet (e.1, entrySet k e).1 (e.1, entrySet k e).2 =
      entryOfSet e.1 (entrySet k e) from rfl, entryOfSet_entrySet]
  rw [hcomp]
  exact flatten_filter_map entFull (entryLines k) entries
    (fun x _ hq => entryLines_empty k x hq)

theorem entriesOf_names (m : NameMap) :
    (entriesOf m).map (fun e => e.1) = getSortedList m := by
  unfold entriesOf
  rw [List.map_map]
  have : ((fun e : SEntry => e.1) ∘ fun nm =>
      entryOfSet nm ((m.lookup nm).getD ⟨[]⟩)) = id := by
    funext nm
    simp only [Function.comp_apply, id]
    exact entryOfSet_fst _ _
  rw [this, List.map_id]

theorem entriesOf_wf (k : Section) (m : NameMap)
    (hwfm : ∀ e ∈ m, wfTokB e.1 = true ∧ wfSetB k e.2 = true) :
    ∀ e ∈ entriesOf m, wfTokB e.1 = true ∧ wfIntB e.2.1 = true ∧
      ∀ a ∈ e.2.2, wfEntryB a = true := by
  intro e he
  unfold entriesOf at he
  rcases List.mem_map.mp he with ⟨nm, hnm, rfl⟩
  have hmem : nm ∈ m.map Prod.fst := by
    haveI : IsTotal String (fun a b => strLe a b = true) := ⟨strLe_total⟩
    haveI : IsTrans String (fun a b => strLe a b = true) := ⟨strLe_trans⟩
    exact (List.perm_insertionSort _ _).mem_iff.mp hnm
  obtain ⟨S, hl, hSm⟩ := mem_keys_lookup m nm hmem
  obtain ⟨sd, v, es, hshape, hv, hes⟩ := wfSetB_shape k S (hwfm (nm, S) hSm).2
  rw [hl, Option.getD_some, hshape]
  exact ⟨(hwfm (nm, S) hSm).1, hv, hes⟩

/-! ### C1: rendered lines contain no newline -/

def nlFree (s : String) : Bool := s.toList.all fun c => !(c = '\n')

theorem nlFree_append (a b : String) (ha : nlFree a = true)
    (hb : nlFree b = true) : nlFree (a ++ b) = true := by
  unfold nlFree at *
  rw [toList_append, List.all_append, ha, hb]
  rfl

theorem nlFree_wfTok (t : String) (h : wfTokB t = true) : nlFree t = true := by
  unfold wfTokB at h
  unfold nlFree
  simp only [Bool.and_eq_true, List.all_eq_true] at h ⊢
  intro c hc
  exact (h.2 c hc).2

theorem nlFree_wfComment (c : String) (h : wfCommentB c = true) :
    nlFree c = true := by
  unfold wfCommentB at h
  unfold nlFree
  simp only [Bool.and_eq_true] at h
  exact h.2

theorem nlFree_joinTokens : ∀ ts : List String,
    (∀ t ∈ ts, nlFree t = true) → nlFree (joinTokens ts) = true
  | [], _ => by decide
  | [t], h => h t (by simp)
  | t :: t2 :: ts, h => by
    rw [joinTokens_cons_cons]
    exact nlFree_append _ _
      (nlFree_append _ _ (h t (by simp)) (by decide))
      (nlFree_joinTokens (t2 :: ts) (fun x hx => h x (by simp [hx])))

theorem nlFree_indentLine (ts : List String)
    (h : ∀ t ∈ ts, nlFree t = true) : nlFree (indentLine ts) = true :=
  nlFree_append _ _ (by decide) (nlFree_joinTokens ts h)

theorem nlFree_cmtLine (c : String) (h : wfCommentB c = true) :
    nlFree (cmtLine c) = true :=
  nlFree_append _ _ (by decide) (nlFree_wfComment c h)

theorem nlFree_intToString (n : Int) : nlFree (intToString n) = true :=
  nlFree_wfTok _ (wfTok_intToString n)

theorem nlFree_bodyL (kw : String) (v : Option Int)
    (es : List (List String)) (hkw : wfTokB kw = true)
    (hes : ∀ a ∈ es, wfEntryB a = true) :
    ∀ l ∈ bodyL kw v es, nlFree l = true := by
  intro l hl
  unfold bodyL at hl
  rcases List.mem_append.mp hl with h | h
  · cases v with
    | none => simp at h
    | some n =>
      simp only [List.mem_singleton] at h
      subst h
      apply nlFree_indentLine
      intro t ht
      rcases List.mem_cons.mp ht with h | h
      · subst h
        decide
      · simp only [List.mem_singleton] at h
        subst h
        exact nlFree_intToString n
  · rcases List.mem_map.mp h with ⟨a, ha, rfl⟩
    apply nlFree_indentLine
    intro t ht
    rcases List.mem_cons.mp ht with h | h
    · rw [h]
      exact nlFree_wfTok kw hkw
    · have := hes a ha
      unfold wfEntryB at this
      exact nlFree_wfTok t (List.all_eq_true.mp this t h)

theorem nlFree_blockL (hdr : String) (body : List String)
    (hhdr : nlFree hdr = true) (hbody : ∀ l ∈ body, nlFree l = true) :
    ∀ l ∈ blockL hdr body, nlFree l = true := by
  intro l hl
  unfold blockL at hl
  by_cases h : body = []
  · rw [if_pos h] at hl
    simp at hl
  · rw [if_neg h] at hl
    rcases List.mem_cons.mp hl with h2 | h2
    · subst h2
      decide
    · rcases List.mem_cons.mp h2 with h3 | h3
      · subst h3
        exact nlFree_append _ _ hhdr (by decide)
      · exact hbody l h3

theorem nlFree_entryLines (k : Section) (e : SEntry)
    (hmulti : multiKeywords.contains (sectionString k) = true)
    (hlk : wfTokB (listKeyword k) = true)
    (hnm : wfTokB e.1 = true)
    (hes : ∀ a ∈ e.2.2, wfEntryB a = true) :
    ∀ l ∈ entryLines k e, nlFree l = true := by
  unfold entryLines
  apply nlFree_blockL
  · exact nlFree_append _ _
      (nlFree_append _ _ (nlFree_wfTok _ (wfTok_multi_keyword k hmulti))
        (by decide))
      (nlFree_wfTok _ hnm)
  · exact nlFree_bodyL _ _ _ hlk hes

theorem nlFree_all (l : String) (h : nlFree l = true) :
    l.toList.all (fun c => !(c = '\n')) = true := h

/-! ### C1: the round-trip theorem -/

theorem parseLines_nil (P : Parser) (cfg : ConfiguredParsers)
    (prev : List String) : parseLines P cfg prev [] = P := rfl

/-- C1 (amended): serialization is idempotent across one parse/render
cycle for every well-formed registry state: re-loading the rendered
text with `ParseData` and rendering again reproduces the text exactly.
Well-formedness (`WFState`) requires the payloads to survive
re-tokenization: names and stored tokens non-empty and free of
whitespace, `#` and newlines, comments non-empty and not starting with
whitespace, integers within the signed 64-bit range. -/
theorem c1_round_trip (p : Parser) (h : WFState p) :
    (ParseData p.render).render = p.render := by
  obtain ⟨⟨ptC, hC, hwfC⟩, ⟨ptD, hD, hwfD⟩, ⟨ptG, hG, hwfG⟩, hM⟩ := h
  obtain ⟨sdC, cs, rfl, hcs⟩ := wfCommentsB_shape ptC hwfC
  obtain ⟨sdD, vD, esD, rfl, hvD, hesD⟩ := wfSetB_shape _ ptD hwfD
  obtain ⟨sdG, vG, esG, rfl, hvG, hesG⟩ := wfSetB_shape _ ptG hwfG
  set ms : Section → NameMap := fun k => (p.Parsers k).getD [] with hms
  have hM' : ∀ k ∈ sectionsOrder, p.Parsers k = some (ms k) ∧
      ((ms k).map Prod.fst).Nodup ∧
      ∀ e ∈ ms k, wfTokB e.1 = true ∧ wfSetB k e.2 = true := by
    intro k hk
    obtain ⟨m, hmk, hnd, hwf⟩ := hM k hk
    have hmm : ms k = m := by
      rw [hms]
      dsimp only
      rw [hmk]
      rfl
    rw [hmm]
    exact ⟨hmk, hnd, hwf⟩
  have hkinds : ∀ k ∈ sectionsOrder,
      multiKeywords.contains (sectionString k) = true ∧
      multiKeywords.contains (listKeyword k) = false ∧
      ¬ listKeyword k = "defaults" ∧ ¬ listKeyword k = "global" ∧
      ¬ listKeyword k = "maxconn" ∧ wfTokB (listKeyword k) = true := by
    decide
  have hwfspec : ∀ k ∈ sectionsOrder, ∀ e ∈ entriesOf (ms k),
      wfTokB e.1 = true ∧ wfIntB e.2.1 = true ∧
      ∀ a ∈ e.2.2, wfEntryB a = true :=
    fun k hk => entriesOf_wf k (ms k) (hM' k hk).2.2
  have hrender : p.render = joinNl (cs.map cmtLine ++
      (blockL "defaults" (bodyL "timeout" vD esD) ++
        (blockL "global" (bodyL "log" vG esG) ++
          (sectionsOrder.map fun k =>
            ((entriesOf (ms k)).map (entryLines k)).flatten).flatten))) := by
    rw [render_eq_spec, specRenderLines_wf p cs sdC sdD sdG vD esD vG esG ms
      hC hD hG
      (fun k hk => ⟨(hM' k hk).1, fun e he => ((hM' k hk).2.2 e he).2⟩)]
  have hnl : ∀ l ∈ cs.map cmtLine ++
      (blockL "defaults" (bodyL "timeout" vD esD) ++
        (blockL "global" (bodyL "log" vG esG) ++
          (sectionsOrder.map fun k =>
            ((entriesOf (ms k)).map (entryLines k)).flatten).flatten)),
      l.toList.all (fun c => !(c = '\n')) = true := by
    intro l hl
    apply nlFree_all
    rcases List.mem_append.mp hl with h1 | h1
    · rcases List.mem_map.mp h1 with ⟨c, hc, rfl⟩
      exact nlFree_cmtLine c (hcs c hc)
    · rcases List.mem_append.mp h1 with h2 | h2
      · exact nlFree_blockL _ _ (by decide)
          (nlFree_bodyL _ _ _ (by decide) hesD) l h2
      · rcases List.mem_append.mp h2 with h3 | h3
        · exact nlFree_blockL _ _ (by decide)
            (nlFree_bodyL _ _ _ (by decide) hesG) l h3
        · rcases List.mem_flatten.mp h3 with ⟨ls, hls, hlin⟩
          rcases List.mem_map.mp hls with ⟨k, hk, rfl⟩
          rcases List.mem_flatten.mp hlin with ⟨ls2, hls2, hlin2⟩
          rcases List.mem_map.mp hls2 with ⟨e, he, rfl⟩
          exact nlFree_entryLines k e (hkinds k hk).1
            (hkinds k hk).2.2.2.2.2 (hwfspec k hk e he).1
            (hwfspec k hk e he).2.2 l hlin2
  have hparse : ParseData p.render =
      parseLines ⟨initParsers⟩ ⟨"", (.Comments, "data")⟩ []
        (cs.map cmtLine ++
          (blockL "defaults" (bodyL "timeout" vD esD) ++
            (blockL "global" (bodyL "log" vG esG) ++
              (sectionsOrder.map fun k =>
                ((entriesOf (ms k)).map (entryLines k)).flatten).flatten))) := by
    rw [hrender]
    exact parseData_lines _ hnl
  have hreg0 : regOK (⟨initParsers⟩ : Parser) := by
    intro k
    cases k <;> exact ⟨_, rfl, by simp [uniqKeys]⟩
  have hact0 : (⟨initParsers⟩ : Parser).activeSet
      ⟨"", (.Comments, "data")⟩ = ⟨[.sectionDecl none, .commentLine []]⟩ :=
    activeSet_eq _ _ [("data", getStartParser)]
      ⟨[.sectionDecl none, .commentLine []]⟩ rfl (by decide)
  obtain ⟨prevC, heqC⟩ := stage_comments cs [] ⟨initParsers⟩
    ⟨"", (.Comments, "data")⟩ []
    (blockL "defaults" (bodyL "timeout" vD esD) ++
      (blockL "global" (bodyL "log" vG esG) ++
        (sectionsOrder.map fun k =>
          ((entriesOf (ms k)).map (entryLines k)).flatten).flatten))
    none hreg0 hcs hact0
  have hregC : regOK ((⟨initParsers⟩ : Parser).updateSection
      (⟨"", ((.Comments : Section), "data")⟩ : ConfiguredParsers).ActiveKey.1
      (⟨"", ((.Comments : Section), "data")⟩ : ConfiguredParsers).ActiveKey.2
      ⟨[.sectionDecl none, .commentLine ([] ++ cs)]⟩) :=
    regOK_update _ _ _ _ hreg0
  have hactC : ((⟨initParsers⟩ : Parser).updateSection
      (⟨"", ((.Comments : Section), "data")⟩ : ConfiguredParsers).ActiveKey.1
      (⟨"", ((.Comments : Section), "data")⟩ : ConfiguredParsers).ActiveKey.2
      ⟨[.sectionDecl none, .commentLine ([] ++ cs)]⟩).activeSet
        ⟨"", (.Comments, "data")⟩ =
      ⟨[.sectionDecl none, .commentLine ([] ++ cs)]⟩ :=
    activeSet_update _ _ _ [("data", getStartParser)] getStartParser rfl
      (by decide)
  have hDC : ((⟨initParsers⟩ : Parser).updateSection
      (⟨"", ((.Comments : Section), "data")⟩ : ConfiguredParsers).ActiveKey.1
      (⟨"", ((.Comments : Section), "data")⟩ : ConfiguredParsers).ActiveKey.2
      ⟨[.sectionDecl none, .commentLine ([] ++ cs)]⟩).Parsers .Defaults =
      some [("data", ⟨[.sectionDecl none, .intDirective "maxconn" none,
        .listDirective "timeout" []]⟩)] := by
    have h1 : ¬ (Section.Defaults) = (⟨"", ((.Comments : Section), "data")⟩ :
        ConfiguredParsers).ActiveKey.1 := by decide
    rw [updateSection_Parsers_ne _ _ _ _ _ h1]
    rfl
  have hGC : ((⟨initParsers⟩ : Parser).updateSection
      (⟨"", ((.Comments : Section), "data")⟩ : ConfiguredParsers).ActiveKey.1
      (⟨"", ((.Comments : Section), "data")⟩ : ConfiguredParsers).ActiveKey.2
      ⟨[.sectionDecl none, .commentLine ([] ++ cs)]⟩).Parsers .Global =
      some [("data", ⟨[.sectionDecl none, .intDirective "maxconn" none,
        .listDirective "log" []]⟩)] := by
    have h1 : ¬ (Section.Global) = (⟨"", ((.Comments : Section), "data")⟩ :
        ConfiguredParsers).ActiveKey.1 := by decide
    rw [updateSection_Parsers_ne _ _ _ _ _ h1]
    rfl
  obtain ⟨PS, cfgS, prevS, heqS, hregS, hheadS, hpresS, hvalD, hvalG⟩ :=
    stage_singles vD esD vG esG _ ⟨"", (.Comments, "data")⟩ prevC
      ((sectionsOrder.map fun k =>
        ((entriesOf (ms k)).map (entryLines k)).flatten).flatten)
      none [.commentLine ([] ++ cs)] none none hregC hactC rfl hDC hGC
      hvD hesD hvG hesG
  have hinitk : ∀ k ∈ sectionsOrder, (eraseAll PS).Parsers k = some [] := by
    intro k hk
    have hkD : ¬ k = .Defaults := by
      intro hc
      subst hc
      revert hk
      decide
    have hkG : ¬ k = .Global := by
      intro hc
      subst hc
      revert hk
      decide
    have hkC : ¬ k = (⟨"", ((.Comments : Section), "data")⟩ :
        ConfiguredParsers).ActiveKey.1 := by
      intro hc
      rw [hc] at hk
      revert hk
      decide
    rw [hpresS k hkD hkG, eraseAll_Parsers,
      updateSection_Parsers_ne _ _ _ _ _ hkC]
    have hik : (⟨initParsers⟩ : Parser).Parsers k = some [] := by
      revert hk
      cases k <;> decide
    rw [hik]
    rfl
  obtain ⟨F, cfgF, prevF, heqK, hregF, hheadF, hpresK, hvalK⟩ :=
    stage_kinds sectionsOrder (fun k => entriesOf (ms k)) PS cfgS prevS []
      hregS hheadS (by decide) hkinds hwfspec hinitk
  have hFeq : ParseData p.render = F := by
    rw [hparse, heqC, heqS, ← List.append_nil
      ((sectionsOrder.map fun k =>
        ((entriesOf (ms k)).map (entryLines k)).flatten).flatten), heqK]
    exact parseLines_nil F cfgF prevF
  have hCF : (eraseAll F).Parsers .Comments = some [("data",
      ⟨[.sectionDecl none, .commentLine cs]⟩)] := by
    rw [hpresK .Comments (by decide), hpresS .Comments (by decide)
      (by decide), eraseAll_Parsers]
    have h3 : ((⟨initParsers⟩ : Parser).updateSection
        (⟨"", ((.Comments : Section), "data")⟩ :
          ConfiguredParsers).ActiveKey.1
        (⟨"", ((.Comments : Section), "data")⟩ :
          ConfiguredParsers).ActiveKey.2
        ⟨[.sectionDecl none, .commentLine ([] ++ cs)]⟩).Parsers .Comments =
        some (mapReplace [("data", getStartParser)] "data"
          ⟨[.sectionDecl none, .commentLine ([] ++ cs)]⟩) :=
      updateSection_Parsers_self _ _ _ _ _ rfl
    rw [h3, List.nil_append]
    rfl
  have hDF : (eraseAll F).Parsers .Defaults = some [("data",
      ⟨[.sectionDecl none, .intDirective "maxconn" vD,
        .listDirective "timeout" esD]⟩)] := by
    rw [hpresK .Defaults (by decide), hvalD]
  have hGF : (eraseAll F).Parsers .Global = some [("data",
      ⟨[.sectionDecl none, .intDirective "maxconn" vG,
        .listDirective "log" esG]⟩)] := by
    rw [hpresK .Global (by decide), hvalG]
  have hMF : ∀ k ∈ sectionsOrder, (eraseAll F).Parsers k =
      some (regFold k [] (entriesOf (ms k))) ∧
      ∀ e ∈ regFold k [] (entriesOf (ms k)), wfSetB k e.2 = true := by
    intro k hk
    refine ⟨hvalK k hk, ?_⟩
    intro e he
    have hndk : ((entriesOf (ms k)).map fun x => x.1).Nodup := by
      rw [entriesOf_names]
      haveI : IsTotal String (fun a b => strLe a b = true) := ⟨strLe_total⟩
      haveI : IsTrans String (fun a b => strLe a b = true) := ⟨strLe_trans⟩
      exact (List.perm_insertionSort _ _).nodup_iff.mpr (hM' k hk).2.1
    rw [regFold_eq k _ [] (by simp) hndk, List.nil_append] at he
    rcases List.mem_map.mp he with ⟨e0, he0, rfl⟩
    exact wfSetB_entrySet k e0 (hwfspec k hk e0 (List.mem_of_mem_filter he0)).2.1
      (hwfspec k hk e0 (List.mem_of_mem_filter he0)).2.2
  have hspecF : specRenderLines (eraseAll F) = cs.map cmtLine ++
      (blockL "defaults" (bodyL "timeout" vD esD) ++
        (blockL "global" (bodyL "log" vG esG) ++
          (sectionsOrder.map fun k =>
            ((entriesOf (regFold k [] (entriesOf (ms k)))).map
              (entryLines k)).flatten).flatten)) :=
    specRenderLines_wf (eraseAll F) cs none none none vD esD vG esG
      (fun k => regFold k [] (entriesOf (ms k))) hCF hDF hGF hMF
  have hkind_eq : ∀ k ∈ sectionsOrder,
      ((entriesOf (regFold k [] (entriesOf (ms k)))).map
        (entryLines k)).flatten =
      ((entriesOf (ms k)).map (entryLines k)).flatten := by
    intro k hk
    haveI : IsTotal String (fun a b => strLe a b = true) := ⟨strLe_total⟩
    haveI : IsTrans String (fun a b => strLe a b = true) := ⟨strLe_trans⟩
    apply kind_readback
    · rw [entriesOf_names]
      exact List.sorted_insertionSort _ _
    · rw [entriesOf_names]
      exact (List.perm_insertionSort _ _).nodup_iff.mpr (hM' k hk).2.1
  have hmapk : (sectionsOrder.map fun k =>
      ((entriesOf (regFold k [] (entriesOf (ms k)))).map
        (entryLines k)).flatten) =
      sectionsOrder.map fun k =>
        ((entriesOf (ms k)).map (entryLines k)).flatten :=
    List.map_congr_left hkind_eq
  rw [hFeq, render_eq_spec F, ← specRenderLines_eraseAll F, hspecF, hmapk]
  exact hrender.symm

/-- C1 counterexample: for render-produced texts of states reachable
through the public API the original unconditional claim fails.  A
frontend section named `"a b"` (created by `SectionsCreate`, which
never validates the name) renders as the header `"frontend a b "`;
re-parsing tokenizes the name back as two fields, keeps only `"a"`, and
the second render differs from the first. -/
theorem c1_round_trip_counterexample :
    ¬ ((ParseData ((((ParseData "").SectionsCreate .Frontends
          "a b").2.Set .Frontends "a b" "maxconn" (.intV 5)
          (-1)).2.render)).render =
        ((((ParseData "").SectionsCreate .Frontends "a b").2.Set .Frontends
          "a b" "maxconn" (.intV 5) (-1)).2.render)) := by
  decide

/-- Witness for C1 at a concrete input: the freshly initialized
registry is well-formed and round-trips. -/
theorem c1_round_trip_witness :
    WFState (ParseData "") ∧
      (ParseData (ParseData "").render).render = (ParseData "").render := by
  have hwf : WFState (ParseData "") := by
    refine ⟨⟨getStartParser, rfl, by decide⟩,
      ⟨getDefaultParser, rfl, by decide⟩,
      ⟨getGlobalParser, rfl, by decide⟩, ?_⟩
    intro k hk
    refine ⟨[], ?_, by simp, by simp⟩
    revert hk
    cases k <;> decide
  exact ⟨hwf, c1_round_trip _ hwf⟩

end ConfigParser
